import Mathlib

/-!
# Qt Creator plugins: a verification development

Shallow embedding of

* `ProjectStorageUpdater` (qmldesigner/designercore/projectstorage/projectstorageupdater.h),
* `DependenciesModel` (projectexplorer/dependenciespanel.cpp),
* `QbsBuildStep` (qbsprojectmanager/qbsbuildstep.cpp),

followed by the theorems about them.  Definitions come first, theorems last.
-/

set_option autoImplicit false

/-! ## ProjectStorageUpdater: data declared in the header -/

namespace QmlDesigner

/-- Source ids are small integers handed out by the path cache. -/
abbrev SourceId := Nat

/-- Module ids, likewise. -/
abbrev ModuleId := Nat

/-- Width of `std::size_t` on the supported (64 bit) platforms. -/
def sizeBits : Nat := 64

/-- `ProjectStorageUpdater::Component` (projectstorageupdater.h:62-69). -/
structure Component where
  fileName : String
  typeName : String
  moduleId : ModuleId
  majorVersion : Int := -1
  minorVersion : Int := -1
deriving DecidableEq, Repr

/-- `using Components = std::vector<Component>`. -/
abbrev Components := List Component

/-- `ProjectStorageUpdater::ComponentRange` (projectstorageupdater.h:73-91).  A
`Components::const_iterator` is a position in the vector it points into; the range
stores the two iterators it was constructed from. -/
structure ComponentRange where
  m_begin : Nat
  m_end : Nat
deriving DecidableEq, Repr

namespace ComponentRange

/-- `begin()` returns `m_begin`. -/
def «begin» (r : ComponentRange) : Nat := r.m_begin

/-- `end()` returns `m_end`. -/
def «end» (r : ComponentRange) : Nat := r.m_end

/-- `std::distance(m_begin, m_end)`: the signed difference of the two positions. -/
def distance (first last : Nat) : Int := (last : Int) - (first : Int)

/-- `size()`: `static_cast<std::size_t>(std::distance(m_begin, m_end))`; the cast
reduces the signed difference modulo `2 ^ 64`. -/
def size (r : ComponentRange) : Nat :=
  (distance r.m_begin r.m_end % (2 ^ sizeBits : Int)).toNat

/-- The loop `for (it = first; it != last; ++it) yield *it` over the vector `v`.
Dereferencing a position outside `v` has no defined result (`none`), and so has a
loop that did not meet `last` within its fuel. -/
def loop (v : Components) : Nat → Nat → Nat → Option (List Component)
  | 0, _, _ => none
  | fuel + 1, it, last =>
    if it = last then some []
    else
      match v[it]? with
      | none => none
      | some c => (loop v fuel (it + 1) last).map (fun rest => c :: rest)

/-- Iterating a range from `begin()` to `end()`.  A loop over positions of `v` makes
at most `v.length + 1` comparisons before it leaves the vector. -/
def elements (v : Components) (r : ComponentRange) : Option (List Component) :=
  loop v (v.length + 1) r.begin r.end

end ComponentRange

end QmlDesigner

/-! ## ProjectStorageUpdater: the update pass

The header declares the operations of the updater; their bodies
(projectstorageupdater.cpp) are not among the sources.  The definitions of this section
that are marked so follow the specification of the updater: its data model, the eight
steps of `update`, the file state machine and its error handling. -/

namespace QmlDesigner

/-- `ProjectStorageUpdater::FileState` (projectstorageupdater.h:93-97). -/
inductive FileState where
  | NotChanged
  | Changed
  | NotExists
deriving DecidableEq, Repr

/-- `SourceIds`: a vector of source ids. -/
abbrev SourceIds := List SourceId

/-- Project part ids: the scope tag of an update. -/
abbrev ProjectPartId := Nat

/-- The collections of `ProjectStorageUpdater::SourceIdsData`
(projectstorageupdater.h:112-117). -/
structure SourceIdsData where
  notUpdatedFileStatusSourceIds : SourceIds
  notUpdatedSourceIds : SourceIds
  watchedDirectorySourceIds : SourceIds
  watchedQmldirSourceIds : SourceIds
  watchedQmlSourceIds : SourceIds
  watchedQmltypesSourceIds : SourceIds
deriving DecidableEq, Repr

/-- Modelled from the spec: `FileStatus` of filestatus.h, which is not among the sources:
"(sourceId, lastModifiedFingerprint, size|hash)". -/
structure FileStatus where
  sourceId : SourceId
  size : Int
  lastModified : Int
deriving DecidableEq, Repr

/-- Modelled from the spec: the two kinds of files a project-data record can stand for, a
component (document) file or a type-info file; `FileType` of projectstoragetypes.h is not
among the sources. -/
inductive FileType where
  | QmlDocument
  | QmlTypes
deriving DecidableEq, Repr

/-- Modelled from the spec: a project-data record of projectstoragetypes.h (not among the
sources), "which module/directory belongs to which project scope": the directory that
lists the file, the file, its module and its kind. -/
structure ProjectData where
  projectSourceId : SourceId
  sourceId : SourceId
  moduleId : ModuleId
  fileType : FileType
deriving DecidableEq, Repr

/-- Modelled from the spec: a type record of projectstoragetypes.h (not among the
sources): a declaration that a parser produced from the file `sourceId`. -/
structure StorageType where
  sourceId : SourceId
  declaration : String
deriving DecidableEq, Repr

/-- Modelled from the spec: `ExportedType` of projectstoragetypes.h (not among the
sources), "a type name plus version", with the file and the module it is exported for. -/
structure ExportedType where
  sourceId : SourceId
  name : String
  moduleId : ModuleId
  majorVersion : Int
  minorVersion : Int
deriving DecidableEq, Repr

/-- Modelled from the spec: `SynchronizationPackage` of projectstoragetypes.h (not among
the sources): "{types to upsert, exports to upsert, project-data records to upsert, file
statuses to upsert, source ids to remove}". -/
structure SynchronizationPackage where
  types : List StorageType
  exportedTypes : List ExportedType
  projectDatas : List ProjectData
  fileStatuses : List FileStatus
  removedSourceIds : SourceIds
deriving DecidableEq, Repr

/-- Modelled from the spec: what the persistent project storage (projectstorage.h, not
among the sources) holds for one scope: "types, exports, project-data records, and file
statuses". -/
structure ScopeStorage where
  types : List StorageType
  exportedTypes : List ExportedType
  projectDatas : List ProjectData
  fileStatuses : List FileStatus
deriving DecidableEq, Repr

/-- Modelled from the spec: the persistent project storage, one independent record set
per scope. -/
abbrev ProjectStorage := ProjectPartId → ScopeStorage

/-- Modelled from the spec: the watch set of one scope, as installed with the path watcher
(projectstoragepathwatcherinterface.h, not among the sources): "directories,
module-descriptor files, component files, type-info files". -/
structure WatchedSourceIds where
  directories : SourceIds
  qmldirs : SourceIds
  qmlFiles : SourceIds
  qmltypesFiles : SourceIds
deriving DecidableEq, Repr

/-- Modelled from the spec: the path watcher's registrations, one watch set per scope. -/
abbrev PathWatcher := ProjectPartId → WatchedSourceIds

/-- Modelled from the spec: what the descriptor parser (`QmlDirParser`, not among the
sources) obtains from a module descriptor: "the module's declared dependencies/imports,
its list of additional type-info file references, and its list of component
declarations". -/
structure QmldirInfo where
  moduleId : ModuleId
  dependencies : List String
  imports : List String
  typeInfos : List String
  components : Components
deriving DecidableEq, Repr

/-- Modelled from the spec: the collaborators of the updater (none of them among the
sources).  The path interner takes a path to its source id; the file status cache "maps
a source identity to (exists, last-modified/size fingerprint)", `none` for a path that
does not exist; the filesystem reader gives the contents of a file; the parsers are "pure
functions of file content", the document and type-info parsers with "(success value |
classified error)" as their result. -/
structure Collaborators where
  sourceId : String → SourceId
  fileStatus : SourceId → Option (Int × Int)
  fileContents : SourceId → String
  parseQmldir : String → QmldirInfo
  parseQmlDocument : String → Option String
  parseQmlTypes : String → Option (List String)

/-- The state that one update pass threads through its steps: the synchronization package
and the `SourceIdsData` that the header's operations take by reference, together with a
record of the files handed to the document parser and to the type-info parser and of the
files whose parse failed. -/
structure Pass where
  package : SynchronizationPackage
  sourceIdsData : SourceIdsData
  qmlDocumentParserCalls : SourceIds
  qmlTypesParserCalls : SourceIds
  diagnostics : SourceIds
deriving DecidableEq, Repr

/-- The four watched collections of `SourceIdsData`. -/
inductive WatchedKind where
  | Directory
  | Qmldir
  | Qml
  | Qmltypes
deriving DecidableEq, Repr

/-- The empty package. -/
def SynchronizationPackage.empty : SynchronizationPackage := ⟨[], [], [], [], []⟩

/-- `SourceIdsData` after construction: all collections empty (the constructor only
reserves capacity). -/
def SourceIdsData.empty : SourceIdsData := ⟨[], [], [], [], [], []⟩

/-- The pass state at the start of `update`. -/
def Pass.start : Pass := ⟨SynchronizationPackage.empty, SourceIdsData.empty, [], [], []⟩

/-- The ids in the watched collections. -/
def SourceIdsData.watched (d : SourceIdsData) : SourceIds :=
  d.watchedDirectorySourceIds ++ d.watchedQmldirSourceIds ++ d.watchedQmlSourceIds
    ++ d.watchedQmltypesSourceIds

/-- The ids in the not-updated collections. -/
def SourceIdsData.notUpdated (d : SourceIdsData) : SourceIds :=
  d.notUpdatedFileStatusSourceIds ++ d.notUpdatedSourceIds

/-- Modelled from the spec: `ProjectStorageInterface::fetchFileStatus`: "the last stored
FileStatus" of a source id, if there is one. -/
def fetchFileStatus (storage : ScopeStorage) (sourceId : SourceId) : Option FileStatus :=
  storage.fileStatuses.find? (fun fs => fs.sourceId == sourceId)

/-- Modelled from the spec: `ProjectStorageInterface::fetchProjectDatas`: the stored
project-data records of a directory. -/
def fetchProjectDatas (storage : ScopeStorage) (projectSourceId : SourceId) :
    List ProjectData :=
  storage.projectDatas.filter (fun r => r.projectSourceId == projectSourceId)

/-- Modelled from the spec: the "current on-disk fingerprint (existence + modification
signature)" of a source id, as a `FileStatus`. -/
def currentFileStatus (c : Collaborators) (sourceId : SourceId) : Option FileStatus :=
  (c.fileStatus sourceId).map (fun fp => ⟨sourceId, fp.1, fp.2⟩)

namespace Pass

/-- Append a file status to upsert. -/
def addFileStatus (pass : Pass) (fs : FileStatus) : Pass :=
  { pass with package := { pass.package with
      fileStatuses := pass.package.fileStatuses ++ [fs] } }

/-- Queue a source id for removal. -/
def queueRemoval (pass : Pass) (sourceId : SourceId) : Pass :=
  { pass with package := { pass.package with
      removedSourceIds := pass.package.removedSourceIds ++ [sourceId] } }

/-- Append types to upsert. -/
def addTypes (pass : Pass) (types : List StorageType) : Pass :=
  { pass with package := { pass.package with types := pass.package.types ++ types } }

/-- Append an exported type to upsert. -/
def addExportedType (pass : Pass) (e : ExportedType) : Pass :=
  { pass with package := { pass.package with
      exportedTypes := pass.package.exportedTypes ++ [e] } }

/-- Append a project-data record to upsert. -/
def addProjectData (pass : Pass) (r : ProjectData) : Pass :=
  { pass with package := { pass.package with
      projectDatas := pass.package.projectDatas ++ [r] } }

/-- Record an id whose file status is not updated. -/
def addNotUpdatedFileStatus (pass : Pass) (sourceId : SourceId) : Pass :=
  { pass with sourceIdsData := { pass.sourceIdsData with
      notUpdatedFileStatusSourceIds :=
        pass.sourceIdsData.notUpdatedFileStatusSourceIds ++ [sourceId] } }

/-- Record an id whose records are not updated. -/
def addNotUpdated (pass : Pass) (sourceId : SourceId) : Pass :=
  { pass with sourceIdsData := { pass.sourceIdsData with
      notUpdatedSourceIds := pass.sourceIdsData.notUpdatedSourceIds ++ [sourceId] } }

/-- Record a watched id in the collection of its kind. -/
def watch (pass : Pass) (kind : WatchedKind) (sourceId : SourceId) : Pass :=
  match kind with
  | WatchedKind.Directory =>
    { pass with sourceIdsData := { pass.sourceIdsData with
        watchedDirectorySourceIds :=
          pass.sourceIdsData.watchedDirectorySourceIds ++ [sourceId] } }
  | WatchedKind.Qmldir =>
    { pass with sourceIdsData := { pass.sourceIdsData with
        watchedQmldirSourceIds := pass.sourceIdsData.watchedQmldirSourceIds ++ [sourceId] } }
  | WatchedKind.Qml =>
    { pass with sourceIdsData := { pass.sourceIdsData with
        watchedQmlSourceIds := pass.sourceIdsData.watchedQmlSourceIds ++ [sourceId] } }
  | WatchedKind.Qmltypes =>
    { pass with sourceIdsData := { pass.sourceIdsData with
        watchedQmltypesSourceIds :=
          pass.sourceIdsData.watchedQmltypesSourceIds ++ [sourceId] } }

/-- Hand a file to the type-info parser: "parse it and merge resulting types/exports into
the package"; a parse error is "recorded as a diagnostic" and the "pass continues". -/
def parseQmlTypesFile (c : Collaborators) (pass : Pass) (sourceId : SourceId) : Pass :=
  let pass := { pass with qmlTypesParserCalls := pass.qmlTypesParserCalls ++ [sourceId] }
  match c.parseQmlTypes (c.fileContents sourceId) with
  | some declarations => pass.addTypes (declarations.map (fun d => ⟨sourceId, d⟩))
  | none => { pass with diagnostics := pass.diagnostics ++ [sourceId] }

/-- Hand a file to the document parser and "merge exported-type and type records into the
package"; a parse error is "recorded as a diagnostic" and the "pass continues". -/
def parseQmlDocumentFile (c : Collaborators) (pass : Pass) (sourceId : SourceId)
    (exportedType : ExportedType) : Pass :=
  let pass := { pass with qmlDocumentParserCalls := pass.qmlDocumentParserCalls ++ [sourceId] }
  match c.parseQmlDocument (c.fileContents sourceId) with
  | some declaration => (pass.addTypes [⟨sourceId, declaration⟩]).addExportedType exportedType
  | none => { pass with diagnostics := pass.diagnostics ++ [sourceId] }

end Pass

/-- Modelled from the spec: `ProjectStorageUpdater::fileState`
(projectstorageupdater.h:164-166; the body is not among the sources), the file state
machine: "fetch current on-disk fingerprint (existence + modification signature). If the
path does not exist → `NotExists` (and if previously existed, its stored records must be
queued for removal). If it exists and the fingerprint matches the last stored FileStatus →
`NotChanged` (skip re-parse). If it exists and the fingerprint differs, or no prior
FileStatus exists → `Changed` (must re-parse and upsert FileStatus)."  An unchanged file
enters the not-updated file status collection. -/
def fileState (c : Collaborators) (storage : ScopeStorage) (sourceId : SourceId)
    (pass : Pass) : FileState × Pass :=
  match currentFileStatus c sourceId with
  | none =>
    if (fetchFileStatus storage sourceId).isSome then
      (FileState.NotExists, pass.queueRemoval sourceId)
    else (FileState.NotExists, pass)
  | some current =>
    if fetchFileStatus storage sourceId = some current then
      (FileState.NotChanged, pass.addNotUpdatedFileStatus sourceId)
    else (FileState.Changed, pass.addFileStatus current)

/-- Modelled from the spec: the check that every step of the pass makes of a file: its
`fileState`, and for a file that exists "record its id as watched" / "mark component ids
watched" in the collection of its kind.  A file that does not exist is not watched (its
"id is absent from the new watched-component set"). -/
def fileStateAndWatch (c : Collaborators) (storage : ScopeStorage) (kind : WatchedKind)
    (sourceId : SourceId) (pass : Pass) : FileState × Pass :=
  let r := fileState c storage sourceId pass
  match r.1 with
  | FileState.NotExists => (FileState.NotExists, r.2)
  | FileState.Changed => (FileState.Changed, r.2.watch kind sourceId)
  | FileState.NotChanged => (FileState.NotChanged, r.2.watch kind sourceId)

/-- Modelled from the spec: `ProjectStorageUpdater::parseTypeInfo`
(projectstorageupdater.h:143-146; the body is not among the sources): "check FileState;
if Changed or newly seen, parse it and merge resulting types/exports into the package;
record its id as watched and as not-removed".  A file that does not exist is neither
parsed nor watched: its "prior records (if any) for it are queued for removal". -/
def parseTypeInfo (c : Collaborators) (storage : ScopeStorage) (projectData : ProjectData)
    (pass : Pass) : FileState × Pass :=
  let r := fileStateAndWatch c storage WatchedKind.Qmltypes projectData.sourceId pass
  match r.1 with
  | FileState.Changed =>
    (FileState.Changed, Pass.parseQmlTypesFile c r.2 projectData.sourceId)
  | FileState.NotChanged => (FileState.NotChanged, r.2.addNotUpdated projectData.sourceId)
  | FileState.NotExists => (FileState.NotExists, r.2)

/-- Modelled from the spec: `ProjectStorageUpdater::updateQmlTypes`
(projectstorageupdater.h:120-122; the body is not among the sources), step 2 of `update`:
"for each explicit type-info path, resolve its SourceId, check FileState" and so on, as
`parseTypeInfo` does. -/
def updateQmlTypes (c : Collaborators) (storage : ScopeStorage) (qmlTypesPaths : List String)
    (pass : Pass) : Pass :=
  qmlTypesPaths.foldl
    (fun pass qmlTypesPath =>
      (parseTypeInfo c storage
        ⟨c.sourceId qmlTypesPath, c.sourceId qmlTypesPath, 0, FileType.QmlTypes⟩ pass).2)
    pass

/-- One type-info file referenced by a module descriptor: `parseTypeInfo`, and a
project-data record of the directory for a file that exists. -/
def parseReferencedTypeInfo (c : Collaborators) (storage : ScopeStorage)
    (directorySourceId : SourceId) (directoryPath : String) (moduleId : ModuleId)
    (pass : Pass) (typeInfo : String) : Pass :=
  let projectData : ProjectData :=
    ⟨directorySourceId, c.sourceId (directoryPath ++ "/" ++ typeInfo), moduleId,
      FileType.QmlTypes⟩
  let r := parseTypeInfo c storage projectData pass
  match r.1 with
  | FileState.NotExists => r.2
  | FileState.Changed => r.2.addProjectData projectData
  | FileState.NotChanged => r.2.addProjectData projectData

/-- Modelled from the spec: `ProjectStorageUpdater::parseTypeInfos`
(projectstorageupdater.h:132-139; the body is not among the sources), step 4 of `update`:
"for each type-info file referenced by a module descriptor, resolve against the
directory's import/dependency context and the module id; parse and merge if changed, same
as step 2 but scoped to the module". -/
def parseTypeInfos (c : Collaborators) (storage : ScopeStorage) (typeInfos : List String)
    (directorySourceId : SourceId) (directoryPath : String) (moduleId : ModuleId)
    (pass : Pass) : Pass :=
  typeInfos.foldl
    (parseReferencedTypeInfo c storage directorySourceId directoryPath moduleId) pass

/-- Modelled from the spec: `ProjectStorageUpdater::parseQmlComponent` for a component of
a descriptor (projectstorageupdater.h:153-159; the body is not among the sources), step 6
of `update` for one component: "resolve each to a SourceId; for components whose
module-descriptor itself changed, force re-parse of every component (...); otherwise only
re-parse components whose own FileState is Changed or NotExists-turned-Exists. Merge
exported-type and type records into the package; mark component ids watched."  Step 6
does not say what is done with a listed component whose file does not exist.  By the file
state machine such a file is `NotExists` ("if previously existed, its stored records must
be queued for removal"), and by the removal property it "no longer appears in any
watched-id collection after the pass"; the model therefore leaves it out of the pass,
neither parsed nor watched.  A component whose file exists gets a project-data record of
the directory. -/
def parseQmlComponent (c : Collaborators) (storage : ScopeStorage) (component : Component)
    (directoryPath : String) (directorySourceId : SourceId) (pass : Pass)
    (qmldirState : FileState) : Pass :=
  let sourceId := c.sourceId (directoryPath ++ "/" ++ component.fileName)
  let exportedType : ExportedType :=
    ⟨sourceId, component.typeName, component.moduleId, component.majorVersion,
      component.minorVersion⟩
  let projectData : ProjectData :=
    ⟨directorySourceId, sourceId, component.moduleId, FileType.QmlDocument⟩
  let r := fileStateAndWatch c storage WatchedKind.Qml sourceId pass
  match r.1 with
  | FileState.NotExists => r.2
  | FileState.Changed =>
    Pass.parseQmlDocumentFile c (r.2.addProjectData projectData) sourceId exportedType
  | FileState.NotChanged =>
    if qmldirState = FileState.Changed then
      Pass.parseQmlDocumentFile c (r.2.addProjectData projectData) sourceId exportedType
    else (r.2.addProjectData projectData).addNotUpdated sourceId

/-- Modelled from the spec: `ProjectStorageUpdater::parseQmlComponents`
(projectstorageupdater.h:147-152; the body is not among the sources), step 6 of `update`:
the directory's declared components, in declaration order. -/
def parseQmlComponents (c : Collaborators) (storage : ScopeStorage) (components : Components)
    (directorySourceId : SourceId) (directoryPath : String) (pass : Pass)
    (qmldirState : FileState) : Pass :=
  components.foldl
    (fun pass component =>
      parseQmlComponent c storage component directoryPath directorySourceId pass qmldirState)
    pass

/-- Hand a stored component file to the document parser; the exported names stay the
stored ones. -/
def Pass.parseStoredQmlDocumentFile (c : Collaborators) (pass : Pass) (sourceId : SourceId) :
    Pass :=
  let pass := { pass with qmlDocumentParserCalls := pass.qmlDocumentParserCalls ++ [sourceId] }
  match c.parseQmlDocument (c.fileContents sourceId) with
  | some declaration => pass.addTypes [⟨sourceId, declaration⟩]
  | none => { pass with diagnostics := pass.diagnostics ++ [sourceId] }

/-- Modelled from the spec: `ProjectStorageUpdater::parseQmlComponent` for a stored
component file (projectstorageupdater.h:160-162; the body is not among the sources): with
an unchanged descriptor, "only re-parse components whose own FileState is Changed". -/
def parseStoredQmlComponent (c : Collaborators) (storage : ScopeStorage) (sourceId : SourceId)
    (pass : Pass) : Pass :=
  let r := fileStateAndWatch c storage WatchedKind.Qml sourceId pass
  match r.1 with
  | FileState.NotExists => r.2
  | FileState.Changed => Pass.parseStoredQmlDocumentFile c r.2 sourceId
  | FileState.NotChanged => r.2.addNotUpdated sourceId

/-- One stored project-data record: a type-info file goes through `parseTypeInfo`, a
component file through `parseQmlComponent`. -/
def parseProjectData (c : Collaborators) (storage : ScopeStorage) (pass : Pass)
    (projectData : ProjectData) : Pass :=
  match projectData.fileType with
  | FileType.QmlTypes => (parseTypeInfo c storage projectData pass).2
  | FileType.QmlDocument => parseStoredQmlComponent c storage projectData.sourceId pass

/-- Modelled from the spec: `ProjectStorageUpdater::parseProjectDatas`
(projectstorageupdater.h:140-142; the body is not among the sources), step 5 of `update`:
"merge any project-data records (...) already known, detecting per-record FileState via
`parseTypeInfo`, to decide Changed/NotExists handling (an entry whose backing file
vanished must be dropped from the package and queued for removal)". -/
def parseProjectDatas (c : Collaborators) (storage : ScopeStorage)
    (projectDatas : List ProjectData) (pass : Pass) : Pass :=
  projectDatas.foldl (parseProjectData c storage) pass

/-- Modelled from the spec: `ProjectStorageUpdater::updateDirectory`
(projectstorageupdater.h:128-130; the body is not among the sources), step 3 of `update`:
"resolve DirectoryId; locate and check the directory's module-descriptor file
(qmldir-equivalent); if present and Changed, parse it (...). Record the descriptor file
as watched."  "A missing directory or unreadable descriptor is not fatal — it demotes
affected components to removed": nothing below it is visited.  With an unchanged
descriptor the directory's files are the stored project-data records. -/
def updateDirectory (c : Collaborators) (storage : ScopeStorage) (pass : Pass)
    (directory : String) : Pass :=
  let directorySourceId := c.sourceId directory
  let r := fileStateAndWatch c storage WatchedKind.Directory directorySourceId pass
  match r.1 with
  | FileState.NotExists => r.2
  | _ =>
    let qmldirSourceId := c.sourceId (directory ++ "/qmldir")
    let q := fileStateAndWatch c storage WatchedKind.Qmldir qmldirSourceId r.2
    match q.1 with
    | FileState.NotExists => q.2
    | FileState.Changed =>
      let qmldir := c.parseQmldir (c.fileContents qmldirSourceId)
      let pass := parseTypeInfos c storage qmldir.typeInfos directorySourceId directory
        qmldir.moduleId q.2
      parseQmlComponents c storage qmldir.components directorySourceId directory pass
        FileState.Changed
    | FileState.NotChanged =>
      parseProjectDatas c storage (fetchProjectDatas storage directorySourceId)
        (q.2.addNotUpdated qmldirSourceId)

/-- Modelled from the spec: `ProjectStorageUpdater::updateDirectories`
(projectstorageupdater.h:124-126; the body is not among the sources): `updateDirectory`
per directory, in the order given; duplicates are tolerated. -/
def updateDirectories (c : Collaborators) (storage : ScopeStorage) (directories : List String)
    (pass : Pass) : Pass :=
  directories.foldl (updateDirectory c storage) pass

/-- Modelled from the spec: the source ids that storage holds for a scope: those of its
file statuses, types, exports and project-data records. -/
def storedSourceIds (storage : ScopeStorage) : SourceIds :=
  storage.fileStatuses.map (fun r => r.sourceId) ++ storage.types.map (fun r => r.sourceId)
    ++ storage.exportedTypes.map (fun r => r.sourceId)
    ++ storage.projectDatas.map (fun r => r.sourceId)

/-- Modelled from the spec: step 7 of `update`: "any previously stored SourceId for this
scope that never entered a "watched" or "not-updated" collection during this pass is
stale and is appended to the package's removal list." -/
def appendStaleSourceIds (storage : ScopeStorage) (pass : Pass) : Pass :=
  { pass with package := { pass.package with
      removedSourceIds := pass.package.removedSourceIds ++
        (storedSourceIds storage).filter (fun sourceId =>
          !(pass.sourceIdsData.watched.contains sourceId
            || pass.sourceIdsData.notUpdated.contains sourceId)) } }

/-- Modelled from the spec: steps 1 to 7 of `update`: the pass over the explicit type-info
paths and the directories, and the computation of the removal set. -/
def collect (c : Collaborators) (storage : ScopeStorage) (directories : List String)
    (qmlTypesPaths : List String) : Pass :=
  let pass := Pass.start
  let pass := updateQmlTypes c storage qmlTypesPaths pass
  let pass := updateDirectories c storage directories pass
  appendStaleSourceIds storage pass

/-- Upsert a batch of records: the stored records whose key occurs among the new records
are replaced by the new records, each new record stored once. -/
def upsert {α : Type} [DecidableEq α] (key : α → SourceId) (stored new : List α) : List α :=
  stored.filter (fun r => !((new.map key).contains (key r))) ++ new.dedup

/-- Modelled from the spec: `ProjectStorageInterface::synchronize`, the "atomic bulk
upsert/delete": the records of the removed source ids are deleted; types, exports and
file statuses are upserted per source id, project-data records per directory. -/
def synchronize (package : SynchronizationPackage) (storage : ScopeStorage) : ScopeStorage :=
  let keep := fun (sourceId : SourceId) => !(package.removedSourceIds.contains sourceId)
  { types := upsert (fun r => r.sourceId)
      (storage.types.filter (fun r => keep r.sourceId)) package.types
    exportedTypes := upsert (fun r => r.sourceId)
      (storage.exportedTypes.filter (fun r => keep r.sourceId)) package.exportedTypes
    projectDatas := upsert (fun r => r.projectSourceId)
      (storage.projectDatas.filter (fun r => keep r.sourceId)) package.projectDatas
    fileStatuses := upsert (fun r => r.sourceId)
      (storage.fileStatuses.filter (fun r => keep r.sourceId)) package.fileStatuses }

/-- The watch set computed by a pass. -/
def watchedSourceIds (pass : Pass) : WatchedSourceIds :=
  { directories := pass.sourceIdsData.watchedDirectorySourceIds
    qmldirs := pass.sourceIdsData.watchedQmldirSourceIds
    qmlFiles := pass.sourceIdsData.watchedQmlSourceIds
    qmltypesFiles := pass.sourceIdsData.watchedQmltypesSourceIds }

/-- What a call of `update` leaves behind: the storage and the watcher registrations, and
for inspection the package it committed and the files it handed to the two parsers. -/
structure UpdateResult where
  storage : ProjectStorage
  watcher : PathWatcher
  package : SynchronizationPackage
  qmlDocumentParserCalls : SourceIds
  qmlTypesParserCalls : SourceIds

/-- Modelled from the spec: `ProjectStorageUpdater::update`
(projectstorageupdater.h:56-58; the body is not among the sources): steps 1 to 7 build
the package, step 8 is "commit the SynchronizationPackage to storage as one transaction;
install the newly computed watch sets with the watcher, replacing prior registrations for
the same scope". -/
def update (c : Collaborators) (storage : ProjectStorage) (watcher : PathWatcher)
    (directories : List String) (qmlTypesPaths : List String) (projectPartId : ProjectPartId) :
    UpdateResult :=
  let pass := collect c (storage projectPartId) directories qmlTypesPaths
  { storage := Function.update storage projectPartId
      (synchronize pass.package (storage projectPartId))
    watcher := Function.update watcher projectPartId (watchedSourceIds pass)
    package := pass.package
    qmlDocumentParserCalls := pass.qmlDocumentParserCalls
    qmlTypesParserCalls := pass.qmlTypesParserCalls }

end QmlDesigner

namespace QmlDesigner

/-- The file state of a source id against a storage: the classification that `fileState`
returns (it does not depend on the pass state it is handed). -/
def fileStateOf (c : Collaborators) (storage : ScopeStorage) (sourceId : SourceId) :
    FileState :=
  (fileState c storage sourceId Pass.start).1

/-- The source ids of the files of a component list in a directory, in declaration
order. -/
def componentSourceIds (c : Collaborators) (directoryPath : String) (components : Components) :
    SourceIds :=
  components.map (fun component => c.sourceId (directoryPath ++ "/" ++ component.fileName))

end QmlDesigner

namespace QmlDesigner

/-- The source ids of the files that a directory's module descriptor declares: its
type-info references and its components. -/
def declaredSourceIds (c : Collaborators) (directory : String) : SourceIds :=
  (c.parseQmldir (c.fileContents (c.sourceId (directory ++ "/qmldir")))).typeInfos.map
      (fun typeInfo => c.sourceId (directory ++ "/" ++ typeInfo))
    ++ componentSourceIds c directory
      (c.parseQmldir (c.fileContents (c.sourceId (directory ++ "/qmldir")))).components

/-- The ways in which a pass over `directories` and `qmlTypesPaths` comes to check a
source id: it is an explicit type-info path, a directory, the descriptor of a directory
that exists, a file declared by a changed descriptor, or a file of a stored project-data
record of a directory whose descriptor is unchanged. -/
def WatchReason (c : Collaborators) (storage : ScopeStorage) (directories : List String)
    (qmlTypesPaths : List String) (x : SourceId) : Prop :=
  (∃ t ∈ qmlTypesPaths, x = c.sourceId t) ∨
  (∃ d ∈ directories, x = c.sourceId d) ∨
  (∃ d ∈ directories, c.fileStatus (c.sourceId d) ≠ none ∧ x = c.sourceId (d ++ "/qmldir")) ∨
  (∃ d ∈ directories, c.fileStatus (c.sourceId d) ≠ none ∧
    fileStateOf c storage (c.sourceId (d ++ "/qmldir")) = FileState.Changed ∧
    x ∈ declaredSourceIds c d) ∨
  (∃ d ∈ directories, c.fileStatus (c.sourceId d) ≠ none ∧
    fileStateOf c storage (c.sourceId (d ++ "/qmldir")) = FileState.NotChanged ∧
    ∃ r ∈ storage.projectDatas, r.projectSourceId = c.sourceId d ∧ r.sourceId = x)

/-- What holds of the pass state between the steps of a pass over `directories` and
`qmlTypesPaths`: the not-updated ids are watched; a watched id exists, was checked for a
reason, and its current file status is either in the package or the stored one; the
package holds current file statuses and records of watched files only, project-data
records only for directories with a changed descriptor; the ids queued for removal do not
exist. -/
structure PassInv (c : Collaborators) (storage : ScopeStorage) (directories : List String)
    (qmlTypesPaths : List String) (pass : Pass) : Prop where
  notUpdated : ∀ x ∈ pass.sourceIdsData.notUpdated, x ∈ pass.sourceIdsData.watched
  current : ∀ x ∈ pass.sourceIdsData.watched, ∃ cur, currentFileStatus c x = some cur ∧
    (cur ∈ pass.package.fileStatuses ∨ fetchFileStatus storage x = some cur)
  reason : ∀ x ∈ pass.sourceIdsData.watched,
    WatchReason c storage directories qmlTypesPaths x
  fileStatuses : ∀ fs ∈ pass.package.fileStatuses,
    currentFileStatus c fs.sourceId = some fs ∧ fs.sourceId ∈ pass.sourceIdsData.watched
  removed : ∀ x ∈ pass.package.removedSourceIds, c.fileStatus x = none
  types : ∀ r ∈ pass.package.types, r.sourceId ∈ pass.sourceIdsData.watched
  exportedTypes : ∀ r ∈ pass.package.exportedTypes, r.sourceId ∈ pass.sourceIdsData.watched
  projectDatas : ∀ r ∈ pass.package.projectDatas,
    r.sourceId ∈ pass.sourceIdsData.watched ∧
    ∃ d ∈ directories, r.projectSourceId = c.sourceId d ∧
      fileStateOf c storage (c.sourceId (d ++ "/qmldir")) = FileState.Changed

end QmlDesigner

namespace QmlDesigner

/-- The pass state `q` extends `p`: what is watched in `p` is watched in `q`, and the
project-data records of `p`'s package are in `q`'s package. -/
structure Pass.Grows (p q : Pass) : Prop where
  watched : ∀ x ∈ p.sourceIdsData.watched, x ∈ q.sourceIdsData.watched
  projectDatas : ∀ r ∈ p.package.projectDatas, r ∈ q.package.projectDatas

end QmlDesigner

namespace QmlDesigner

/-- Steps 1 to 6 of `update`: the pass state before the removal set is computed. -/
def visit (c : Collaborators) (storage : ScopeStorage) (directories : List String)
    (qmlTypesPaths : List String) : Pass :=
  updateDirectories c storage directories (updateQmlTypes c storage qmlTypesPaths Pass.start)

end QmlDesigner

namespace QmlDesigner

/-- A source id is settled in a storage: either its path does not exist and no file
status is stored for it, or the stored file status is the current one. -/
def Settled (c : Collaborators) (storage : ScopeStorage) (x : SourceId) : Prop :=
  (c.fileStatus x = none ∧ fetchFileStatus storage x = none) ∨
  (∃ cur, currentFileStatus c x = some cur ∧ fetchFileStatus storage x = some cur)

/-- The pass state `q` has the package and the parser calls of `p`. -/
structure Pass.Same (p q : Pass) : Prop where
  package : q.package = p.package
  qmlDocumentParserCalls : q.qmlDocumentParserCalls = p.qmlDocumentParserCalls
  qmlTypesParserCalls : q.qmlTypesParserCalls = p.qmlTypesParserCalls

end QmlDesigner

/-! ## DependenciesModel (projectexplorer/dependenciespanel.cpp) -/

namespace Utils

/-- Modelled from the spec: `Utils::sort(container, predicate)` of utils/algorithm.h is
not among the sources.  The call site passes a strict "less than" predicate and relies on
the container being ordered by it afterwards; the model is the stable sort by that
predicate (`std::stable_sort`): an element is placed before the first element that the
predicate does not put in front of it. -/
def sort {α : Type} (p : α → α → Bool) (container : List α) : List α :=
  container.insertionSort (fun a b => p b a = false)

end Utils

namespace ProjectExplorer

/-- A `Project *`: the address of a project object. -/
abbrev Project := Nat

/-- `QModelIndex`: row, column and whether it belongs to a model. -/
structure QModelIndex where
  row : Int
  column : Int
  hasModel : Bool
deriving DecidableEq, Repr

namespace QModelIndex

/-- `QModelIndex()`: the invalid index. -/
def invalid : QModelIndex := ⟨-1, -1, false⟩

/-- `QModelIndex::isValid()`. -/
def isValid (i : QModelIndex) : Bool :=
  decide (0 ≤ i.row) && decide (0 ≤ i.column) && i.hasModel

end QModelIndex

/-- The values of `QVariant` that the model produces. -/
inductive QVariant where
  | invalid
  | string (s : String)
  | int (i : Int)
  | icon (filePath : String)
deriving DecidableEq, Repr

/-- `Qt::DisplayRole`. -/
def DisplayRole : Int := 0
/-- `Qt::DecorationRole`. -/
def DecorationRole : Int := 1
/-- `Qt::ToolTipRole`. -/
def ToolTipRole : Int := 3
/-- `Qt::CheckStateRole`. -/
def CheckStateRole : Int := 10

/-- `Qt::Unchecked`. -/
def Unchecked : Int := 0
/-- `Qt::PartiallyChecked`. -/
def PartiallyChecked : Int := 1
/-- `Qt::Checked`. -/
def Checked : Int := 2

/-- `Qt::NoItemFlags`. -/
def NoItemFlags : Nat := 0
/-- `Qt::ItemIsEditable`. -/
def ItemIsEditable : Nat := 2
/-- `Qt::ItemIsUserCheckable`. -/
def ItemIsUserCheckable : Nat := 16

/-- What the model reads from the rest of the application: the project objects behind
the pointers, the translator and the flags of the base class. -/
structure Env where
  /-- `Project::displayName()`. -/
  displayName : Project → String
  /-- `Project::projectFilePath()`. -/
  projectFilePath : Project → String
  /-- `FilePath::toUserOutput()`. -/
  toUserOutput : String → String
  /-- `Tr::tr`. -/
  tr : String → String
  /-- `QAbstractListModel::flags`. -/
  baseFlags : QModelIndex → Nat

/-- The dependency bookkeeping of `ProjectManager`, which is not among the sources: its
state and the three operations the model calls. -/
structure ProjectManagerApi (PM : Type) where
  /-- `ProjectManager::addDependency`: whether it was accepted, and the new state. -/
  addDependency : PM → Project → Project → Bool × PM
  /-- `ProjectManager::hasDependency`. -/
  hasDependency : PM → Project → Project → Bool
  /-- `ProjectManager::removeDependency`. -/
  removeDependency : PM → Project → Project → PM

/-- The members of `DependenciesModel`. -/
structure DependenciesModel where
  m_project : Project
  m_projects : List Project
deriving DecidableEq, Repr

/-- What a call of `setData` does besides returning. -/
inductive Effect where
  | dataChanged (topLeft bottomRight : QModelIndex)
  | warning (title text : String)
  | addDependency (project depProject : Project) (accepted : Bool)
  | removeDependency (project depProject : Project)
deriving DecidableEq, Repr

/-- The result of `setData`: the returned value, the effects in program order and the
state of the project manager afterwards. -/
structure SetDataResult (PM : Type) where
  ret : Bool
  effects : List Effect
  pm : PM

/-- `QList::removeAll`. -/
def removeAll (l : List Project) (p : Project) : List Project :=
  l.filter (fun q => q != p)

/-- `QList::at` with an `int` position; outside the list there is no element. -/
def QList.at {α : Type} (l : List α) (i : Int) : Option α :=
  if 0 ≤ i then l[i.toNat]? else none

namespace DependenciesModel

/-- `DependenciesModel::resetModel` (lines 44-53); `projects` is what
`ProjectManager::projects()` returns. -/
def resetModel (env : Env) (projects : List Project) (m : DependenciesModel) :
    DependenciesModel :=
  let m_projects := projects
  let m_projects := removeAll m_projects m.m_project
  let m_projects :=
    Utils.sort (fun a b => decide (env.displayName a < env.displayName b)) m_projects
  { m with m_projects := m_projects }

/-- The constructor (lines 30-42): stores the project and calls `resetModel`. -/
def create (env : Env) (projects : List Project) (project : Project) : DependenciesModel :=
  resetModel env projects { m_project := project, m_projects := [] }

/-- The three notifications the constructor connects to `resetModel`. -/
inductive Notification where
  | projectRemoved
  | projectAdded
  | sessionLoaded
deriving DecidableEq, Repr

/-- Delivery of a connected notification: each one runs `resetModel`. -/
def notify (env : Env) (projects : List Project) (n : Notification) (m : DependenciesModel) :
    DependenciesModel :=
  match n with
  | .projectRemoved => resetModel env projects m
  | .projectAdded => resetModel env projects m
  | .sessionLoaded => resetModel env projects m

/-- `DependenciesModel::rowCount` (lines 55-58). -/
def rowCount (m : DependenciesModel) (index : QModelIndex) : Int :=
  if index.isValid then 0 else if m.m_projects.isEmpty then 1 else m.m_projects.length

/-- `DependenciesModel::columnCount` (lines 60-63). -/
def columnCount (_m : DependenciesModel) (index : QModelIndex) : Int :=
  if index.isValid then 0 else 1

/-- `DependenciesModel::data` (lines 65-86); `none` when `m_projects.at` is asked for a
row outside the list. -/
def data {PM : Type} (env : Env) (api : ProjectManagerApi PM) (pm : PM)
    (m : DependenciesModel) (index : QModelIndex) (role : Int) : Option QVariant :=
  if m.m_projects.isEmpty then
    some (if role = DisplayRole then
        QVariant.string (env.tr "<No other projects in this session>")
      else QVariant.invalid)
  else
    match QList.at m.m_projects index.row with
    | none => none
    | some p =>
      some (
        if role = DisplayRole then QVariant.string (env.displayName p)
        else if role = ToolTipRole then
          QVariant.string (env.toUserOutput (env.projectFilePath p))
        else if role = CheckStateRole then
          QVariant.int (if api.hasDependency pm m.m_project p then Checked else Unchecked)
        else if role = DecorationRole then QVariant.icon (env.projectFilePath p)
        else QVariant.invalid)

/-- `DependenciesModel::setData` (lines 88-111); `value` is `value.toInt()`; `none` when
`m_projects.at` is asked for a row outside the list. -/
def setData {PM : Type} (env : Env) (api : ProjectManagerApi PM) (pm : PM)
    (m : DependenciesModel) (index : QModelIndex) (value : Int) (role : Int) :
    Option (SetDataResult PM) :=
  if role = CheckStateRole then
    match QList.at m.m_projects index.row with
    | none => none
    | some p =>
      let c := value
      if c = Checked then
        let r := api.addDependency pm m.m_project p
        if r.1 then
          some ⟨true, [Effect.addDependency m.m_project p true,
                       Effect.dataChanged index index], r.2⟩
        else
          some ⟨false, [Effect.addDependency m.m_project p false,
                        Effect.warning (env.tr "Unable to Add Dependency")
                          (env.tr "This would create a circular dependency.")], r.2⟩
      else if c = Unchecked then
        if api.hasDependency pm m.m_project p then
          some ⟨true, [Effect.removeDependency m.m_project p,
                       Effect.dataChanged index index],
                api.removeDependency pm m.m_project p⟩
        else some ⟨false, [], pm⟩
      else some ⟨false, [], pm⟩
  else some ⟨false, [], pm⟩

/-- `DependenciesModel::flags` (lines 113-122). -/
def flags (env : Env) (m : DependenciesModel) (index : QModelIndex) : Nat :=
  if m.m_projects.isEmpty then NoItemFlags
  else
    let rc := env.baseFlags index
    if index.column = 0 then rc ||| (ItemIsUserCheckable ||| ItemIsEditable) else rc

end DependenciesModel

end ProjectExplorer

/-! ## QbsBuildStep (qbsprojectmanager/qbsbuildstep.cpp) -/

namespace QbsProjectManager

/-- The JSON values that `QbsBuildStep::build` puts into a request. -/
inductive JsonValue where
  | str (s : String)
  | int (i : Int)
  | bool (b : Bool)
  | stringArray (l : List String)
deriving DecidableEq, Repr

/-- A `QJsonObject`: keys with their values. -/
abbrev QJsonObject := List (String × JsonValue)

/-- `QJsonObject::insert`: the value replaces an existing one for the key. -/
def QJsonObject.insert (o : QJsonObject) (key : String) (value : JsonValue) : QJsonObject :=
  o.filter (fun kv => kv.1 != key) ++ [(key, value)]

/-- `QJsonObject::value`. -/
def QJsonObject.value (o : QJsonObject) (key : String) : Option JsonValue :=
  (o.find? (fun kv => kv.1 == key)).map (fun kv => kv.2)

/-- `ErrorInfoItem`. -/
structure ErrorInfoItem where
  description : String
  filePath : String
  line : Int
deriving DecidableEq, Repr

/-- `ErrorInfo` (declared in qbssession.h, which is not among the sources): what
`hasError()` answers, and its items. -/
structure ErrorInfo where
  hasError : Bool
  items : List ErrorInfoItem
deriving DecidableEq, Repr

/-- A `QbsSession *`: the address of a session object. -/
abbrev QbsSession := Nat

/-- The members of `QbsBuildStep` that the run logic reads and writes; the aspects are
represented by their values. -/
structure QbsBuildStep where
  m_session : Option QbsSession
  m_parsingProject : Bool
  m_parsingAfterBuild : Bool
  m_lastWasSuccess : Bool
  m_maxProgress : Int
  m_currentTask : String
  m_changedFiles : List String
  m_activeFileTags : List String
  m_products : List String
  m_maxJobCount : Int
  m_keepGoing : Bool
  m_showCommandLines : Bool
  m_install : Bool
  m_cleanInstallDir : Bool
deriving DecidableEq, Repr

/-- What the step reads from the build system and the rest of the application at the time
of a call. -/
structure BuildEnv where
  /-- `qbsBuildSystem()->session()`. -/
  session : Option QbsSession
  /-- `qbsBuildSystem()->parsingScheduled()`, as read after `updateAfterBuild()`. -/
  parsingScheduled : Bool
  /-- `QThread::idealThreadCount()`. -/
  idealThreadCount : Int
  /-- `QbsSession::insertRequestedModuleProperties`, which is not among the sources. -/
  insertRequestedModuleProperties : QJsonObject → QJsonObject
  /-- `Tr::tr`. -/
  tr : String → String
  /-- The constructor `ErrorInfo(const QString &)`, which is not among the sources. -/
  errorInfo : String → ErrorInfo
  /-- The build configuration's changed files, active file tags and products, if the
  step has a build configuration. -/
  buildConfiguration : Option (List String × List String × List String)

/-- Calls into other objects and signal emissions of the step, in program order. -/
inductive StepEffect where
  | connectParsingFinished
  | disconnectParsingFinished
  | parseCurrentBuildConfiguration
  | cancelParsing
  | cancelCurrentJob (session : QbsSession)
  | sendRequest (session : QbsSession) (request : QJsonObject)
  | connectSession (session : QbsSession)
  | disconnectSession (session : QbsSession)
  | updateAfterBuild
  | addOutput (text : String)
  | addTask (description file : String) (line : Int)
  | progress (percent : Int) (task : String)
  | finished (success : Bool)
deriving DecidableEq, Repr

namespace QbsBuildStep

/-- `QbsBuildStep::init` (lines 282-297). -/
def init (env : BuildEnv) (s : QbsBuildStep) : Bool × QbsBuildStep :=
  if s.m_session.isSome then (false, s)
  else
    match env.buildConfiguration with
    | none => (false, s)
    | some bc =>
      (true, { s with m_changedFiles := bc.1, m_activeFileTags := bc.2.1, m_products := bc.2.2 })

/-- `QbsBuildStep::maxJobs` (lines 397-402). -/
def maxJobs (env : BuildEnv) (s : QbsBuildStep) : Int :=
  if s.m_maxJobCount > 0 then s.m_maxJobCount else env.idealThreadCount

/-- `QbsBuildStep::parseProject` (lines 530-535). -/
def parseProject (s : QbsBuildStep) : QbsBuildStep × List StepEffect :=
  ({ s with m_parsingProject := true },
   [StepEffect.connectParsingFinished, StepEffect.parseCurrentBuildConfiguration])

/-- `QbsBuildStep::doRun` (lines 305-311). -/
def doRun (s : QbsBuildStep) : QbsBuildStep × List StepEffect :=
  parseProject { s with m_parsingAfterBuild := false }

/-- `QbsBuildStep::doCancel` (lines 318-324). -/
def doCancel (s : QbsBuildStep) : QbsBuildStep × List StepEffect :=
  if s.m_parsingProject then (s, [StepEffect.cancelParsing])
  else
    match s.m_session with
    | some session => (s, [StepEffect.cancelCurrentJob session])
    | none => (s, [])

/-- `QbsBuildStep::finish` (lines 579-583). -/
def finish (s : QbsBuildStep) : QbsBuildStep × List StepEffect :=
  ({ s with m_session := none }, [StepEffect.finished s.m_lastWasSuccess])

/-- The request object that `build` assembles (lines 547-564). -/
def buildRequest (env : BuildEnv) (s : QbsBuildStep) : QJsonObject :=
  let request : QJsonObject := []
  let request := request.insert "type" (JsonValue.str "build-project")
  let request := request.insert "max-job-count" (JsonValue.int (maxJobs env s))
  let request := request.insert "keep-going" (JsonValue.bool s.m_keepGoing)
  let request := request.insert "command-echo-mode"
    (JsonValue.str (if s.m_showCommandLines then "command-line" else "summary"))
  let request := request.insert "install" (JsonValue.bool s.m_install)
  let request := env.insertRequestedModuleProperties request
  let request := request.insert "clean-install-root" (JsonValue.bool s.m_cleanInstallDir)
  let request :=
    if !s.m_products.isEmpty then
      request.insert "products" (JsonValue.stringArray s.m_products)
    else request
  let request :=
    if !s.m_changedFiles.isEmpty then
      (request.insert "changed-files" (JsonValue.stringArray s.m_changedFiles)).insert
        "files-to-consider" (JsonValue.stringArray s.m_changedFiles)
    else request
  let request :=
    if !s.m_activeFileTags.isEmpty then
      request.insert "active-file-tags" (JsonValue.stringArray s.m_activeFileTags)
    else request
  request.insert "data-mode" (JsonValue.str "only-if-changed")

/-- `QbsBuildStep::build` (lines 537-577). -/
def build (env : BuildEnv) (s : QbsBuildStep) : QbsBuildStep × List StepEffect :=
  let s := { s with m_session := env.session }
  match s.m_session with
  | none =>
    (s, [StepEffect.addOutput (env.tr "No qbs session exists for this target."),
         StepEffect.finished false])
  | some session =>
    ({ s with m_maxProgress := 0 },
     [StepEffect.sendRequest session (buildRequest env s), StepEffect.connectSession session])

/-- `QbsBuildStep::createTaskAndOutput` (lines 498-503). -/
def createTaskAndOutput (message file : String) (line : Int) : List StepEffect :=
  [StepEffect.addOutput message, StepEffect.addTask message file line]

/-- `QbsBuildStep::buildingDone` (lines 420-444); `none` when it is entered without a
session, where `m_session->disconnect` has no object to act on. -/
def buildingDone (env : BuildEnv) (error : ErrorInfo) (s : QbsBuildStep) :
    Option (QbsBuildStep × List StepEffect) :=
  match s.m_session with
  | none => none
  | some session =>
    let s := { s with m_session := none }
    let s := { s with m_lastWasSuccess := !error.hasError }
    let tasks := (error.items.map
      (fun item => createTaskAndOutput item.description item.filePath item.line)).flatten
    let pre := StepEffect.disconnectSession session :: tasks ++ [StepEffect.updateAfterBuild]
    if env.parsingScheduled then
      let r := parseProject { s with m_parsingAfterBuild := true }
      some (r.1, pre ++ r.2)
    else
      let r := finish s
      some (r.1, pre ++ r.2)

/-- `QbsBuildStep::reparsingDone` (lines 446-458). -/
def reparsingDone (env : BuildEnv) (success : Bool) (s : QbsBuildStep) :
    QbsBuildStep × List StepEffect :=
  let s := { s with m_parsingProject := false }
  let r :=
    if s.m_parsingAfterBuild then finish s
    else if !success then finish { s with m_lastWasSuccess := false }
    else build env s
  (r.1, StepEffect.disconnectParsingFinished :: r.2)

/-- `QbsBuildStep::handleTaskStarted` (lines 460-464). -/
def handleTaskStarted (desciption : String) (max : Int) (s : QbsBuildStep) :
    QbsBuildStep × List StepEffect :=
  ({ s with m_currentTask := desciption, m_maxProgress := max }, [])

/-- `QbsBuildStep::handleProgress` (lines 466-470); the quotient is C++ integer division. -/
def handleProgress (value : Int) (s : QbsBuildStep) : QbsBuildStep × List StepEffect :=
  if s.m_maxProgress > 0 then
    (s, [StepEffect.progress (Int.tdiv (value * 100) s.m_maxProgress) s.m_currentTask])
  else (s, [])

/-- `QbsBuildStep::dropSession` (lines 623-630). -/
def dropSession (s : QbsBuildStep) : QbsBuildStep × List StepEffect :=
  match s.m_session with
  | some session =>
    let r := doCancel s
    ({ r.1 with m_session := none }, r.2 ++ [StepEffect.disconnectSession session])
  | none => (s, [])

/-- The entry points through which the build manager, the target and the session drive
the step. -/
inductive Call where
  | init
  | doRun
  | doCancel
  | dropSession
  | reparsingDone (success : Bool)
  | buildingDone (error : ErrorInfo)
  | sessionErrorOccurred
  | handleTaskStarted (desciption : String) (max : Int)
  | handleProgress (value : Int)
deriving DecidableEq, Repr

/-- One call of an entry point.  The handler of the session's `errorOccurred` signal
(lines 574-576) calls `buildingDone` with a one-item error. -/
def step (env : BuildEnv) (c : Call) (s : QbsBuildStep) :
    Option (QbsBuildStep × List StepEffect) :=
  match c with
  | .init => some ((init env s).2, [])
  | .doRun => some (doRun s)
  | .doCancel => some (doCancel s)
  | .dropSession => some (dropSession s)
  | .reparsingDone success => some (reparsingDone env success s)
  | .buildingDone error => buildingDone env error s
  | .sessionErrorOccurred =>
    buildingDone env (env.errorInfo (env.tr "Build canceled: Qbs session failed.")) s
  | .handleTaskStarted d max => some (handleTaskStarted d max s)
  | .handleProgress value => some (handleProgress value s)

/-- Whether an effect is a request sent to the session. -/
def isSendRequest : StepEffect → Bool
  | .sendRequest _ _ => true
  | _ => false

end QbsBuildStep

end QbsProjectManager

/-! ## QbsBuildStep: between the end of a build and the end of the step -/

namespace QbsProjectManager

namespace QbsBuildStep

/-- The entry points that can be called while the step waits for a parse to finish without
starting a run, ending a build or ending the parse. -/
def isPassive : Call → Bool
  | .init => true
  | .doCancel => true
  | .dropSession => true
  | .handleTaskStarted _ _ => true
  | .handleProgress _ => true
  | _ => false

/-- A sequence of calls, each with the environment it meets; the effects are collected in
order. -/
def run : List (BuildEnv × Call) → QbsBuildStep → Option (QbsBuildStep × List StepEffect)
  | [], s => some (s, [])
  | (env, c) :: rest, s =>
    match step env c s with
    | none => none
    | some (s2, effects) =>
      match run rest s2 with
      | none => none
      | some (s3, effects2) => some (s3, effects ++ effects2)

/-- Whether an effect is an emission of `finished`. -/
def isFinished : StepEffect → Bool
  | .finished _ => true
  | _ => false

end QbsBuildStep

end QbsProjectManager

/-! ## QbsBuildStepConfigWidget (qbsprojectmanager/qbsbuildstep.cpp)

The properties line edit of the build step's configuration widget.  A `QString` is a
`String`; the text of a `QLineEdit` is far shorter than `2 ^ 31` characters, so the `int`
positions of the source are unbounded integers here. -/

/-- The position of the first `c` in `s`, or `-1` (`QString::indexOf`). -/
def QString.indexOf (s : String) (c : Char) : Int :=
  if s.data.indexOf c < s.data.length then (s.data.indexOf c : Int) else -1

/-- The first `n` characters of `s`; the whole string if `n` is negative or not below
the size (`QString::left`). -/
def QString.left (s : String) (n : Int) : String :=
  if n < 0 ∨ (s.data.length : Int) ≤ n then s else ⟨s.data.take n.toNat⟩

/-- The characters of `s` from `position` on; the null string if `position` exceeds the
size (`QString::mid` with the default length). -/
def QString.mid (s : String) (position : Int) : String :=
  if (s.data.length : Int) < position then "" else ⟨s.data.drop position.toNat⟩

def QString.argChars (a : List Char) : List Char → List Char
  | '%' :: '1' :: rest => a ++ QString.argChars a rest
  | c :: rest => c :: QString.argChars a rest
  | [] => []

/-- The template `s` with its place marker `%1` replaced by `a` (`QString::arg` for a
template whose only place marker is `%1`). -/
def QString.arg (s a : String) : String :=
  ⟨QString.argChars a.data s.data⟩

/-- The string without its last `n` characters (`QString::chop`). -/
def QString.chop (s : String) (n : Nat) : String :=
  ⟨s.data.take (s.data.length - n)⟩

namespace QbsProjectManager

/-- The keys of `qbsprojectmanagerconstants.h` that the widget uses.  The header is not
part of the sources at hand, so the key strings are a parameter. -/
structure Constants where
  QBS_CONFIG_PROFILE_KEY : String
  QBS_CONFIG_VARIANT_KEY : String
  QBS_CONFIG_DECLARATIVE_DEBUG_KEY : String
  QBS_CONFIG_SEPARATE_DEBUG_INFO_KEY : String
  QBS_CONFIG_QUICK_DEBUG_KEY : String
  QBS_CONFIG_QUICK_COMPILER_KEY : String
  QBS_FORCE_PROBES_KEY : String
  QBS_INSTALL_ROOT_KEY : String
  QBS_ARCHITECTURES : String

/-- A `QVariantMap` whose values are kept as their `toString()`, in key order. -/
abbrev QVariantMap := List (String × String)

/-- The map without `key` (`QMap::remove`). -/
def QVariantMap.remove (m : QVariantMap) (key : String) : QVariantMap :=
  m.filter (fun kv => kv.1 != key)

namespace QbsBuildStepConfigWidget

/-- The class `QbsBuildStepConfigWidget::Property`; the derived equality is its
`operator==`. -/
structure Property where
  name : String
  value : String
  effectiveValue : String
  deriving DecidableEq, Repr

/-- What the widget reads from outside `qbsbuildstep.cpp`: the key constants,
`ProcessArgs::splitArgs` (`none` when the split error is not `SplitOk`),
`ProcessArgs::joinArgs`, the macro expander of the step, whether the ABI selection is
managed by the target, and the translation of a message. -/
structure WidgetEnv where
  constants : Constants
  splitArgs : String → Option (List String)
  joinArgs : List String → String
  expand : String → String
  isManagedByTarget : Bool
  tr : String → String

/-- The text that `updatePropertyEdit` puts into the properties line edit. -/
def updatePropertyEdit (env : WidgetEnv) (data : QVariantMap) : String :=
  let editable := data
  -- remove data that is edited with special UIs:
  let editable := editable.remove env.constants.QBS_CONFIG_PROFILE_KEY
  let editable := editable.remove env.constants.QBS_CONFIG_VARIANT_KEY
  let editable := editable.remove env.constants.QBS_CONFIG_DECLARATIVE_DEBUG_KEY
  let editable := editable.remove env.constants.QBS_CONFIG_SEPARATE_DEBUG_INFO_KEY
  let editable := editable.remove env.constants.QBS_CONFIG_QUICK_DEBUG_KEY
  let editable := editable.remove env.constants.QBS_CONFIG_QUICK_COMPILER_KEY
  let editable := editable.remove env.constants.QBS_FORCE_PROBES_KEY
  let editable := editable.remove env.constants.QBS_INSTALL_ROOT_KEY
  let editable :=
    if env.isManagedByTarget then editable.remove env.constants.QBS_ARCHITECTURES
    else editable
  env.joinArgs (editable.map (fun kv => kv.1 ++ ":" ++ kv.2))

/-- The list `specialProperties` that `validateProperties` builds for each argument. -/
def specialProperties (env : WidgetEnv) : List String :=
  [env.constants.QBS_CONFIG_PROFILE_KEY, env.constants.QBS_CONFIG_VARIANT_KEY,
   env.constants.QBS_CONFIG_QUICK_DEBUG_KEY, env.constants.QBS_CONFIG_QUICK_COMPILER_KEY,
   env.constants.QBS_INSTALL_ROOT_KEY, env.constants.QBS_CONFIG_SEPARATE_DEBUG_INFO_KEY]
  ++ (if env.isManagedByTarget then [env.constants.QBS_ARCHITECTURES] else [])

/-- The three places where `validateProperties` returns false. -/
inductive Rejection where
  | couldNotSplit
  | cannotBeSetHere (rawArg propertyName : String)
  | noColonFound (rawArg : String)
  deriving DecidableEq, Repr

/-- The message that `validateProperties` stores for a rejection. -/
def Rejection.message (env : WidgetEnv) : Rejection → String
  | .couldNotSplit => env.tr "Could not split properties."
  | .cannotBeSetHere _ propertyName =>
    QString.arg
      (env.tr "Property \"%1\" cannot be set here. Please use the dedicated UI element.")
      propertyName
  | .noColonFound _ => env.tr "No \":\" found in property definition."

/-- The loop of `validateProperties` over the arguments: the properties collected so far
grow by one per accepted argument, and the first argument that is not accepted ends the
loop. -/
def collectProperties (env : WidgetEnv) :
    List String → List Property → Except Rejection (List Property)
  | [], properties => .ok properties
  | rawArg :: rest, properties =>
    let pos := QString.indexOf rawArg ':'
    if pos > 0 then
      let propertyName := QString.left rawArg pos
      if (specialProperties env).contains propertyName then
        .error (.cannotBeSetHere rawArg propertyName)
      else
        let rawValue := QString.mid rawArg (pos + 1)
        collectProperties env rest
          (properties ++ [⟨propertyName, rawValue, env.expand rawValue⟩])
    else
      .error (.noColonFound rawArg)

/-- What a call of `validateProperties` leaves behind: the value returned, the message
stored through `errorMessage`, the return statement taken when the value is false, the
property cache, and whether `applyCachedProperties` has been called. -/
structure ValidateResult where
  ret : Bool
  errorMessage : Option String
  rejection : Option Rejection
  m_propertyCache : List Property
  applied : Bool
  deriving DecidableEq, Repr

/-- The function `validateProperties` on the text of the line edit; `hasErrorMessage`
tells whether the `errorMessage` pointer is non-null. -/
def validateProperties (env : WidgetEnv) (m_propertyCache : List Property) (text : String)
    (hasErrorMessage : Bool) : ValidateResult :=
  let reject (r : Rejection) : ValidateResult :=
    { ret := false,
      errorMessage := if hasErrorMessage then some (r.message env) else none,
      rejection := some r, m_propertyCache := m_propertyCache, applied := false }
  match env.splitArgs text with
  | none => reject .couldNotSplit
  | some argList =>
    match collectProperties env argList [] with
    | .error r => reject r
    | .ok properties =>
      if m_propertyCache != properties then
        { ret := true, errorMessage := none, rejection := none,
          m_propertyCache := properties, applied := true }
      else
        { ret := true, errorMessage := none, rejection := none,
          m_propertyCache := m_propertyCache, applied := false }

end QbsBuildStepConfigWidget

end QbsProjectManager

/-! ## StatesEditorView (qmldesigner/components/stateseditor/stateseditorview.cpp)

Removing a state.  The document model behind the view (`AbstractView`, `ModelNode`,
`NodeListProperty`, `QmlModelState`) is not among the sources: its state is a type
parameter `M` and the operations the view calls on it are parameters.  The debug-only
`Q_ASSERT` and the handler of `RewritingException` are left out. -/

namespace QmlDesigner

/-- A `ModelNode`: the invalid node, or the node with an internal id. -/
inductive ModelNode where
  | invalid
  | node (internalId : Int)
  deriving DecidableEq, Repr

/-- A `NodeAbstractProperty`: the node that has the property, the property's name, whether
it is a node list property, and the nodes under it in order. -/
structure NodeAbstractProperty where
  parentModelNode : ModelNode
  name : String
  isNodeListProperty : Bool
  nodes : List ModelNode
  deriving DecidableEq, Repr

/-- A `NodeListProperty`; `none` is the invalid one. -/
abbrev NodeListProperty := Option (List ModelNode)

/-- The result of `parentProperty().toNodeListProperty()`, where `property` is `none` for
a node without parent property. -/
def toNodeListProperty (property : Option NodeAbstractProperty) : NodeListProperty :=
  match property with
  | some p => if p.isNodeListProperty then some p.nodes else none
  | none => none

/-- The position of the first `node` in the list, or `-1`. -/
def indexOfNode (nodes : List ModelNode) (node : ModelNode) : Int :=
  if nodes.indexOf node < nodes.length then (nodes.indexOf node : Int) else -1

def NodeListProperty.isValid (property : NodeListProperty) : Bool :=
  property.isSome

/-- The number of nodes; zero for the invalid property. -/
def NodeListProperty.count (property : NodeListProperty) : Int :=
  match property with
  | some nodes => nodes.length
  | none => 0

def NodeListProperty.indexOf (property : NodeListProperty) (node : ModelNode) : Int :=
  match property with
  | some nodes => indexOfNode nodes node
  | none => -1

/-- The node at a position; outside the list there is no element. -/
def NodeListProperty.at (property : NodeListProperty) (index : Int) : Option ModelNode :=
  match property with
  | some nodes => if 0 ≤ index then nodes[index.toNat]? else none
  | none => some ModelNode.invalid

/-- The operations of the document model that `removeState`, `setCurrentState` and
`nodeAboutToBeRemoved` call, over the model's state `M`. -/
structure ModelApi (M : Type) where
  /-- `AbstractView::hasModelNodeForInternalId`. -/
  hasModelNodeForInternalId : M → Int → Bool
  /-- `AbstractView::modelNodeForInternalId`. -/
  modelNodeForInternalId : M → Int → ModelNode
  /-- `AbstractView::currentStateNode`. -/
  currentStateNode : M → ModelNode
  /-- `AbstractView::setCurrentStateNode`. -/
  setCurrentStateNode : M → ModelNode → M
  /-- The model node of `QmlModelState::createBaseState(view)`. -/
  baseState : M → ModelNode
  /-- `QmlModelState::isValid` of the state made from a node; the view may have no model. -/
  isValidState : Option M → ModelNode → Bool
  /-- The targets (`QmlPropertyChanges::target`) of `QmlModelState::propertyChanges`, in
  order. -/
  propertyChangeTargets : M → ModelNode → List ModelNode
  /-- `ModelNode::isValid`. -/
  isValid : M → ModelNode → Bool
  /-- `ModelNode::locked`. -/
  locked : M → ModelNode → Bool
  /-- `ModelNode::id`. -/
  id : M → ModelNode → String
  /-- `ModelNode::parentProperty`; `none` for a node without parent property. -/
  parentProperty : M → ModelNode → Option NodeAbstractProperty

inductive StandardButton where
  | Ok
  | Yes
  | Cancel
  deriving DecidableEq, Repr

/-- What `removeState` sets on a `QMessageBox` before `exec`. -/
structure QMessageBox where
  windowTitle : String
  text : String
  informativeText : String
  standardButtons : List StandardButton
  defaultButton : StandardButton
  deriving DecidableEq, Repr

/-- The user and the translator: the button that ends `QMessageBox::exec`, and `tr`. -/
structure DialogEnv where
  exec : QMessageBox → StandardButton
  tr : String → String

/-- The members of the view that the removal of a state reads and writes: the model the
view is attached to (`model()`), `m_activeStatesGroupNode` and `m_lastIndex`. -/
structure StatesEditorView (M : Type) where
  model : Option M
  m_activeStatesGroupNode : ModelNode
  m_lastIndex : Int
  deriving DecidableEq, Repr

/-- What `removeState` does besides changing the view: the dialogs it runs and the node
it destroys, in program order. -/
inductive ViewEffect where
  | exec (box : QMessageBox)
  | destroy (node : ModelNode)
  deriving DecidableEq, Repr

namespace StatesEditorView

/-- `StatesEditorView::setCurrentState` (lines 268-275).  Without a model the function
returns for a state that is not valid; for a valid one it goes on to the model, which
is not there (`none`). -/
def setCurrentState {M : Type} (api : ModelApi M) (state : ModelNode)
    (v : StatesEditorView M) : Option (StatesEditorView M) :=
  match v.model with
  | none => if !api.isValidState none state then some v else none
  | some m =>
    if api.currentStateNode m != state then
      some { v with model := some (api.setCurrentStateNode m state) }
    else some v

/-- The box of the question about a state that is not empty. -/
def notEmptyBox (env : DialogEnv) : QMessageBox :=
  { windowTitle := env.tr "Remove State",
    text := env.tr "This state is not empty. Are you sure you want to remove it?",
    informativeText := "",
    standardButtons := [StandardButton.Yes, StandardButton.Cancel],
    defaultButton := StandardButton.Yes }

/-- The list `lockedTargets` that `removeState` collects from the property changes. -/
def lockedTargets {M : Type} (api : ModelApi M) (m : M) (stateNode : ModelNode) :
    List String :=
  ((api.propertyChangeTargets m stateNode).filter
    (fun target => api.isValid m target && api.locked m target)).map (api.id m)

/-- The box of the question about locked components. -/
def lockedTargetsBox (env : DialogEnv) (lockedTargets : List String) : QMessageBox :=
  let lockedTargets := Utils.sort (fun a b => decide (a < b)) lockedTargets
  let detailedText := "<b>" ++ env.tr "Locked components:" ++ "</b><br>"
  let detailedText := lockedTargets.foldl (fun t id => t ++ ("- " ++ id ++ "<br>")) detailedText
  let detailedText := QString.chop detailedText "<br>".length
  { windowTitle := env.tr "Remove State",
    text := QString.arg
      (env.tr "Removing this state will modify locked components." ++ "<br><br>%1")
      detailedText,
    informativeText := env.tr "Continue by removing the state?",
    standardButtons := [StandardButton.Ok, StandardButton.Cancel],
    defaultButton := StandardButton.Ok }

/-- The two confirmations of `removeState` (lines 94-144): whether the function goes on
to the removal, and the dialogs it has run. -/
def confirmRemoval {M : Type} (api : ModelApi M) (env : DialogEnv) (m : M)
    (stateNode : ModelNode) : Bool × List ViewEffect :=
  if api.isValidState (some m) stateNode then
    let propertyChanges := api.propertyChangeTargets m stateNode
    -- confirm removing not empty states
    if !propertyChanges.isEmpty && env.exec (notEmptyBox env) == StandardButton.Cancel then
      (false, [ViewEffect.exec (notEmptyBox env)])
    else
      let shown := if !propertyChanges.isEmpty then [ViewEffect.exec (notEmptyBox env)] else []
      -- confirm removing states with locked targets
      let lockedTargets := lockedTargets api m stateNode
      if !lockedTargets.isEmpty then
        let box := lockedTargetsBox env lockedTargets
        if env.exec box == StandardButton.Cancel then (false, shown ++ [ViewEffect.exec box])
        else (true, shown ++ [ViewEffect.exec box])
      else (true, shown)
  else (true, [])

/-- The choice of the new current state in `removeState` (lines 146-158); `none` when
`at` is asked for a position outside the list. -/
def selectNeighbour {M : Type} (api : ModelApi M) (m : M) (stateNode : ModelNode)
    (v : StatesEditorView M) : Option (StatesEditorView M) :=
  let parentProperty := toNodeListProperty (api.parentProperty m stateNode)
  if parentProperty.count ≤ 1 then
    setCurrentState api (api.baseState m) v
  else if parentProperty.isValid then
    let index := parentProperty.indexOf stateNode
    if index = 0 then
      match parentProperty.at 1 with
      | some state => setCurrentState api state v
      | none => none
    else
      match parentProperty.at (index - 1) with
      | some state => setCurrentState api state v
      | none => none
  else some v

/-- `StatesEditorView::removeState` (lines 87-164); `none` when the model is looked up
through a null `model()` or `at` is asked for a position outside the list. -/
def removeState {M : Type} (api : ModelApi M) (env : DialogEnv) (nodeId : Int)
    (v : StatesEditorView M) : Option (StatesEditorView M × List ViewEffect) :=
  if nodeId > 0 then
    match v.model with
    | none => none
    | some m =>
      if api.hasModelNodeForInternalId m nodeId then
        let stateNode := api.modelNodeForInternalId m nodeId
        match confirmRemoval api env m stateNode with
        | (false, effects) => some (v, effects)
        | (true, effects) =>
          match selectNeighbour api m stateNode v with
          | some v2 => some (v2, effects ++ [ViewEffect.destroy stateNode])
          | none => none
      else some (v, [])
  else some (v, [])

/-- `StatesEditorView::nodeAboutToBeRemoved` (lines 504-514), which the model calls on
the view before it removes a node; `none` when the view has no model. -/
def nodeAboutToBeRemoved {M : Type} (api : ModelApi M) (removedNode : ModelNode)
    (v : StatesEditorView M) : Option (StatesEditorView M) :=
  match v.model with
  | none => none
  | some m =>
    let v1 :=
      match api.parentProperty m removedNode with
      | some propertyParent =>
        if propertyParent.parentModelNode = v.m_activeStatesGroupNode
            ∧ propertyParent.name = "states" then
          { v with m_lastIndex := indexOfNode propertyParent.nodes removedNode }
        else v
      | none => v
    if api.isValidState (some m) (api.currentStateNode m)
        && removedNode == api.currentStateNode m then
      setCurrentState api (api.baseState m) v1
    else some v1

/-- The current state of the view: the current state node of its model. -/
def currentState {M : Type} (api : ModelApi M) (v : StatesEditorView M) : Option ModelNode :=
  v.model.map api.currentStateNode

end StatesEditorView

end QmlDesigner

/-! ## SourceIdsData: its collections and its constructor (projectstorageupdater.h:100-118) -/

namespace QmlDesigner

/-- The members of `SourceIdsData` in the order of their declaration
(projectstorageupdater.h:112-117). -/
def SourceIdsData.collections (d : SourceIdsData) : List SourceIds :=
  [d.notUpdatedFileStatusSourceIds, d.notUpdatedSourceIds, d.watchedDirectorySourceIds,
   d.watchedQmldirSourceIds, d.watchedQmlSourceIds, d.watchedQmltypesSourceIds]

/-- The capacity that the constructor of `SourceIdsData` has reserved for each
collection. -/
structure SourceIdsData.Reserved where
  notUpdatedFileStatusSourceIds : Nat
  notUpdatedSourceIds : Nat
  watchedDirectorySourceIds : Nat
  watchedQmldirSourceIds : Nat
  watchedQmlSourceIds : Nat
  watchedQmltypesSourceIds : Nat
deriving DecidableEq, Repr

/-- The exceptions of `std::vector::reserve`. -/
inductive ReserveError where
  | length_error
  | bad_alloc
  deriving DecidableEq, Repr

/-- What a call of `std::vector<SourceId>::reserve` depends on outside the header:
`max_size()` of the vector type, and whether the allocator has the storage for a
capacity when the constructor makes its call with a given number (0 to 5, in program
order). -/
structure VectorEnv where
  max_size : Nat
  allocate : Nat → Nat → Bool

/-- The call `reserve(n)` on a default-constructed vector, whose capacity is zero: it
throws `length_error` if `n` exceeds `max_size()`, has nothing to do for `n = 0`, and
otherwise allocates storage for `n` elements or throws `bad_alloc`. -/
def vectorReserve (env : VectorEnv) (call : Nat) (n : Nat) : Except ReserveError Unit :=
  if n > env.max_size then .error ReserveError.length_error
  else if n = 0 then .ok ()
  else if env.allocate call n then .ok ()
  else .error ReserveError.bad_alloc

/-- The capacities of the six `reserve` calls of the constructor, in program order
(projectstorageupdater.h:104-109).  The products are `std::size_t` products. -/
def SourceIdsData.reserveCalls (reserve : Nat) : List Nat :=
  [(reserve * 30) % 2 ^ sizeBits, (reserve * 30) % 2 ^ sizeBits, reserve, reserve,
   (reserve * 30) % 2 ^ sizeBits, (reserve * 30) % 2 ^ sizeBits]

/-- The calls in order, numbered from `call`; the first exception ends them. -/
def reserveAll (env : VectorEnv) : Nat → List Nat → Except ReserveError Unit
  | _, [] => .ok ()
  | call, n :: rest =>
    match vectorReserve env call n with
    | .error e => .error e
    | .ok _ => reserveAll env (call + 1) rest

/-- The constructor `SourceIdsData(std::size_t reserve)` (projectstorageupdater.h:102-110).
When a `reserve` call throws, the exception leaves the constructor and there is no
object; otherwise the result is the object, whose collections are the default-constructed
ones, with the capacity reserved for each. -/
def SourceIdsData.create (env : VectorEnv) (reserve : Nat) :
    Except ReserveError (SourceIdsData × SourceIdsData.Reserved) :=
  match reserveAll env 0 (SourceIdsData.reserveCalls reserve) with
  | .error e => .error e
  | .ok _ =>
    .ok ({ notUpdatedFileStatusSourceIds := [], notUpdatedSourceIds := [],
           watchedDirectorySourceIds := [], watchedQmldirSourceIds := [],
           watchedQmlSourceIds := [], watchedQmltypesSourceIds := [] },
         { notUpdatedFileStatusSourceIds := (reserve * 30) % 2 ^ sizeBits,
           notUpdatedSourceIds := (reserve * 30) % 2 ^ sizeBits,
           watchedDirectorySourceIds := reserve,
           watchedQmldirSourceIds := reserve,
           watchedQmlSourceIds := (reserve * 30) % 2 ^ sizeBits,
           watchedQmltypesSourceIds := (reserve * 30) % 2 ^ sizeBits })

end QmlDesigner

/-! ## Sample values used to instantiate the theorems -/

namespace QbsProjectManager

/-- A build environment with a session and no parse scheduled. -/
def sampleBuildEnv : BuildEnv :=
  { session := some 1, parsingScheduled := false, idealThreadCount := 4,
    insertRequestedModuleProperties := fun r => r, tr := fun t => t,
    errorInfo := fun msg => ⟨true, [⟨msg, "", -1⟩]⟩,
    buildConfiguration := some ([], [], []) }

/-- A step that has been started with `doRun` and waits for the pre-build parse. -/
def sampleStep : QbsBuildStep :=
  { m_session := none, m_parsingProject := true, m_parsingAfterBuild := false,
    m_lastWasSuccess := true, m_maxProgress := 0, m_currentTask := "",
    m_changedFiles := [], m_activeFileTags := [], m_products := [],
    m_maxJobCount := 0, m_keepGoing := false, m_showCommandLines := false,
    m_install := true, m_cleanInstallDir := false }

/-- A step whose build is running in session 1. -/
def sampleBuildingStep : QbsBuildStep :=
  { sampleStep with m_session := some 1, m_parsingProject := false }

/-- The build system has a parse scheduled. -/
def sampleReparseEnv : BuildEnv :=
  { sampleBuildEnv with parsingScheduled := true }

/-- The key strings of the qbs project manager. -/
def sampleConstants : Constants :=
  { QBS_CONFIG_PROFILE_KEY := "qbs.profile",
    QBS_CONFIG_VARIANT_KEY := "qbs.defaultBuildVariant",
    QBS_CONFIG_DECLARATIVE_DEBUG_KEY := "modules.Qt.declarative.qmlDebugging",
    QBS_CONFIG_SEPARATE_DEBUG_INFO_KEY := "modules.cpp.separateDebugInformation",
    QBS_CONFIG_QUICK_DEBUG_KEY := "modules.Qt.quick.qmlDebugging",
    QBS_CONFIG_QUICK_COMPILER_KEY := "modules.Qt.quick.useCompiler",
    QBS_FORCE_PROBES_KEY := "qbspm.forceProbes",
    QBS_INSTALL_ROOT_KEY := "qbs.installRoot",
    QBS_ARCHITECTURES := "qbs.architectures" }

/-- A widget environment in which arguments are separated by single blanks, macros
expand to themselves and messages are not translated. -/
def sampleWidgetEnv : QbsBuildStepConfigWidget.WidgetEnv :=
  { constants := sampleConstants,
    splitArgs := fun text =>
      some (((text.data.splitOn ' ').filter (fun w => !w.isEmpty)).map String.mk),
    joinArgs := fun args => " ".intercalate args,
    expand := fun v => v,
    isManagedByTarget := true,
    tr := fun t => t }

end QbsProjectManager

namespace QmlDesigner

/-- A document whose root item (id 1) has the states 2, 3 and 4 in its list "states";
state 3 changes the locked component with id 7.  The state of the model is its current
state node, and the base state is the root item. -/
def sampleModelApi : ModelApi ModelNode :=
  { hasModelNodeForInternalId := fun _ internalId => decide (internalId ∈ [1, 2, 3, 4, 7]),
    modelNodeForInternalId := fun _ internalId => ModelNode.node internalId,
    currentStateNode := fun m => m,
    setCurrentStateNode := fun _ node => node,
    baseState := fun _ => ModelNode.node 1,
    isValidState := fun _ node =>
      decide (node ∈ [ModelNode.node 1, ModelNode.node 2, ModelNode.node 3, ModelNode.node 4]),
    propertyChangeTargets := fun _ node =>
      if node = ModelNode.node 3 then [ModelNode.node 7] else [],
    isValid := fun _ node => node != ModelNode.invalid,
    locked := fun _ node => node == ModelNode.node 7,
    id := fun _ _ => "rect",
    parentProperty := fun _ node =>
      if node ∈ [ModelNode.node 2, ModelNode.node 3, ModelNode.node 4] then
        some ⟨ModelNode.node 1, "states", true,
          [ModelNode.node 2, ModelNode.node 3, ModelNode.node 4]⟩
      else none }

/-- The view on the sample document, with state 3 as the current state. -/
def sampleView : StatesEditorView ModelNode :=
  { model := some (ModelNode.node 3), m_activeStatesGroupNode := ModelNode.node 1,
    m_lastIndex := -1 }

/-- A user who answers Yes to the question about a state that is not empty and Cancel
to the question about locked components. -/
def sampleCancelLockedDialogs : DialogEnv :=
  { exec := fun box =>
      if StandardButton.Yes ∈ box.standardButtons then StandardButton.Yes
      else StandardButton.Cancel,
    tr := fun t => t }

/-- A user who answers every question with its default button. -/
def sampleAcceptDialogs : DialogEnv :=
  { exec := fun box => box.defaultButton, tr := fun t => t }

/-- A project on disk: the directory "/D" (id 1) with its descriptor "/D/qmldir"
(id 2) and the component file "/D/Foo.qml" (id 3), and the type-info file
"/x.qmltypes" (id 5).  The descriptor also lists "Gone.qml" and the type-info file
"t.qmltypes", which do not exist (ids 6 and 4); no other path exists. -/
def sampleCollaborators : Collaborators :=
  { sourceId := fun path =>
      if path = "/D" then 1 else if path = "/D/qmldir" then 2
      else if path = "/D/Foo.qml" then 3 else if path = "/D/t.qmltypes" then 4
      else if path = "/x.qmltypes" then 5 else if path = "/D/Gone.qml" then 6 else 0
    fileStatus := fun sourceId =>
      if sourceId = 1 then some (0, 10) else if sourceId = 2 then some (20, 11)
      else if sourceId = 3 then some (30, 12) else if sourceId = 5 then some (1, 1)
      else none
    fileContents := fun sourceId =>
      if sourceId = 2 then "module M" else if sourceId = 3 then "Item {}" else ""
    parseQmldir := fun _ =>
      ⟨7, [], [], ["t.qmltypes"], [⟨"Foo.qml", "Foo", 7, 1, 0⟩, ⟨"Gone.qml", "Gone", 7, 1, 0⟩]⟩
    parseQmlDocument := fun content => some content
    parseQmlTypes := fun _ => some ["T"] }

/-- A storage that knows the vanished files 4 and 8 and an outdated status of file 3. -/
def sampleStorage : ScopeStorage :=
  { types := [⟨8, "old"⟩]
    exportedTypes := []
    projectDatas := [⟨1, 8, 7, FileType.QmlDocument⟩]
    fileStatuses := [⟨8, 1, 1⟩, ⟨4, 2, 2⟩, ⟨3, 30, 9⟩] }

/-- A vector type with `max_size() = 2 ^ 61 - 1` and an allocator that has the storage
for up to `2 ^ 32` ids per call. -/
def sampleVectorEnv : VectorEnv :=
  { max_size := 2305843009213693951,
    allocate := fun _ n => decide (n ≤ 4294967296) }

end QmlDesigner

/-! ## Theorems -/

namespace QmlDesigner

theorem ComponentRange.loop_spec (v : Components) :
    ∀ (n i fuel : Nat), i + n ≤ v.length → n < fuel →
      ComponentRange.loop v fuel i (i + n) = some ((v.drop i).take n) := by
  intro n
  induction n with
  | zero =>
    intro i fuel _ hf
    obtain ⟨f, rfl⟩ : ∃ f, fuel = f + 1 := ⟨fuel - 1, by omega⟩
    simp [ComponentRange.loop]
  | succ n ih =>
    intro i fuel hi hf
    obtain ⟨f, rfl⟩ : ∃ f, fuel = f + 1 := ⟨fuel - 1, by omega⟩
    have hlt : i < v.length := by omega
    have hne : ¬ i = i + (n + 1) := by omega
    have hstep : i + (n + 1) = (i + 1) + n := by omega
    have hrec := ih (i + 1) f (by omega) (by omega)
    rw [ComponentRange.loop, if_neg hne, List.getElem?_eq_getElem hlt]
    simp only []
    rw [hstep, hrec]
    simp only [Option.map_some']
    rw [List.drop_eq_getElem_cons hlt, List.take_succ_cons]

/-- C5: for a components vector `v` (of a size a vector can have) and positions
`i ≤ j ≤ size(v)`, the range built from the iterators at `i` and `j` reports
`size() = j - i`, and iterating it from `begin()` to `end()` terminates and yields a
list of `j - i` components whose `k`-th entry is `v[i + k]`: the components
`v[i], ..., v[j-1]` in declaration order, each once. -/
theorem componentRange_size_and_elements (v : Components) (i j : Nat)
    (hv : v.length < 2 ^ sizeBits) (hij : i ≤ j) (hj : j ≤ v.length) :
    (ComponentRange.mk i j).size = j - i ∧
    ∃ xs, (ComponentRange.mk i j).elements v = some xs ∧ xs.length = j - i ∧
      ∀ k, k < j - i → xs[k]? = v[i + k]? := by
  refine ⟨?_, (v.drop i).take (j - i), ?_, ?_, ?_⟩
  · unfold ComponentRange.size ComponentRange.distance
    have h1 : ((j : Int) - (i : Int)) = ((j - i : Nat) : Int) := by omega
    have h2 : (j - i : Nat) < 2 ^ sizeBits := by omega
    rw [h1]
    have h3 : (((j - i : Nat) : Int) % (2 ^ sizeBits : Int)) = ((j - i : Nat) : Int) := by
      apply Int.emod_eq_of_lt
      · omega
      · exact_mod_cast h2
    rw [h3]
    simp
  · have h := ComponentRange.loop_spec v (j - i) i (v.length + 1) (by omega) (by omega)
    have hj2 : i + (j - i) = j := by omega
    rw [hj2] at h
    exact h
  · simp
    omega
  · intro k hk
    rw [List.getElem?_take_of_lt hk, List.getElem?_drop]

/-- Witness for C5: the range over positions 1..3 of a three-element vector. -/
theorem componentRange_size_and_elements_witness :
    (ComponentRange.mk 1 3).size = 3 - 1 ∧
    ∃ xs, (ComponentRange.mk 1 3).elements
        [⟨"A.qml", "A", 1, 1, 0⟩, ⟨"B.qml", "B", 1, 1, 0⟩, ⟨"C.qml", "C", 1, 2, 0⟩] = some xs ∧
      xs.length = 3 - 1 ∧
      ∀ k, k < 3 - 1 → xs[k]? =
        ([⟨"A.qml", "A", 1, 1, 0⟩, ⟨"B.qml", "B", 1, 1, 0⟩, ⟨"C.qml", "C", 1, 2, 0⟩] :
          Components)[1 + k]? :=
  componentRange_size_and_elements
    [⟨"A.qml", "A", 1, 1, 0⟩, ⟨"B.qml", "B", 1, 1, 0⟩, ⟨"C.qml", "C", 1, 2, 0⟩] 1 3
    (by decide) (by decide) (by decide)

end QmlDesigner

/-! ### ProjectStorageUpdater: the file state machine -/

namespace QmlDesigner

theorem fetchFileStatus_sourceId (storage : ScopeStorage) (sourceId : SourceId)
    (stored : FileStatus) (h : fetchFileStatus storage sourceId = some stored) :
    stored.sourceId = sourceId := by
  unfold fetchFileStatus at h
  have h2 := List.find?_some h
  simpa using h2

theorem fileState_fst (c : Collaborators) (storage : ScopeStorage) (sourceId : SourceId)
    (pass : Pass) :
    (fileState c storage sourceId pass).1 =
      match currentFileStatus c sourceId with
      | none => FileState.NotExists
      | some current =>
        if fetchFileStatus storage sourceId = some current then FileState.NotChanged
        else FileState.Changed := by
  unfold fileState
  cases currentFileStatus c sourceId with
  | none => simp only []; split <;> rfl
  | some current => simp only []; split <;> rfl

/-- C1: `fileState` puts every source id into exactly one of the three states: it is
`NotExists` exactly when the path does not exist; `NotChanged` exactly when the path
exists and the stored `FileStatus` carries the current fingerprint; `Changed` exactly when
the path exists and either no `FileStatus` is stored or the stored fingerprint differs
from the current one. -/
theorem fileState_classification (c : Collaborators) (storage : ScopeStorage)
    (sourceId : SourceId) (pass : Pass) :
    ((fileState c storage sourceId pass).1 = FileState.NotExists ↔
      c.fileStatus sourceId = none) ∧
    ((fileState c storage sourceId pass).1 = FileState.NotChanged ↔
      ∃ fp stored, c.fileStatus sourceId = some fp ∧
        fetchFileStatus storage sourceId = some stored ∧
        (stored.size, stored.lastModified) = fp) ∧
    ((fileState c storage sourceId pass).1 = FileState.Changed ↔
      ∃ fp, c.fileStatus sourceId = some fp ∧
        (fetchFileStatus storage sourceId = none ∨
          ∃ stored, fetchFileStatus storage sourceId = some stored ∧
            (stored.size, stored.lastModified) ≠ fp)) := by
  rw [fileState_fst]
  unfold currentFileStatus
  cases hfs : c.fileStatus sourceId with
  | none => simp
  | some fp =>
    simp only [Option.map_some', reduceCtorEq, false_iff, not_false_eq_true, true_and,
      Option.some.injEq, exists_eq_left', ne_eq]
    cases hst : fetchFileStatus storage sourceId with
    | none => simp
    | some stored =>
      have hid := fetchFileStatus_sourceId storage sourceId stored hst
      have hiff : (stored = ⟨sourceId, fp.1, fp.2⟩) ↔ (stored.size, stored.lastModified) = fp := by
        constructor
        · intro h; rw [h]
        · intro h
          cases stored with
          | mk sid sz lm =>
            simp only at hid h
            subst hid
            rw [← h]
      by_cases hEq : stored = ⟨sourceId, fp.1, fp.2⟩
      · have h2 := hiff.mp hEq
        simp [hEq, h2]
      · have h2 : ¬ (stored.size, stored.lastModified) = fp := fun h => hEq (hiff.mpr h)
        simp [hEq, h2]

end QmlDesigner

/-! ### ProjectStorageUpdater: which components are parsed -/

namespace QmlDesigner

theorem fileState_fst_eq_fileStateOf (c : Collaborators) (storage : ScopeStorage)
    (sourceId : SourceId) (pass : Pass) :
    (fileState c storage sourceId pass).1 = fileStateOf c storage sourceId := by
  unfold fileStateOf
  rw [fileState_fst, fileState_fst]

theorem fileState_snd (c : Collaborators) (storage : ScopeStorage) (sourceId : SourceId)
    (pass : Pass) :
    (fileState c storage sourceId pass).2 =
      match currentFileStatus c sourceId with
      | none =>
        if (fetchFileStatus storage sourceId).isSome then pass.queueRemoval sourceId else pass
      | some current =>
        if fetchFileStatus storage sourceId = some current then
          pass.addNotUpdatedFileStatus sourceId
        else pass.addFileStatus current := by
  unfold fileState
  cases currentFileStatus c sourceId with
  | none => simp only []; split <;> rfl
  | some current => simp only []; split <;> rfl

theorem fileStateAndWatch_fst (c : Collaborators) (storage : ScopeStorage)
    (kind : WatchedKind) (sourceId : SourceId) (pass : Pass) :
    (fileStateAndWatch c storage kind sourceId pass).1 = fileStateOf c storage sourceId := by
  have h := fileState_fst_eq_fileStateOf c storage sourceId pass
  unfold fileStateAndWatch
  simp only []
  rw [h]
  cases fileStateOf c storage sourceId <;> rfl

theorem fileStateAndWatch_snd (c : Collaborators) (storage : ScopeStorage)
    (kind : WatchedKind) (sourceId : SourceId) (pass : Pass) :
    (fileStateAndWatch c storage kind sourceId pass).2 =
      match currentFileStatus c sourceId with
      | none =>
        if (fetchFileStatus storage sourceId).isSome then pass.queueRemoval sourceId else pass
      | some current =>
        if fetchFileStatus storage sourceId = some current then
          (pass.addNotUpdatedFileStatus sourceId).watch kind sourceId
        else (pass.addFileStatus current).watch kind sourceId := by
  unfold fileStateAndWatch
  simp only []
  rw [fileState_fst, fileState_snd]
  cases currentFileStatus c sourceId with
  | none => rfl
  | some current =>
    by_cases h : fetchFileStatus storage sourceId = some current
    · simp only [h, if_true]
    · simp only [h, if_false]

end QmlDesigner

/-! ### ProjectStorageUpdater: what a pass maintains -/

namespace QmlDesigner

theorem mem_watched_watch (pass : Pass) (kind : WatchedKind) (x y : SourceId) :
    y ∈ (pass.watch kind x).sourceIdsData.watched ↔
      y ∈ pass.sourceIdsData.watched ∨ y = x := by
  cases kind <;> simp [Pass.watch, SourceIdsData.watched, List.mem_append] <;> tauto

theorem notUpdated_watch (pass : Pass) (kind : WatchedKind) (x : SourceId) :
    (pass.watch kind x).sourceIdsData.notUpdated = pass.sourceIdsData.notUpdated := by
  cases kind <;> rfl

theorem package_watch (pass : Pass) (kind : WatchedKind) (x : SourceId) :
    (pass.watch kind x).package = pass.package := by
  cases kind <;> rfl

theorem fileStateOf_eq (c : Collaborators) (storage : ScopeStorage) (x : SourceId) :
    fileStateOf c storage x =
      match currentFileStatus c x with
      | none => FileState.NotExists
      | some current =>
        if fetchFileStatus storage x = some current then FileState.NotChanged
        else FileState.Changed := by
  unfold fileStateOf
  rw [fileState_fst]

theorem currentFileStatus_eq_none (c : Collaborators) (x : SourceId) :
    currentFileStatus c x = none ↔ c.fileStatus x = none := by
  unfold currentFileStatus
  simp

theorem currentFileStatus_sourceId (c : Collaborators) (x : SourceId) (cur : FileStatus)
    (h : currentFileStatus c x = some cur) : cur.sourceId = x := by
  unfold currentFileStatus at h
  cases hfs : c.fileStatus x with
  | none => rw [hfs] at h; simp at h
  | some fp =>
    rw [hfs] at h
    simp only [Option.map_some', Option.some.injEq] at h
    rw [← h]

theorem fileStateOf_notExists (c : Collaborators) (storage : ScopeStorage) (x : SourceId) :
    fileStateOf c storage x = FileState.NotExists ↔ c.fileStatus x = none := by
  rw [fileStateOf_eq, ← currentFileStatus_eq_none]
  cases currentFileStatus c x with
  | none => simp
  | some cur => simp only [reduceCtorEq, iff_false]; split <;> simp

theorem PassInv.addNotUpdated {c : Collaborators} {storage : ScopeStorage}
    {D T : List String} {pass : Pass} (h : PassInv c storage D T pass) (x : SourceId)
    (hx : x ∈ pass.sourceIdsData.watched) : PassInv c storage D T (pass.addNotUpdated x) := by
  refine ⟨?_, h.current, h.reason, h.fileStatuses, h.removed, h.types, h.exportedTypes,
    h.projectDatas⟩
  intro y hy
  have hy2 : y ∈ pass.sourceIdsData.notUpdated ∨ y = x := by
    simpa [Pass.addNotUpdated, SourceIdsData.notUpdated, List.mem_append, or_assoc] using hy
  rcases hy2 with hy2 | rfl
  · exact h.notUpdated y hy2
  · exact hx

theorem PassInv.addTypes {c : Collaborators} {storage : ScopeStorage}
    {D T : List String} {pass : Pass} (h : PassInv c storage D T pass)
    (types : List StorageType) (ht : ∀ t ∈ types, t.sourceId ∈ pass.sourceIdsData.watched) :
    PassInv c storage D T (pass.addTypes types) := by
  refine ⟨h.notUpdated, h.current, h.reason, h.fileStatuses, h.removed, ?_, h.exportedTypes,
    h.projectDatas⟩
  intro r hr
  have hr2 : r ∈ pass.package.types ∨ r ∈ types := by
    simpa [Pass.addTypes, List.mem_append] using hr
  rcases hr2 with hr2 | hr2
  · exact h.types r hr2
  · exact ht r hr2

theorem PassInv.addExportedType {c : Collaborators} {storage : ScopeStorage}
    {D T : List String} {pass : Pass} (h : PassInv c storage D T pass)
    (e : ExportedType) (he : e.sourceId ∈ pass.sourceIdsData.watched) :
    PassInv c storage D T (pass.addExportedType e) := by
  refine ⟨h.notUpdated, h.current, h.reason, h.fileStatuses, h.removed, h.types, ?_,
    h.projectDatas⟩
  intro r hr
  have hr2 : r ∈ pass.package.exportedTypes ∨ r = e := by
    simpa [Pass.addExportedType, List.mem_append] using hr
  rcases hr2 with hr2 | rfl
  · exact h.exportedTypes r hr2
  · exact he

theorem PassInv.addProjectData {c : Collaborators} {storage : ScopeStorage}
    {D T : List String} {pass : Pass} (h : PassInv c storage D T pass)
    (r : ProjectData) (hr : r.sourceId ∈ pass.sourceIdsData.watched)
    (hd : ∃ d ∈ D, r.projectSourceId = c.sourceId d ∧
      fileStateOf c storage (c.sourceId (d ++ "/qmldir")) = FileState.Changed) :
    PassInv c storage D T (pass.addProjectData r) := by
  refine ⟨h.notUpdated, h.current, h.reason, h.fileStatuses, h.removed, h.types,
    h.exportedTypes, ?_⟩
  intro r2 hr2
  have hr3 : r2 ∈ pass.package.projectDatas ∨ r2 = r := by
    simpa [Pass.addProjectData, List.mem_append] using hr2
  rcases hr3 with hr3 | rfl
  · exact h.projectDatas r2 hr3
  · exact ⟨hr, hd⟩

theorem PassInv.calls {c : Collaborators} {storage : ScopeStorage}
    {D T : List String} {pass : Pass} (h : PassInv c storage D T pass)
    (a b d : SourceIds) :
    PassInv c storage D T
      { pass with qmlDocumentParserCalls := a, qmlTypesParserCalls := b, diagnostics := d } :=
  ⟨h.notUpdated, h.current, h.reason, h.fileStatuses, h.removed, h.types, h.exportedTypes,
    h.projectDatas⟩

theorem PassInv.parseQmlTypesFile {c : Collaborators} {storage : ScopeStorage}
    {D T : List String} {pass : Pass} (h : PassInv c storage D T pass) (x : SourceId)
    (hx : x ∈ pass.sourceIdsData.watched) :
    PassInv c storage D T (Pass.parseQmlTypesFile c pass x) := by
  unfold Pass.parseQmlTypesFile
  simp only []
  split
  · refine PassInv.addTypes (h.calls _ _ _) _ ?_
    intro t ht
    simp only [List.mem_map] at ht
    obtain ⟨d, _, rfl⟩ := ht
    exact hx
  · exact h.calls _ _ _

theorem PassInv.parseQmlDocumentFile {c : Collaborators} {storage : ScopeStorage}
    {D T : List String} {pass : Pass} (h : PassInv c storage D T pass) (x : SourceId)
    (e : ExportedType) (hx : x ∈ pass.sourceIdsData.watched)
    (he : e.sourceId ∈ pass.sourceIdsData.watched) :
    PassInv c storage D T (Pass.parseQmlDocumentFile c pass x e) := by
  unfold Pass.parseQmlDocumentFile
  simp only []
  split
  · refine PassInv.addExportedType (PassInv.addTypes (h.calls _ _ _) _ ?_) e he
    intro t ht
    simp only [List.mem_singleton] at ht
    rw [ht]
    exact hx
  · exact h.calls _ _ _

theorem PassInv.parseStoredQmlDocumentFile {c : Collaborators} {storage : ScopeStorage}
    {D T : List String} {pass : Pass} (h : PassInv c storage D T pass) (x : SourceId)
    (hx : x ∈ pass.sourceIdsData.watched) :
    PassInv c storage D T (Pass.parseStoredQmlDocumentFile c pass x) := by
  unfold Pass.parseStoredQmlDocumentFile
  simp only []
  split
  · refine PassInv.addTypes (h.calls _ _ _) _ ?_
    intro t ht
    simp only [List.mem_singleton] at ht
    rw [ht]
    exact hx
  · exact h.calls _ _ _

theorem PassInv.queueRemoval {c : Collaborators} {storage : ScopeStorage}
    {D T : List String} {pass : Pass} (h : PassInv c storage D T pass) (x : SourceId)
    (hx : c.fileStatus x = none) : PassInv c storage D T (pass.queueRemoval x) := by
  refine ⟨h.notUpdated, h.current, h.reason, h.fileStatuses, ?_, h.types, h.exportedTypes,
    h.projectDatas⟩
  intro y hy
  have hy2 : y ∈ pass.package.removedSourceIds ∨ y = x := by
    simpa [Pass.queueRemoval, List.mem_append] using hy
  rcases hy2 with hy2 | rfl
  · exact h.removed y hy2
  · exact hx

theorem PassInv.watchUnchanged {c : Collaborators} {storage : ScopeStorage}
    {D T : List String} {pass : Pass} (h : PassInv c storage D T pass) (kind : WatchedKind)
    (x : SourceId) (cur : FileStatus) (hcur : currentFileStatus c x = some cur)
    (hst : fetchFileStatus storage x = some cur) (hreason : WatchReason c storage D T x) :
    PassInv c storage D T ((pass.addNotUpdatedFileStatus x).watch kind x) := by
  have hw : ∀ y, y ∈ ((pass.addNotUpdatedFileStatus x).watch kind x).sourceIdsData.watched ↔
      y ∈ pass.sourceIdsData.watched ∨ y = x := by
    intro y
    rw [mem_watched_watch]
    rfl
  have hp : ((pass.addNotUpdatedFileStatus x).watch kind x).package = pass.package := by
    rw [package_watch]
    rfl
  refine ⟨?_, ?_, ?_, ?_, ?_, ?_, ?_, ?_⟩
  · intro y hy
    rw [notUpdated_watch] at hy
    have hy2 : y ∈ pass.sourceIdsData.notUpdated ∨ y = x := by
      simp only [Pass.addNotUpdatedFileStatus, SourceIdsData.notUpdated, List.mem_append,
        List.mem_singleton] at hy ⊢
      tauto
    rw [hw]
    rcases hy2 with hy2 | rfl
    · exact Or.inl (h.notUpdated y hy2)
    · exact Or.inr rfl
  · intro y hy
    rw [hp]
    rcases (hw y).mp hy with hy2 | rfl
    · exact h.current y hy2
    · exact ⟨cur, hcur, Or.inr hst⟩
  · intro y hy
    rcases (hw y).mp hy with hy2 | rfl
    · exact h.reason y hy2
    · exact hreason
  · intro fs hfs
    rw [hp] at hfs
    exact ⟨(h.fileStatuses fs hfs).1, (hw _).mpr (Or.inl (h.fileStatuses fs hfs).2)⟩
  · intro y hy
    rw [hp] at hy
    exact h.removed y hy
  · intro r hr
    rw [hp] at hr
    exact (hw _).mpr (Or.inl (h.types r hr))
  · intro r hr
    rw [hp] at hr
    exact (hw _).mpr (Or.inl (h.exportedTypes r hr))
  · intro r hr
    rw [hp] at hr
    exact ⟨(hw _).mpr (Or.inl (h.projectDatas r hr).1), (h.projectDatas r hr).2⟩

theorem PassInv.watchChanged {c : Collaborators} {storage : ScopeStorage}
    {D T : List String} {pass : Pass} (h : PassInv c storage D T pass) (kind : WatchedKind)
    (x : SourceId) (cur : FileStatus) (hcur : currentFileStatus c x = some cur)
    (hreason : WatchReason c storage D T x) :
    PassInv c storage D T ((pass.addFileStatus cur).watch kind x) := by
  have hw : ∀ y, y ∈ ((pass.addFileStatus cur).watch kind x).sourceIdsData.watched ↔
      y ∈ pass.sourceIdsData.watched ∨ y = x := by
    intro y
    rw [mem_watched_watch]
    rfl
  have hp : ((pass.addFileStatus cur).watch kind x).package
      = { pass.package with fileStatuses := pass.package.fileStatuses ++ [cur] } := by
    rw [package_watch]
    rfl
  have hid := currentFileStatus_sourceId c x cur hcur
  refine ⟨?_, ?_, ?_, ?_, ?_, ?_, ?_, ?_⟩
  · intro y hy
    rw [notUpdated_watch] at hy
    rw [hw]
    exact Or.inl (h.notUpdated y hy)
  · intro y hy
    rw [hp]
    simp only [List.mem_append, List.mem_singleton]
    rcases (hw y).mp hy with hy2 | rfl
    · obtain ⟨cur2, h1, h2⟩ := h.current y hy2
      exact ⟨cur2, h1, h2.imp (fun h3 => Or.inl h3) id⟩
    · exact ⟨cur, hcur, Or.inl (Or.inr rfl)⟩
  · intro y hy
    rcases (hw y).mp hy with hy2 | rfl
    · exact h.reason y hy2
    · exact hreason
  · intro fs hfs
    rw [hp] at hfs
    simp only [List.mem_append, List.mem_singleton] at hfs
    rcases hfs with hfs | rfl
    · exact ⟨(h.fileStatuses fs hfs).1, (hw _).mpr (Or.inl (h.fileStatuses fs hfs).2)⟩
    · rw [hid]
      exact ⟨hcur, (hw _).mpr (Or.inr rfl)⟩
  · intro y hy
    rw [hp] at hy
    exact h.removed y hy
  · intro r hr
    rw [hp] at hr
    exact (hw _).mpr (Or.inl (h.types r hr))
  · intro r hr
    rw [hp] at hr
    exact (hw _).mpr (Or.inl (h.exportedTypes r hr))
  · intro r hr
    rw [hp] at hr
    exact ⟨(hw _).mpr (Or.inl (h.projectDatas r hr).1), (h.projectDatas r hr).2⟩

theorem PassInv.fileStateAndWatch {c : Collaborators} {storage : ScopeStorage}
    {D T : List String} {pass : Pass} (h : PassInv c storage D T pass) (kind : WatchedKind)
    (x : SourceId) (hreason : WatchReason c storage D T x) :
    PassInv c storage D T (fileStateAndWatch c storage kind x pass).2 := by
  rw [fileStateAndWatch_snd]
  cases hcur : currentFileStatus c x with
  | none =>
    simp only []
    have hn := (currentFileStatus_eq_none c x).mp hcur
    split
    · exact h.queueRemoval x hn
    · exact h
  | some cur =>
    simp only []
    split
    · rename_i hst
      exact h.watchUnchanged kind x cur hcur hst hreason
    · exact h.watchChanged kind x cur hcur hreason

theorem fileStateAndWatch_watched (c : Collaborators) (storage : ScopeStorage)
    (kind : WatchedKind) (x : SourceId) (pass : Pass)
    (hx : fileStateOf c storage x ≠ FileState.NotExists) :
    x ∈ (fileStateAndWatch c storage kind x pass).2.sourceIdsData.watched := by
  rw [fileStateAndWatch_snd]
  rw [fileStateOf_eq] at hx
  cases hcur : currentFileStatus c x with
  | none => rw [hcur] at hx; exact absurd rfl hx
  | some cur =>
    simp only []
    split <;> rw [mem_watched_watch] <;> exact Or.inr rfl

end QmlDesigner

/-! ### ProjectStorageUpdater: the steps of a pass -/

namespace QmlDesigner

theorem Pass.Grows.growsRefl (p : Pass) : Pass.Grows p p := ⟨fun _ h => h, fun _ h => h⟩

theorem Pass.Grows.andThen {p q r : Pass} (h1 : Pass.Grows p q) (h2 : Pass.Grows q r) :
    Pass.Grows p r :=
  ⟨fun x h => h2.watched x (h1.watched x h), fun x h => h2.projectDatas x (h1.projectDatas x h)⟩

theorem foldl_preserves {α : Type} (P : Pass → Prop) (f : Pass → α → Pass) :
    ∀ (l : List α) (pass : Pass), (∀ p a, a ∈ l → P p → P (f p a)) → P pass →
      P (l.foldl f pass) := by
  intro l
  induction l with
  | nil => intro pass _ h; exact h
  | cons a l ih =>
    intro pass hstep h
    rw [List.foldl_cons]
    refine ih (f pass a) ?_ (hstep pass a (List.mem_cons_self a l) h)
    intro p b hb hp
    exact hstep p b (List.mem_cons_of_mem a hb) hp

theorem foldl_grows {α : Type} (f : Pass → α → Pass) (hf : ∀ p a, Pass.Grows p (f p a)) :
    ∀ (l : List α) (pass : Pass), Pass.Grows pass (l.foldl f pass) := by
  intro l
  induction l with
  | nil => intro pass; exact Pass.Grows.growsRefl pass
  | cons a l ih =>
    intro pass
    rw [List.foldl_cons]
    exact (hf pass a).andThen (ih (f pass a))

theorem foldl_establishes {α : Type} (Q : Pass → Prop) (f : Pass → α → Pass)
    (hf : ∀ p a, Pass.Grows p (f p a)) (hQ : ∀ p q, Pass.Grows p q → Q p → Q q) (a : α)
    (ha : ∀ p, Q (f p a)) :
    ∀ (l : List α) (pass : Pass), a ∈ l → Q (l.foldl f pass) := by
  intro l
  induction l with
  | nil => intro pass h; simp at h
  | cons b l ih =>
    intro pass hmem
    rw [List.foldl_cons]
    rcases List.mem_cons.mp hmem with rfl | hmem
    · exact hQ _ _ (foldl_grows f hf l (f pass a)) (ha pass)
    · exact ih (f pass b) hmem

theorem grows_watch (pass : Pass) (kind : WatchedKind) (x : SourceId) :
    Pass.Grows pass (pass.watch kind x) :=
  ⟨fun y hy => (mem_watched_watch pass kind x y).mpr (Or.inl hy),
   fun r hr => by rw [package_watch]; exact hr⟩

theorem grows_of_eq {p q : Pass} (h1 : q.sourceIdsData.watched = p.sourceIdsData.watched)
    (h2 : q.package.projectDatas = p.package.projectDatas) : Pass.Grows p q :=
  ⟨fun x hx => by rw [h1]; exact hx, fun r hr => by rw [h2]; exact hr⟩

theorem grows_addProjectData (pass : Pass) (r : ProjectData) :
    Pass.Grows pass (pass.addProjectData r) :=
  ⟨fun _ hx => hx, fun r2 hr2 => by
    simp only [Pass.addProjectData, List.mem_append, List.mem_singleton]
    exact Or.inl hr2⟩

theorem grows_parseQmlTypesFile (c : Collaborators) (pass : Pass) (x : SourceId) :
    Pass.Grows pass (Pass.parseQmlTypesFile c pass x) := by
  unfold Pass.parseQmlTypesFile
  simp only []
  split <;> exact grows_of_eq rfl rfl

theorem grows_parseQmlDocumentFile (c : Collaborators) (pass : Pass) (x : SourceId)
    (e : ExportedType) : Pass.Grows pass (Pass.parseQmlDocumentFile c pass x e) := by
  unfold Pass.parseQmlDocumentFile
  simp only []
  split <;> exact grows_of_eq rfl rfl

theorem grows_parseStoredQmlDocumentFile (c : Collaborators) (pass : Pass) (x : SourceId) :
    Pass.Grows pass (Pass.parseStoredQmlDocumentFile c pass x) := by
  unfold Pass.parseStoredQmlDocumentFile
  simp only []
  split <;> exact grows_of_eq rfl rfl

theorem grows_fileStateAndWatch (c : Collaborators) (storage : ScopeStorage)
    (kind : WatchedKind) (x : SourceId) (pass : Pass) :
    Pass.Grows pass (fileStateAndWatch c storage kind x pass).2 := by
  rw [fileStateAndWatch_snd]
  cases currentFileStatus c x with
  | none =>
    simp only []
    split
    · exact grows_of_eq rfl rfl
    · exact Pass.Grows.growsRefl pass
  | some cur =>
    simp only []
    split
    · exact (grows_of_eq rfl rfl : Pass.Grows pass (pass.addNotUpdatedFileStatus x)).andThen
        (grows_watch _ kind x)
    · exact (grows_of_eq rfl rfl : Pass.Grows pass (pass.addFileStatus cur)).andThen
        (grows_watch _ kind x)

/-! #### parseTypeInfo and updateQmlTypes -/

theorem parseTypeInfo_fst (c : Collaborators) (storage : ScopeStorage) (pd : ProjectData)
    (pass : Pass) :
    (parseTypeInfo c storage pd pass).1 = fileStateOf c storage pd.sourceId := by
  unfold parseTypeInfo
  simp only []
  rw [fileStateAndWatch_fst]
  cases fileStateOf c storage pd.sourceId <;> rfl

theorem grows_parseTypeInfo (c : Collaborators) (storage : ScopeStorage) (pd : ProjectData)
    (pass : Pass) : Pass.Grows pass (parseTypeInfo c storage pd pass).2 := by
  have h := grows_fileStateAndWatch c storage WatchedKind.Qmltypes pd.sourceId pass
  unfold parseTypeInfo
  simp only []
  split
  · exact h.andThen (grows_parseQmlTypesFile c _ _)
  · exact h.andThen (grows_of_eq rfl rfl)
  · exact h

theorem parseTypeInfo_watched (c : Collaborators) (storage : ScopeStorage) (pd : ProjectData)
    (pass : Pass) (hx : c.fileStatus pd.sourceId ≠ none) :
    pd.sourceId ∈ (parseTypeInfo c storage pd pass).2.sourceIdsData.watched := by
  have hne : fileStateOf c storage pd.sourceId ≠ FileState.NotExists :=
    fun h => hx ((fileStateOf_notExists c storage pd.sourceId).mp h)
  have h := fileStateAndWatch_watched c storage WatchedKind.Qmltypes pd.sourceId pass hne
  have hfst := fileStateAndWatch_fst c storage WatchedKind.Qmltypes pd.sourceId pass
  unfold parseTypeInfo
  simp only []
  split
  · exact (grows_parseQmlTypesFile c _ _).watched _ h
  · exact h
  · rename_i heq
    rw [hfst] at heq
    exact absurd heq hne

theorem PassInv.parseTypeInfo {c : Collaborators} {storage : ScopeStorage}
    {D T : List String} {pass : Pass} (h : PassInv c storage D T pass) (pd : ProjectData)
    (hreason : WatchReason c storage D T pd.sourceId) :
    PassInv c storage D T (parseTypeInfo c storage pd pass).2 := by
  have hinv := h.fileStateAndWatch WatchedKind.Qmltypes pd.sourceId hreason
  have hfst := fileStateAndWatch_fst c storage WatchedKind.Qmltypes pd.sourceId pass
  unfold QmlDesigner.parseTypeInfo
  simp only []
  split
  · rename_i heq
    rw [hfst] at heq
    refine hinv.parseQmlTypesFile _ ?_
    exact fileStateAndWatch_watched c storage _ _ pass (by rw [heq]; decide)
  · rename_i heq
    rw [hfst] at heq
    refine hinv.addNotUpdated _ ?_
    exact fileStateAndWatch_watched c storage _ _ pass (by rw [heq]; decide)
  · exact hinv

theorem PassInv.updateQmlTypes {c : Collaborators} {storage : ScopeStorage}
    {D T : List String} (paths : List String) (hsub : ∀ t ∈ paths, t ∈ T) (pass : Pass)
    (h : PassInv c storage D T pass) :
    PassInv c storage D T (updateQmlTypes c storage paths pass) := by
  unfold QmlDesigner.updateQmlTypes
  refine foldl_preserves (PassInv c storage D T) _ paths pass ?_ h
  intro p t ht hp
  exact hp.parseTypeInfo _ (Or.inl ⟨t, hsub t ht, rfl⟩)

theorem grows_updateQmlTypes (c : Collaborators) (storage : ScopeStorage)
    (paths : List String) (pass : Pass) :
    Pass.Grows pass (updateQmlTypes c storage paths pass) := by
  unfold updateQmlTypes
  exact foldl_grows _ (fun p t => grows_parseTypeInfo c storage _ p) paths pass

theorem updateQmlTypes_watched (c : Collaborators) (storage : ScopeStorage)
    (paths : List String) (pass : Pass) (t : String) (ht : t ∈ paths)
    (hx : c.fileStatus (c.sourceId t) ≠ none) :
    c.sourceId t ∈ (updateQmlTypes c storage paths pass).sourceIdsData.watched := by
  unfold updateQmlTypes
  refine foldl_establishes (fun p => c.sourceId t ∈ p.sourceIdsData.watched) _
    (fun p t => grows_parseTypeInfo c storage _ p) (fun p q hpq hp => hpq.watched _ hp) t ?_
    paths pass ht
  intro p
  exact parseTypeInfo_watched c storage ⟨c.sourceId t, c.sourceId t, 0, FileType.QmlTypes⟩ p hx

end QmlDesigner

/-! #### The files of a directory -/

namespace QmlDesigner

theorem exists_of_fileStateOf_ne (c : Collaborators) (storage : ScopeStorage) (x : SourceId)
    (h : fileStateOf c storage x ≠ FileState.NotExists) : c.fileStatus x ≠ none :=
  fun hn => h ((fileStateOf_notExists c storage x).mpr hn)

theorem fileStateOf_ne_of_exists (c : Collaborators) (storage : ScopeStorage) (x : SourceId)
    (h : c.fileStatus x ≠ none) : fileStateOf c storage x ≠ FileState.NotExists :=
  fun hn => h ((fileStateOf_notExists c storage x).mp hn)

theorem grows_parseReferencedTypeInfo (c : Collaborators) (storage : ScopeStorage)
    (dsi : SourceId) (d : String) (m : ModuleId) (pass : Pass) (ti : String) :
    Pass.Grows pass (parseReferencedTypeInfo c storage dsi d m pass ti) := by
  have h := grows_parseTypeInfo c storage
    ⟨dsi, c.sourceId (d ++ "/" ++ ti), m, FileType.QmlTypes⟩ pass
  unfold parseReferencedTypeInfo
  simp only []
  split
  · exact h
  · exact h.andThen (grows_addProjectData _ _)
  · exact h.andThen (grows_addProjectData _ _)

theorem passInv_parseReferencedTypeInfo {c : Collaborators} {storage : ScopeStorage}
    {D T : List String} {pass : Pass} (h : PassInv c storage D T pass) (d : String)
    (m : ModuleId) (ti : String) (hd : d ∈ D) (hdir : c.fileStatus (c.sourceId d) ≠ none)
    (hq : fileStateOf c storage (c.sourceId (d ++ "/qmldir")) = FileState.Changed)
    (hti : c.sourceId (d ++ "/" ++ ti) ∈ declaredSourceIds c d) :
    PassInv c storage D T (parseReferencedTypeInfo c storage (c.sourceId d) d m pass ti) := by
  have hreason : WatchReason c storage D T (c.sourceId (d ++ "/" ++ ti)) :=
    Or.inr (Or.inr (Or.inr (Or.inl ⟨d, hd, hdir, hq, hti⟩)))
  have hinv := h.parseTypeInfo
    ⟨c.sourceId d, c.sourceId (d ++ "/" ++ ti), m, FileType.QmlTypes⟩ hreason
  have hfst := parseTypeInfo_fst c storage
    ⟨c.sourceId d, c.sourceId (d ++ "/" ++ ti), m, FileType.QmlTypes⟩ pass
  have hw : fileStateOf c storage (c.sourceId (d ++ "/" ++ ti)) ≠ FileState.NotExists →
      c.sourceId (d ++ "/" ++ ti) ∈ (parseTypeInfo c storage
        ⟨c.sourceId d, c.sourceId (d ++ "/" ++ ti), m, FileType.QmlTypes⟩
        pass).2.sourceIdsData.watched := fun hne =>
    parseTypeInfo_watched c storage
      ⟨c.sourceId d, c.sourceId (d ++ "/" ++ ti), m, FileType.QmlTypes⟩ pass
      (exists_of_fileStateOf_ne c storage _ hne)
  unfold parseReferencedTypeInfo
  simp only []
  split
  · exact hinv
  · rename_i heq
    rw [hfst] at heq
    exact hinv.addProjectData _ (hw (by rw [heq]; decide)) ⟨d, hd, rfl, hq⟩
  · rename_i heq
    rw [hfst] at heq
    exact hinv.addProjectData _ (hw (by rw [heq]; decide)) ⟨d, hd, rfl, hq⟩

theorem parseReferencedTypeInfo_record (c : Collaborators) (storage : ScopeStorage)
    (dsi : SourceId) (d : String) (m : ModuleId) (pass : Pass) (ti : String)
    (hx : c.fileStatus (c.sourceId (d ++ "/" ++ ti)) ≠ none) :
    c.sourceId (d ++ "/" ++ ti) ∈
        (parseReferencedTypeInfo c storage dsi d m pass ti).sourceIdsData.watched ∧
      ∃ r ∈ (parseReferencedTypeInfo c storage dsi d m pass ti).package.projectDatas,
        r.projectSourceId = dsi ∧ r.sourceId = c.sourceId (d ++ "/" ++ ti) := by
  have hw := parseTypeInfo_watched c storage
    ⟨dsi, c.sourceId (d ++ "/" ++ ti), m, FileType.QmlTypes⟩ pass hx
  have hfst := parseTypeInfo_fst c storage
    ⟨dsi, c.sourceId (d ++ "/" ++ ti), m, FileType.QmlTypes⟩ pass
  have hne := fileStateOf_ne_of_exists c storage _ hx
  have hrec : ∀ p : Pass, ∃ r ∈ (p.addProjectData
      ⟨dsi, c.sourceId (d ++ "/" ++ ti), m, FileType.QmlTypes⟩).package.projectDatas,
      r.projectSourceId = dsi ∧ r.sourceId = c.sourceId (d ++ "/" ++ ti) := by
    intro p
    refine ⟨⟨dsi, c.sourceId (d ++ "/" ++ ti), m, FileType.QmlTypes⟩, ?_, rfl, rfl⟩
    simp [Pass.addProjectData]
  unfold parseReferencedTypeInfo
  simp only []
  split
  · rename_i heq
    rw [hfst] at heq
    exact absurd heq hne
  · exact ⟨hw, hrec _⟩
  · exact ⟨hw, hrec _⟩

theorem grows_parseTypeInfos (c : Collaborators) (storage : ScopeStorage)
    (typeInfos : List String) (dsi : SourceId) (d : String) (m : ModuleId) (pass : Pass) :
    Pass.Grows pass (parseTypeInfos c storage typeInfos dsi d m pass) := by
  unfold parseTypeInfos
  exact foldl_grows _ (fun p ti => grows_parseReferencedTypeInfo c storage dsi d m p ti)
    typeInfos pass

theorem passInv_parseTypeInfos {c : Collaborators} {storage : ScopeStorage}
    {D T : List String} (typeInfos : List String) (d : String) (m : ModuleId) (pass : Pass)
    (h : PassInv c storage D T pass) (hd : d ∈ D)
    (hdir : c.fileStatus (c.sourceId d) ≠ none)
    (hq : fileStateOf c storage (c.sourceId (d ++ "/qmldir")) = FileState.Changed)
    (hti : ∀ ti ∈ typeInfos, c.sourceId (d ++ "/" ++ ti) ∈ declaredSourceIds c d) :
    PassInv c storage D T (parseTypeInfos c storage typeInfos (c.sourceId d) d m pass) := by
  unfold parseTypeInfos
  refine foldl_preserves (PassInv c storage D T) _ typeInfos pass ?_ h
  intro p ti hmem hp
  exact passInv_parseReferencedTypeInfo hp d m ti hd hdir hq (hti ti hmem)

theorem parseTypeInfos_record (c : Collaborators) (storage : ScopeStorage)
    (typeInfos : List String) (dsi : SourceId) (d : String) (m : ModuleId) (pass : Pass)
    (ti : String) (hmem : ti ∈ typeInfos)
    (hx : c.fileStatus (c.sourceId (d ++ "/" ++ ti)) ≠ none) :
    c.sourceId (d ++ "/" ++ ti) ∈
        (parseTypeInfos c storage typeInfos dsi d m pass).sourceIdsData.watched ∧
      ∃ r ∈ (parseTypeInfos c storage typeInfos dsi d m pass).package.projectDatas,
        r.projectSourceId = dsi ∧ r.sourceId = c.sourceId (d ++ "/" ++ ti) := by
  unfold parseTypeInfos
  refine foldl_establishes
    (fun p => c.sourceId (d ++ "/" ++ ti) ∈ p.sourceIdsData.watched ∧
      ∃ r ∈ p.package.projectDatas,
        r.projectSourceId = dsi ∧ r.sourceId = c.sourceId (d ++ "/" ++ ti)) _
    (fun p ti => grows_parseReferencedTypeInfo c storage dsi d m p ti) ?_ ti ?_
    typeInfos pass hmem
  · rintro p q hpq ⟨h1, r, hr, h2⟩
    exact ⟨hpq.watched _ h1, r, hpq.projectDatas r hr, h2⟩
  · intro p
    exact parseReferencedTypeInfo_record c storage dsi d m p ti hx

theorem grows_parseQmlComponent (c : Collaborators) (storage : ScopeStorage)
    (k : Component) (d : String) (dsi : SourceId) (pass : Pass) (qs : FileState) :
    Pass.Grows pass (parseQmlComponent c storage k d dsi pass qs) := by
  have h := grows_fileStateAndWatch c storage WatchedKind.Qml
    (c.sourceId (d ++ "/" ++ k.fileName)) pass
  unfold parseQmlComponent
  simp only []
  split
  · exact h
  · exact (h.andThen (grows_addProjectData _ _)).andThen (grows_parseQmlDocumentFile c _ _ _)
  · split
    · exact (h.andThen (grows_addProjectData _ _)).andThen (grows_parseQmlDocumentFile c _ _ _)
    · exact (h.andThen (grows_addProjectData _ _)).andThen (grows_of_eq rfl rfl)

theorem passInv_parseQmlComponent {c : Collaborators} {storage : ScopeStorage}
    {D T : List String} {pass : Pass} (h : PassInv c storage D T pass) (k : Component)
    (d : String) (qs : FileState) (hd : d ∈ D) (hdir : c.fileStatus (c.sourceId d) ≠ none)
    (hq : fileStateOf c storage (c.sourceId (d ++ "/qmldir")) = FileState.Changed)
    (hk : c.sourceId (d ++ "/" ++ k.fileName) ∈ declaredSourceIds c d) :
    PassInv c storage D T (parseQmlComponent c storage k d (c.sourceId d) pass qs) := by
  have hreason : WatchReason c storage D T (c.sourceId (d ++ "/" ++ k.fileName)) :=
    Or.inr (Or.inr (Or.inr (Or.inl ⟨d, hd, hdir, hq, hk⟩)))
  have hinv := h.fileStateAndWatch WatchedKind.Qml _ hreason
  have hfst := fileStateAndWatch_fst c storage WatchedKind.Qml
    (c.sourceId (d ++ "/" ++ k.fileName)) pass
  have hw := fileStateAndWatch_watched c storage WatchedKind.Qml
    (c.sourceId (d ++ "/" ++ k.fileName)) pass
  unfold parseQmlComponent
  simp only []
  split
  · exact hinv
  · rename_i heq
    rw [hfst] at heq
    have hw2 := hw (by rw [heq]; decide)
    exact (hinv.addProjectData _ hw2 ⟨d, hd, rfl, hq⟩).parseQmlDocumentFile _ _ hw2 hw2
  · rename_i heq
    rw [hfst] at heq
    have hw2 := hw (by rw [heq]; decide)
    split
    · exact (hinv.addProjectData _ hw2 ⟨d, hd, rfl, hq⟩).parseQmlDocumentFile _ _ hw2 hw2
    · exact (hinv.addProjectData _ hw2 ⟨d, hd, rfl, hq⟩).addNotUpdated _ hw2

theorem parseQmlComponent_record (c : Collaborators) (storage : ScopeStorage)
    (k : Component) (d : String) (dsi : SourceId) (pass : Pass) (qs : FileState)
    (hx : c.fileStatus (c.sourceId (d ++ "/" ++ k.fileName)) ≠ none) :
    c.sourceId (d ++ "/" ++ k.fileName) ∈
        (parseQmlComponent c storage k d dsi pass qs).sourceIdsData.watched ∧
      ∃ r ∈ (parseQmlComponent c storage k d dsi pass qs).package.projectDatas,
        r.projectSourceId = dsi ∧ r.sourceId = c.sourceId (d ++ "/" ++ k.fileName) := by
  have hne := fileStateOf_ne_of_exists c storage _ hx
  have hw := fileStateAndWatch_watched c storage WatchedKind.Qml
    (c.sourceId (d ++ "/" ++ k.fileName)) pass hne
  have hfst := fileStateAndWatch_fst c storage WatchedKind.Qml
    (c.sourceId (d ++ "/" ++ k.fileName)) pass
  have hrec : ∀ p : Pass, c.sourceId (d ++ "/" ++ k.fileName) ∈ p.sourceIdsData.watched →
      c.sourceId (d ++ "/" ++ k.fileName) ∈ (p.addProjectData
        ⟨dsi, c.sourceId (d ++ "/" ++ k.fileName), k.moduleId,
          FileType.QmlDocument⟩).sourceIdsData.watched ∧
      ∃ r ∈ (p.addProjectData ⟨dsi, c.sourceId (d ++ "/" ++ k.fileName), k.moduleId,
          FileType.QmlDocument⟩).package.projectDatas,
        r.projectSourceId = dsi ∧ r.sourceId = c.sourceId (d ++ "/" ++ k.fileName) := by
    intro p hp
    refine ⟨hp, ⟨dsi, c.sourceId (d ++ "/" ++ k.fileName), k.moduleId,
      FileType.QmlDocument⟩, ?_, rfl, rfl⟩
    simp [Pass.addProjectData]
  have hlift : ∀ p q : Pass, Pass.Grows p q →
      (c.sourceId (d ++ "/" ++ k.fileName) ∈ p.sourceIdsData.watched ∧
        ∃ r ∈ p.package.projectDatas,
          r.projectSourceId = dsi ∧ r.sourceId = c.sourceId (d ++ "/" ++ k.fileName)) →
      (c.sourceId (d ++ "/" ++ k.fileName) ∈ q.sourceIdsData.watched ∧
        ∃ r ∈ q.package.projectDatas,
          r.projectSourceId = dsi ∧ r.sourceId = c.sourceId (d ++ "/" ++ k.fileName)) := by
    rintro p q hpq ⟨h1, r, hr, h2⟩
    exact ⟨hpq.watched _ h1, r, hpq.projectDatas r hr, h2⟩
  unfold parseQmlComponent
  simp only []
  split
  · rename_i heq
    rw [hfst] at heq
    exact absurd heq hne
  · exact hlift _ _ (grows_parseQmlDocumentFile c _ _ _) (hrec _ hw)
  · split
    · exact hlift _ _ (grows_parseQmlDocumentFile c _ _ _) (hrec _ hw)
    · exact hlift _ _ (grows_of_eq rfl rfl) (hrec _ hw)

theorem grows_parseQmlComponents (c : Collaborators) (storage : ScopeStorage)
    (components : Components) (dsi : SourceId) (d : String) (pass : Pass) (qs : FileState) :
    Pass.Grows pass (parseQmlComponents c storage components dsi d pass qs) := by
  unfold parseQmlComponents
  exact foldl_grows _ (fun p k => grows_parseQmlComponent c storage k d dsi p qs)
    components pass

theorem passInv_parseQmlComponents {c : Collaborators} {storage : ScopeStorage}
    {D T : List String} (components : Components) (d : String) (qs : FileState) (pass : Pass)
    (h : PassInv c storage D T pass) (hd : d ∈ D)
    (hdir : c.fileStatus (c.sourceId d) ≠ none)
    (hq : fileStateOf c storage (c.sourceId (d ++ "/qmldir")) = FileState.Changed)
    (hk : ∀ k ∈ components, c.sourceId (d ++ "/" ++ k.fileName) ∈ declaredSourceIds c d) :
    PassInv c storage D T
      (parseQmlComponents c storage components (c.sourceId d) d pass qs) := by
  unfold parseQmlComponents
  refine foldl_preserves (PassInv c storage D T) _ components pass ?_ h
  intro p k hmem hp
  exact passInv_parseQmlComponent hp k d qs hd hdir hq (hk k hmem)

theorem parseQmlComponents_record (c : Collaborators) (storage : ScopeStorage)
    (components : Components) (dsi : SourceId) (d : String) (pass : Pass) (qs : FileState)
    (k : Component) (hmem : k ∈ components)
    (hx : c.fileStatus (c.sourceId (d ++ "/" ++ k.fileName)) ≠ none) :
    c.sourceId (d ++ "/" ++ k.fileName) ∈
        (parseQmlComponents c storage components dsi d pass qs).sourceIdsData.watched ∧
      ∃ r ∈ (parseQmlComponents c storage components dsi d pass qs).package.projectDatas,
        r.projectSourceId = dsi ∧ r.sourceId = c.sourceId (d ++ "/" ++ k.fileName) := by
  unfold parseQmlComponents
  refine foldl_establishes
    (fun p => c.sourceId (d ++ "/" ++ k.fileName) ∈ p.sourceIdsData.watched ∧
      ∃ r ∈ p.package.projectDatas,
        r.projectSourceId = dsi ∧ r.sourceId = c.sourceId (d ++ "/" ++ k.fileName)) _
    (fun p k => grows_parseQmlComponent c storage k d dsi p qs) ?_ k ?_
    components pass hmem
  · rintro p q hpq ⟨h1, r, hr, h2⟩
    exact ⟨hpq.watched _ h1, r, hpq.projectDatas r hr, h2⟩
  · intro p
    exact parseQmlComponent_record c storage k d dsi p qs hx

/-! #### Stored project-data records -/

theorem grows_parseStoredQmlComponent (c : Collaborators) (storage : ScopeStorage)
    (x : SourceId) (pass : Pass) :
    Pass.Grows pass (parseStoredQmlComponent c storage x pass) := by
  have h := grows_fileStateAndWatch c storage WatchedKind.Qml x pass
  unfold parseStoredQmlComponent
  simp only []
  split
  · exact h
  · exact h.andThen (grows_parseStoredQmlDocumentFile c _ _)
  · exact h.andThen (grows_of_eq rfl rfl)

theorem passInv_parseStoredQmlComponent {c : Collaborators} {storage : ScopeStorage}
    {D T : List String} {pass : Pass} (h : PassInv c storage D T pass) (x : SourceId)
    (hreason : WatchReason c storage D T x) :
    PassInv c storage D T (parseStoredQmlComponent c storage x pass) := by
  have hinv := h.fileStateAndWatch WatchedKind.Qml x hreason
  have hfst := fileStateAndWatch_fst c storage WatchedKind.Qml x pass
  have hw := fileStateAndWatch_watched c storage WatchedKind.Qml x pass
  unfold parseStoredQmlComponent
  simp only []
  split
  · exact hinv
  · rename_i heq
    rw [hfst] at heq
    exact hinv.parseStoredQmlDocumentFile _ (hw (by rw [heq]; decide))
  · rename_i heq
    rw [hfst] at heq
    exact hinv.addNotUpdated _ (hw (by rw [heq]; decide))

theorem parseStoredQmlComponent_watched (c : Collaborators) (storage : ScopeStorage)
    (x : SourceId) (pass : Pass) (hx : c.fileStatus x ≠ none) :
    x ∈ (parseStoredQmlComponent c storage x pass).sourceIdsData.watched := by
  have hne := fileStateOf_ne_of_exists c storage _ hx
  have hw := fileStateAndWatch_watched c storage WatchedKind.Qml x pass hne
  have hfst := fileStateAndWatch_fst c storage WatchedKind.Qml x pass
  unfold parseStoredQmlComponent
  simp only []
  split
  · rename_i heq
    rw [hfst] at heq
    exact absurd heq hne
  · exact (grows_parseStoredQmlDocumentFile c _ _).watched _ hw
  · exact hw

theorem grows_parseProjectData (c : Collaborators) (storage : ScopeStorage) (pass : Pass)
    (r : ProjectData) : Pass.Grows pass (parseProjectData c storage pass r) := by
  unfold parseProjectData
  split
  · exact grows_parseTypeInfo c storage r pass
  · exact grows_parseStoredQmlComponent c storage r.sourceId pass

theorem passInv_parseProjectData {c : Collaborators} {storage : ScopeStorage}
    {D T : List String} {pass : Pass} (h : PassInv c storage D T pass) (r : ProjectData)
    (hreason : WatchReason c storage D T r.sourceId) :
    PassInv c storage D T (parseProjectData c storage pass r) := by
  unfold parseProjectData
  split
  · exact h.parseTypeInfo r hreason
  · exact passInv_parseStoredQmlComponent h r.sourceId hreason

theorem parseProjectData_watched (c : Collaborators) (storage : ScopeStorage) (pass : Pass)
    (r : ProjectData) (hx : c.fileStatus r.sourceId ≠ none) :
    r.sourceId ∈ (parseProjectData c storage pass r).sourceIdsData.watched := by
  unfold parseProjectData
  split
  · exact parseTypeInfo_watched c storage r pass hx
  · exact parseStoredQmlComponent_watched c storage r.sourceId pass hx

theorem grows_parseProjectDatas (c : Collaborators) (storage : ScopeStorage)
    (records : List ProjectData) (pass : Pass) :
    Pass.Grows pass (parseProjectDatas c storage records pass) := by
  unfold parseProjectDatas
  exact foldl_grows _ (fun p r => grows_parseProjectData c storage p r) records pass

theorem passInv_parseProjectDatas {c : Collaborators} {storage : ScopeStorage}
    {D T : List String} (records : List ProjectData) (pass : Pass)
    (h : PassInv c storage D T pass)
    (hreason : ∀ r ∈ records, WatchReason c storage D T r.sourceId) :
    PassInv c storage D T (parseProjectDatas c storage records pass) := by
  unfold parseProjectDatas
  refine foldl_preserves (PassInv c storage D T) _ records pass ?_ h
  intro p r hmem hp
  exact passInv_parseProjectData hp r (hreason r hmem)

theorem parseProjectDatas_watched (c : Collaborators) (storage : ScopeStorage)
    (records : List ProjectData) (pass : Pass) (r : ProjectData) (hmem : r ∈ records)
    (hx : c.fileStatus r.sourceId ≠ none) :
    r.sourceId ∈ (parseProjectDatas c storage records pass).sourceIdsData.watched := by
  unfold parseProjectDatas
  refine foldl_establishes (fun p => r.sourceId ∈ p.sourceIdsData.watched) _
    (fun p r => grows_parseProjectData c storage p r) (fun p q hpq hp => hpq.watched _ hp) r ?_
    records pass hmem
  intro p
  exact parseProjectData_watched c storage p r hx

end QmlDesigner

/-! #### updateDirectory and updateDirectories -/

namespace QmlDesigner

theorem updateDirectory_eq (c : Collaborators) (storage : ScopeStorage) (pass : Pass)
    (d : String) :
    updateDirectory c storage pass d =
      if fileStateOf c storage (c.sourceId d) = FileState.NotExists then
        (fileStateAndWatch c storage WatchedKind.Directory (c.sourceId d) pass).2
      else
        match fileStateOf c storage (c.sourceId (d ++ "/qmldir")) with
        | FileState.NotExists =>
          (fileStateAndWatch c storage WatchedKind.Qmldir (c.sourceId (d ++ "/qmldir"))
            (fileStateAndWatch c storage WatchedKind.Directory (c.sourceId d) pass).2).2
        | FileState.Changed =>
          parseQmlComponents c storage
            (c.parseQmldir (c.fileContents (c.sourceId (d ++ "/qmldir")))).components
            (c.sourceId d) d
            (parseTypeInfos c storage
              (c.parseQmldir (c.fileContents (c.sourceId (d ++ "/qmldir")))).typeInfos
              (c.sourceId d) d
              (c.parseQmldir (c.fileContents (c.sourceId (d ++ "/qmldir")))).moduleId
              (fileStateAndWatch c storage WatchedKind.Qmldir (c.sourceId (d ++ "/qmldir"))
                (fileStateAndWatch c storage WatchedKind.Directory (c.sourceId d) pass).2).2)
            FileState.Changed
        | FileState.NotChanged =>
          parseProjectDatas c storage (fetchProjectDatas storage (c.sourceId d))
            ((fileStateAndWatch c storage WatchedKind.Qmldir (c.sourceId (d ++ "/qmldir"))
              (fileStateAndWatch c storage WatchedKind.Directory (c.sourceId d) pass).2).2.addNotUpdated
              (c.sourceId (d ++ "/qmldir"))) := by
  unfold updateDirectory
  simp only []
  rw [fileStateAndWatch_fst, fileStateAndWatch_fst]
  cases fileStateOf c storage (c.sourceId d) <;>
    cases fileStateOf c storage (c.sourceId (d ++ "/qmldir")) <;> rfl

theorem grows_updateDirectory (c : Collaborators) (storage : ScopeStorage) (pass : Pass)
    (d : String) : Pass.Grows pass (updateDirectory c storage pass d) := by
  have h1 := grows_fileStateAndWatch c storage WatchedKind.Directory (c.sourceId d) pass
  have h2 := grows_fileStateAndWatch c storage WatchedKind.Qmldir (c.sourceId (d ++ "/qmldir"))
    (fileStateAndWatch c storage WatchedKind.Directory (c.sourceId d) pass).2
  rw [updateDirectory_eq]
  split
  · exact h1
  · split
    · exact h1.andThen h2
    · exact (h1.andThen h2).andThen
        ((grows_parseTypeInfos c storage _ _ _ _ _).andThen
          (grows_parseQmlComponents c storage _ _ _ _ _))
    · have h3 : Pass.Grows
          (fileStateAndWatch c storage WatchedKind.Qmldir (c.sourceId (d ++ "/qmldir"))
            (fileStateAndWatch c storage WatchedKind.Directory (c.sourceId d) pass).2).2
          ((fileStateAndWatch c storage WatchedKind.Qmldir (c.sourceId (d ++ "/qmldir"))
            (fileStateAndWatch c storage WatchedKind.Directory (c.sourceId d)
              pass).2).2.addNotUpdated (c.sourceId (d ++ "/qmldir"))) := grows_of_eq rfl rfl
      exact (h1.andThen h2).andThen (h3.andThen (grows_parseProjectDatas c storage _ _))

theorem mem_fetchProjectDatas (storage : ScopeStorage) (k : SourceId) (r : ProjectData) :
    r ∈ fetchProjectDatas storage k ↔ r ∈ storage.projectDatas ∧ r.projectSourceId = k := by
  unfold fetchProjectDatas
  simp [List.mem_filter]

theorem passInv_updateDirectory {c : Collaborators} {storage : ScopeStorage}
    {D T : List String} {pass : Pass} (h : PassInv c storage D T pass) (d : String)
    (hd : d ∈ D) : PassInv c storage D T (updateDirectory c storage pass d) := by
  have h1 := h.fileStateAndWatch WatchedKind.Directory (c.sourceId d)
    (Or.inr (Or.inl ⟨d, hd, rfl⟩))
  rw [updateDirectory_eq]
  split
  · exact h1
  · rename_i hdirState
    have hdir := exists_of_fileStateOf_ne c storage _ hdirState
    have h2 := h1.fileStateAndWatch WatchedKind.Qmldir (c.sourceId (d ++ "/qmldir"))
      (Or.inr (Or.inr (Or.inl ⟨d, hd, hdir, rfl⟩)))
    split
    · exact h2
    · rename_i hq
      refine passInv_parseQmlComponents _ d FileState.Changed _ ?_ hd hdir hq ?_
      · refine passInv_parseTypeInfos _ d _ _ h2 hd hdir hq ?_
        intro ti hti
        unfold declaredSourceIds
        exact List.mem_append_left _ (List.mem_map.mpr ⟨ti, hti, rfl⟩)
      · intro k hk
        unfold declaredSourceIds componentSourceIds
        exact List.mem_append_right _ (List.mem_map.mpr ⟨k, hk, rfl⟩)
    · rename_i hq
      refine passInv_parseProjectDatas _ _ ?_ ?_
      · refine h2.addNotUpdated _ ?_
        exact fileStateAndWatch_watched c storage _ _ _ (by rw [hq]; decide)
      · intro r hr
        rw [mem_fetchProjectDatas] at hr
        exact Or.inr (Or.inr (Or.inr (Or.inr ⟨d, hd, hdir, hq, r, hr.1, hr.2, rfl⟩)))

/-- What `updateDirectory` establishes for a directory that exists: the directory is
watched; its descriptor is watched if it exists; with a changed descriptor every declared
file that exists is watched and has a project-data record of the directory in the
package; with an unchanged descriptor the file of every stored record of the directory
is watched if it exists. -/
theorem updateDirectory_establishes (c : Collaborators) (storage : ScopeStorage)
    (pass : Pass) (d : String) (hdir : c.fileStatus (c.sourceId d) ≠ none) :
    c.sourceId d ∈ (updateDirectory c storage pass d).sourceIdsData.watched ∧
    (c.fileStatus (c.sourceId (d ++ "/qmldir")) ≠ none →
      c.sourceId (d ++ "/qmldir") ∈
        (updateDirectory c storage pass d).sourceIdsData.watched) ∧
    (fileStateOf c storage (c.sourceId (d ++ "/qmldir")) = FileState.Changed →
      ∀ x ∈ declaredSourceIds c d, c.fileStatus x ≠ none →
        x ∈ (updateDirectory c storage pass d).sourceIdsData.watched ∧
        ∃ r ∈ (updateDirectory c storage pass d).package.projectDatas,
          r.projectSourceId = c.sourceId d ∧ r.sourceId = x) ∧
    (fileStateOf c storage (c.sourceId (d ++ "/qmldir")) = FileState.NotChanged →
      ∀ r ∈ storage.projectDatas, r.projectSourceId = c.sourceId d →
        c.fileStatus r.sourceId ≠ none →
        r.sourceId ∈ (updateDirectory c storage pass d).sourceIdsData.watched) := by
  have hdirState := fileStateOf_ne_of_exists c storage _ hdir
  have hw1 := fileStateAndWatch_watched c storage WatchedKind.Directory (c.sourceId d) pass
    hdirState
  have hg := grows_updateDirectory c storage pass d
  have hg2 := grows_fileStateAndWatch c storage WatchedKind.Qmldir
    (c.sourceId (d ++ "/qmldir"))
    (fileStateAndWatch c storage WatchedKind.Directory (c.sourceId d) pass).2
  have hw2 := fileStateAndWatch_watched c storage WatchedKind.Qmldir
    (c.sourceId (d ++ "/qmldir"))
    (fileStateAndWatch c storage WatchedKind.Directory (c.sourceId d) pass).2
  rw [updateDirectory_eq, if_neg hdirState] at hg ⊢
  cases hq : fileStateOf c storage (c.sourceId (d ++ "/qmldir")) with
  | NotExists =>
    rw [hq] at hg
    simp only [] at hg ⊢
    refine ⟨hg2.watched _ hw1, ?_, ?_, ?_⟩
    · intro hex
      exact absurd hq (fileStateOf_ne_of_exists c storage _ hex)
    · intro h; exact absurd h (by decide)
    · intro h; exact absurd h (by decide)
  | Changed =>
    rw [hq] at hg hw2
    simp only [] at hg ⊢
    have hgi := grows_parseTypeInfos c storage
      (c.parseQmldir (c.fileContents (c.sourceId (d ++ "/qmldir")))).typeInfos
      (c.sourceId d) d
      (c.parseQmldir (c.fileContents (c.sourceId (d ++ "/qmldir")))).moduleId
      (fileStateAndWatch c storage WatchedKind.Qmldir (c.sourceId (d ++ "/qmldir"))
        (fileStateAndWatch c storage WatchedKind.Directory (c.sourceId d) pass).2).2
    have hgk := grows_parseQmlComponents c storage
      (c.parseQmldir (c.fileContents (c.sourceId (d ++ "/qmldir")))).components
      (c.sourceId d) d
      (parseTypeInfos c storage
        (c.parseQmldir (c.fileContents (c.sourceId (d ++ "/qmldir")))).typeInfos
        (c.sourceId d) d
        (c.parseQmldir (c.fileContents (c.sourceId (d ++ "/qmldir")))).moduleId
        (fileStateAndWatch c storage WatchedKind.Qmldir (c.sourceId (d ++ "/qmldir"))
          (fileStateAndWatch c storage WatchedKind.Directory (c.sourceId d) pass).2).2)
      FileState.Changed
    refine ⟨hgk.watched _ (hgi.watched _ (hg2.watched _ hw1)), ?_, ?_, ?_⟩
    · intro _
      exact hgk.watched _ (hgi.watched _ (hw2 (by decide)))
    · intro _ x hx hex
      unfold declaredSourceIds at hx
      rcases List.mem_append.mp hx with hx | hx
      · obtain ⟨ti, hti, rfl⟩ := List.mem_map.mp hx
        obtain ⟨h1, r, hr, h2⟩ := parseTypeInfos_record c storage _ (c.sourceId d) d
          (c.parseQmldir (c.fileContents (c.sourceId (d ++ "/qmldir")))).moduleId
          (fileStateAndWatch c storage WatchedKind.Qmldir (c.sourceId (d ++ "/qmldir"))
            (fileStateAndWatch c storage WatchedKind.Directory (c.sourceId d) pass).2).2
          ti hti hex
        exact ⟨hgk.watched _ h1, r, hgk.projectDatas r hr, h2⟩
      · unfold componentSourceIds at hx
        obtain ⟨k, hk, rfl⟩ := List.mem_map.mp hx
        exact parseQmlComponents_record c storage _ (c.sourceId d) d _ FileState.Changed
          k hk hex
    · intro h; exact absurd h (by decide)
  | NotChanged =>
    rw [hq] at hg hw2
    simp only [] at hg ⊢
    have hgp := grows_parseProjectDatas c storage (fetchProjectDatas storage (c.sourceId d))
      ((fileStateAndWatch c storage WatchedKind.Qmldir (c.sourceId (d ++ "/qmldir"))
        (fileStateAndWatch c storage WatchedKind.Directory (c.sourceId d)
          pass).2).2.addNotUpdated (c.sourceId (d ++ "/qmldir")))
    refine ⟨hgp.watched _ (hg2.watched _ hw1), ?_, ?_, ?_⟩
    · intro _
      exact hgp.watched _ (hw2 (by decide))
    · intro h; exact absurd h (by decide)
    · intro _ r hr hkey hex
      exact parseProjectDatas_watched c storage _ _ r
        ((mem_fetchProjectDatas storage _ r).mpr ⟨hr, hkey⟩) hex

theorem grows_updateDirectories (c : Collaborators) (storage : ScopeStorage)
    (directories : List String) (pass : Pass) :
    Pass.Grows pass (updateDirectories c storage directories pass) := by
  unfold updateDirectories
  exact foldl_grows _ (fun p d => grows_updateDirectory c storage p d) directories pass

theorem passInv_updateDirectories {c : Collaborators} {storage : ScopeStorage}
    {D T : List String} (directories : List String) (hsub : ∀ d ∈ directories, d ∈ D)
    (pass : Pass) (h : PassInv c storage D T pass) :
    PassInv c storage D T (updateDirectories c storage directories pass) := by
  unfold updateDirectories
  refine foldl_preserves (PassInv c storage D T) _ directories pass ?_ h
  intro p d hd hp
  exact passInv_updateDirectory hp d (hsub d hd)

theorem updateDirectories_establishes (c : Collaborators) (storage : ScopeStorage)
    (directories : List String) (pass : Pass) (d : String) (hd : d ∈ directories)
    (hdir : c.fileStatus (c.sourceId d) ≠ none) :
    c.sourceId d ∈ (updateDirectories c storage directories pass).sourceIdsData.watched ∧
    (c.fileStatus (c.sourceId (d ++ "/qmldir")) ≠ none →
      c.sourceId (d ++ "/qmldir") ∈
        (updateDirectories c storage directories pass).sourceIdsData.watched) ∧
    (fileStateOf c storage (c.sourceId (d ++ "/qmldir")) = FileState.Changed →
      ∀ x ∈ declaredSourceIds c d, c.fileStatus x ≠ none →
        x ∈ (updateDirectories c storage directories pass).sourceIdsData.watched ∧
        ∃ r ∈ (updateDirectories c storage directories pass).package.projectDatas,
          r.projectSourceId = c.sourceId d ∧ r.sourceId = x) ∧
    (fileStateOf c storage (c.sourceId (d ++ "/qmldir")) = FileState.NotChanged →
      ∀ r ∈ storage.projectDatas, r.projectSourceId = c.sourceId d →
        c.fileStatus r.sourceId ≠ none →
        r.sourceId ∈ (updateDirectories c storage directories pass).sourceIdsData.watched) := by
  unfold updateDirectories
  refine foldl_establishes
    (fun p => c.sourceId d ∈ p.sourceIdsData.watched ∧
      (c.fileStatus (c.sourceId (d ++ "/qmldir")) ≠ none →
        c.sourceId (d ++ "/qmldir") ∈ p.sourceIdsData.watched) ∧
      (fileStateOf c storage (c.sourceId (d ++ "/qmldir")) = FileState.Changed →
        ∀ x ∈ declaredSourceIds c d, c.fileStatus x ≠ none →
          x ∈ p.sourceIdsData.watched ∧
          ∃ r ∈ p.package.projectDatas, r.projectSourceId = c.sourceId d ∧ r.sourceId = x) ∧
      (fileStateOf c storage (c.sourceId (d ++ "/qmldir")) = FileState.NotChanged →
        ∀ r ∈ storage.projectDatas, r.projectSourceId = c.sourceId d →
          c.fileStatus r.sourceId ≠ none → r.sourceId ∈ p.sourceIdsData.watched)) _
    (fun p d => grows_updateDirectory c storage p d) ?_ d ?_ directories pass hd
  · rintro p q hpq ⟨h1, h2, h3, h4⟩
    refine ⟨hpq.watched _ h1, fun hex => hpq.watched _ (h2 hex), ?_, ?_⟩
    · intro hq x hx hex
      obtain ⟨h5, r, hr, h6⟩ := h3 hq x hx hex
      exact ⟨hpq.watched _ h5, r, hpq.projectDatas r hr, h6⟩
    · intro hq r hr hkey hex
      exact hpq.watched _ (h4 hq r hr hkey hex)
  · intro p
    exact updateDirectory_establishes c storage p d hdir

end QmlDesigner

/-! #### The whole pass, and the removal of vanished files -/

namespace QmlDesigner

theorem passInv_start (c : Collaborators) (storage : ScopeStorage) (D T : List String) :
    PassInv c storage D T Pass.start := by
  refine ⟨?_, ?_, ?_, ?_, ?_, ?_, ?_, ?_⟩ <;> intro x hx <;>
    simp [Pass.start, SourceIdsData.empty, SynchronizationPackage.empty,
      SourceIdsData.watched, SourceIdsData.notUpdated] at hx

theorem passInv_visit (c : Collaborators) (storage : ScopeStorage) (D T : List String) :
    PassInv c storage D T (visit c storage D T) := by
  unfold visit
  exact passInv_updateDirectories D (fun _ h => h) _
    (PassInv.updateQmlTypes T (fun _ h => h) _ (passInv_start c storage D T))

theorem collect_eq (c : Collaborators) (storage : ScopeStorage) (D T : List String) :
    collect c storage D T = appendStaleSourceIds storage (visit c storage D T) := rfl

theorem watched_exists {c : Collaborators} {storage : ScopeStorage} {D T : List String}
    {pass : Pass} (h : PassInv c storage D T pass) (x : SourceId)
    (hx : x ∈ pass.sourceIdsData.watched) : c.fileStatus x ≠ none := by
  obtain ⟨cur, hcur, _⟩ := h.current x hx
  intro hn
  rw [(currentFileStatus_eq_none c x).mpr hn] at hcur
  simp at hcur

theorem mem_watched_iff (d : SourceIdsData) (x : SourceId) :
    x ∈ d.watched ↔ x ∈ d.watchedDirectorySourceIds ∨ x ∈ d.watchedQmldirSourceIds ∨
      x ∈ d.watchedQmlSourceIds ∨ x ∈ d.watchedQmltypesSourceIds := by
  unfold SourceIdsData.watched
  simp only [List.mem_append]
  tauto

/-- C3: a source id that the storage of the scope holds before the pass (as the id of a
file status, type, export or project-data record) and whose path does not exist when the
pass runs is in the removal list of the package that `update` commits, and is in none of
the four watched collections that `update` installs for the scope. -/
theorem update_removes_vanished_source_ids (c : Collaborators) (storage : ProjectStorage)
    (watcher : PathWatcher) (directories qmlTypesPaths : List String)
    (projectPartId : ProjectPartId) (x : SourceId)
    (hknown : x ∈ storedSourceIds (storage projectPartId))
    (hgone : c.fileStatus x = none) :
    x ∈ (update c storage watcher directories qmlTypesPaths
        projectPartId).package.removedSourceIds ∧
    x ∉ ((update c storage watcher directories qmlTypesPaths
        projectPartId).watcher projectPartId).directories ∧
    x ∉ ((update c storage watcher directories qmlTypesPaths
        projectPartId).watcher projectPartId).qmldirs ∧
    x ∉ ((update c storage watcher directories qmlTypesPaths
        projectPartId).watcher projectPartId).qmlFiles ∧
    x ∉ ((update c storage watcher directories qmlTypesPaths
        projectPartId).watcher projectPartId).qmltypesFiles := by
  have hinv := passInv_visit c (storage projectPartId) directories qmlTypesPaths
  have hnw : x ∉ (visit c (storage projectPartId) directories
      qmlTypesPaths).sourceIdsData.watched :=
    fun hw => watched_exists hinv x hw hgone
  have hnu : x ∉ (visit c (storage projectPartId) directories
      qmlTypesPaths).sourceIdsData.notUpdated :=
    fun hu => hnw (hinv.notUpdated x hu)
  have hnw2 := hnw
  rw [mem_watched_iff] at hnw2
  simp only [not_or] at hnw2
  refine ⟨?_, ?_, ?_, ?_, ?_⟩
  · simp only [update, collect_eq, appendStaleSourceIds, List.mem_append, List.mem_filter]
    refine Or.inr ⟨hknown, ?_⟩
    simp [hnw, hnu]
  · simp only [update, collect_eq, appendStaleSourceIds, Function.update_same,
      watchedSourceIds]
    exact hnw2.1
  · simp only [update, collect_eq, appendStaleSourceIds, Function.update_same,
      watchedSourceIds]
    exact hnw2.2.1
  · simp only [update, collect_eq, appendStaleSourceIds, Function.update_same,
      watchedSourceIds]
    exact hnw2.2.2.1
  · simp only [update, collect_eq, appendStaleSourceIds, Function.update_same,
      watchedSourceIds]
    exact hnw2.2.2.2

/-- Witness for C3: the sample storage knows file 8, which is not on the sample disk. -/
theorem update_removes_vanished_source_ids_witness :
    (8 : SourceId) ∈ storedSourceIds sampleStorage ∧
    sampleCollaborators.fileStatus 8 = none ∧
    (8 : SourceId) ∈ (update sampleCollaborators (fun _ => sampleStorage)
        (fun _ => ⟨[], [], [], []⟩) ["/D"] ["/x.qmltypes"] 0).package.removedSourceIds :=
  ⟨by decide, by decide,
   (update_removes_vanished_source_ids sampleCollaborators (fun _ => sampleStorage)
      (fun _ => ⟨[], [], [], []⟩) ["/D"] ["/x.qmltypes"] 0 8 (by decide) (by decide)).1⟩

end QmlDesigner

/-! #### The storage after a pass -/

namespace QmlDesigner

theorem mem_upsert {α : Type} [DecidableEq α] (key : α → SourceId) (stored new : List α)
    (r : α) :
    r ∈ upsert key stored new ↔ (r ∈ stored ∧ key r ∉ new.map key) ∨ r ∈ new := by
  unfold upsert
  simp only [List.mem_append, List.mem_filter, List.mem_dedup, Bool.not_eq_true', List.contains_eq_any_beq,
    List.any_eq_false, beq_iff_eq, List.mem_map, not_exists, not_and,
    Bool.not_eq_eq_eq_not, Bool.not_true, beq_eq_false_iff_ne, ne_eq]
  constructor
  · rintro (⟨h1, h2⟩ | h)
    · exact Or.inl ⟨h1, fun a ha heq => h2 (key a) ⟨a, ha, rfl⟩ heq.symm⟩
    · exact Or.inr h
  · rintro (⟨h1, h2⟩ | h)
    · refine Or.inl ⟨h1, ?_⟩
      rintro k ⟨a, ha, rfl⟩ heq
      exact h2 a ha heq.symm
    · exact Or.inr h

theorem find?_filter_of_imp {α : Type} (p q : α → Bool) :
    ∀ l : List α, (∀ a ∈ l, p a = true → q a = true) → (l.filter q).find? p = l.find? p := by
  intro l
  induction l with
  | nil => intro _; rfl
  | cons a l ih =>
    intro h
    have ih2 := ih (fun b hb => h b (List.mem_cons_of_mem a hb))
    by_cases hq : q a = true
    · rw [List.filter_cons_of_pos hq, List.find?_cons, List.find?_cons, ih2]
    · have hp : p a = false := by
        cases hpa : p a
        · rfl
        · exact absurd (h a (List.mem_cons_self a l) hpa) hq
      rw [List.filter_cons_of_neg hq, List.find?_cons, hp, ih2]

theorem find?_eq_none_of_forall {α : Type} (p : α → Bool) (l : List α)
    (h : ∀ a ∈ l, p a = false) : l.find? p = none := by
  rw [List.find?_eq_none]
  intro a ha
  rw [h a ha]
  decide

theorem removed_collect (c : Collaborators) (storage : ScopeStorage) (D T : List String)
    (x : SourceId) :
    x ∈ (collect c storage D T).package.removedSourceIds ↔
      x ∈ (visit c storage D T).package.removedSourceIds ∨
      (x ∈ storedSourceIds storage ∧ x ∉ (visit c storage D T).sourceIdsData.watched ∧
        x ∉ (visit c storage D T).sourceIdsData.notUpdated) := by
  simp only [collect_eq, appendStaleSourceIds, List.mem_append, List.mem_filter,
    Bool.not_eq_true', Bool.or_eq_false_iff, List.contains_eq_any_beq, List.any_eq_false,
    beq_iff_eq]
  constructor
  · rintro (h | ⟨h1, h2, h3⟩)
    · exact Or.inl h
    · exact Or.inr ⟨h1, fun hw => h2 x hw rfl, fun hu => h3 x hu rfl⟩
  · rintro (h | ⟨h1, h2, h3⟩)
    · exact Or.inl h
    · refine Or.inr ⟨h1, ?_, ?_⟩
      · intro y hy heq
        rw [heq] at h2
        exact h2 hy
      · intro y hy heq
        rw [heq] at h3
        exact h3 hy

theorem not_removed_of_watched (c : Collaborators) (storage : ScopeStorage)
    (D T : List String) (x : SourceId)
    (hx : x ∈ (visit c storage D T).sourceIdsData.watched) :
    x ∉ (collect c storage D T).package.removedSourceIds := by
  have hinv := passInv_visit c storage D T
  rw [removed_collect]
  rintro (h | ⟨_, h, _⟩)
  · exact watched_exists hinv x hx (hinv.removed x h)
  · exact h hx

theorem watched_of_kept (c : Collaborators) (storage : ScopeStorage) (D T : List String)
    (x : SourceId) (hs : x ∈ storedSourceIds storage)
    (hk : x ∉ (collect c storage D T).package.removedSourceIds) :
    x ∈ (visit c storage D T).sourceIdsData.watched := by
  have hinv := passInv_visit c storage D T
  rw [removed_collect] at hk
  by_contra hnw
  refine hk (Or.inr ⟨hs, hnw, ?_⟩)
  intro hu
  exact hnw (hinv.notUpdated x hu)

theorem package_collect (c : Collaborators) (storage : ScopeStorage) (D T : List String) :
    (collect c storage D T).package.types = (visit c storage D T).package.types ∧
    (collect c storage D T).package.exportedTypes
      = (visit c storage D T).package.exportedTypes ∧
    (collect c storage D T).package.projectDatas
      = (visit c storage D T).package.projectDatas ∧
    (collect c storage D T).package.fileStatuses
      = (visit c storage D T).package.fileStatuses := ⟨rfl, rfl, rfl, rfl⟩

theorem mem_storedSourceIds (storage : ScopeStorage) (x : SourceId) :
    x ∈ storedSourceIds storage ↔
      (∃ r ∈ storage.fileStatuses, r.sourceId = x) ∨ (∃ r ∈ storage.types, r.sourceId = x) ∨
      (∃ r ∈ storage.exportedTypes, r.sourceId = x) ∨
      (∃ r ∈ storage.projectDatas, r.sourceId = x) := by
  unfold storedSourceIds
  simp only [List.mem_append, List.mem_map, or_assoc]

/-- After the commit, every source id that the storage holds was watched in the pass. -/
theorem stored_after_synchronize_watched (c : Collaborators) (storage : ScopeStorage)
    (D T : List String) (x : SourceId)
    (hx : x ∈ storedSourceIds (synchronize (collect c storage D T).package storage)) :
    x ∈ (visit c storage D T).sourceIdsData.watched := by
  have hinv := passInv_visit c storage D T
  obtain ⟨ht, he, hp, hf⟩ := package_collect c storage D T
  have hkeep : ∀ y, y ∈ storedSourceIds storage →
      (!(collect c storage D T).package.removedSourceIds.contains y) = true →
      y ∈ (visit c storage D T).sourceIdsData.watched := by
    intro y hy hk
    refine watched_of_kept c storage D T y hy ?_
    intro hmem
    have : (collect c storage D T).package.removedSourceIds.contains y = true := by
      simp [hmem]
    rw [this] at hk
    simp at hk
  rw [mem_storedSourceIds] at hx
  rcases hx with ⟨r, hr, rfl⟩ | ⟨r, hr, rfl⟩ | ⟨r, hr, rfl⟩ | ⟨r, hr, rfl⟩
  · simp only [synchronize] at hr
    rcases (mem_upsert _ _ _ r).mp hr with ⟨h1, _⟩ | h1
    · rw [List.mem_filter] at h1
      exact hkeep _ ((mem_storedSourceIds storage _).mpr (Or.inl ⟨r, h1.1, rfl⟩)) h1.2
    · rw [hf] at h1
      exact (hinv.fileStatuses r h1).2
  · simp only [synchronize] at hr
    rcases (mem_upsert _ _ _ r).mp hr with ⟨h1, _⟩ | h1
    · rw [List.mem_filter] at h1
      exact hkeep _ ((mem_storedSourceIds storage _).mpr (Or.inr (Or.inl ⟨r, h1.1, rfl⟩))) h1.2
    · rw [ht] at h1
      exact hinv.types r h1
  · simp only [synchronize] at hr
    rcases (mem_upsert _ _ _ r).mp hr with ⟨h1, _⟩ | h1
    · rw [List.mem_filter] at h1
      exact hkeep _
        ((mem_storedSourceIds storage _).mpr (Or.inr (Or.inr (Or.inl ⟨r, h1.1, rfl⟩)))) h1.2
    · rw [he] at h1
      exact hinv.exportedTypes r h1
  · simp only [synchronize] at hr
    rcases (mem_upsert _ _ _ r).mp hr with ⟨h1, _⟩ | h1
    · rw [List.mem_filter] at h1
      exact hkeep _
        ((mem_storedSourceIds storage _).mpr (Or.inr (Or.inr (Or.inr ⟨r, h1.1, rfl⟩)))) h1.2
    · rw [hp] at h1
      exact (hinv.projectDatas r h1).1

/-- After the commit, the stored file status of every watched source id is the current
one. -/
theorem current_after_synchronize (c : Collaborators) (storage : ScopeStorage)
    (D T : List String) (x : SourceId)
    (hx : x ∈ (visit c storage D T).sourceIdsData.watched) :
    ∃ cur, currentFileStatus c x = some cur ∧
      fetchFileStatus (synchronize (collect c storage D T).package storage) x = some cur := by
  have hinv := passInv_visit c storage D T
  obtain ⟨_, _, _, hf⟩ := package_collect c storage D T
  obtain ⟨cur, hcur, hwhere⟩ := hinv.current x hx
  have hnr := not_removed_of_watched c storage D T x hx
  refine ⟨cur, hcur, ?_⟩
  unfold fetchFileStatus
  simp only [synchronize, upsert, List.find?_append, hf]
  by_cases hkey : x ∈ (visit c storage D T).package.fileStatuses.map (fun r => r.sourceId)
  · -- a file status of `x` is in the package
    have hnone : (List.filter
        (fun r => !((visit c storage D T).package.fileStatuses.map
          (fun r => r.sourceId)).contains r.sourceId)
        (List.filter (fun r => !(collect c storage D T).package.removedSourceIds.contains
          r.sourceId) storage.fileStatuses)).find? (fun fs => fs.sourceId == x) = none := by
      apply find?_eq_none_of_forall
      intro a ha
      rw [List.mem_filter] at ha
      by_contra hne
      have hax : a.sourceId = x := by simpa using hne
      have h2 := ha.2
      rw [hax] at h2
      have : ((visit c storage D T).package.fileStatuses.map
          (fun r => r.sourceId)).contains x = true := by simp [List.mem_map.mp hkey]
      rw [this] at h2
      simp at h2
    rw [hnone, Option.none_or]
    obtain ⟨fs, hfs, hfsx⟩ := List.mem_map.mp hkey
    cases hfind : (visit c storage D T).package.fileStatuses.dedup.find?
        (fun fs => fs.sourceId == x) with
    | none =>
      rw [List.find?_eq_none] at hfind
      have := hfind fs (List.mem_dedup.mpr hfs)
      simp [hfsx] at this
    | some found =>
      have hmem := List.mem_dedup.mp (List.mem_of_find?_eq_some hfind)
      have hfx : found.sourceId = x := by simpa using List.find?_some hfind
      have h3 := (hinv.fileStatuses found hmem).1
      rw [hfx, hcur] at h3
      rw [Option.some.injEq] at h3
      rw [h3]
  · -- the stored file status stays
    have hst : fetchFileStatus storage x = some cur := by
      rcases hwhere with hmem | hst
      · exfalso
        apply hkey
        exact List.mem_map.mpr ⟨cur, hmem, currentFileStatus_sourceId c x cur hcur⟩
      · exact hst
    have h1 : (List.filter
        (fun r => !((visit c storage D T).package.fileStatuses.map
          (fun r => r.sourceId)).contains r.sourceId)
        (List.filter (fun r => !(collect c storage D T).package.removedSourceIds.contains
          r.sourceId) storage.fileStatuses)).find? (fun fs => fs.sourceId == x)
        = storage.fileStatuses.find? (fun fs => fs.sourceId == x) := by
      rw [find?_filter_of_imp, find?_filter_of_imp]
      · intro a _ hpa
        have hax : a.sourceId = x := by simpa using hpa
        rw [hax]
        simp [hnr]
      · intro a _ hpa
        have hax : a.sourceId = x := by simpa using hpa
        rw [hax]
        have hk2 : ¬ ∃ r ∈ (visit c storage D T).package.fileStatuses, r.sourceId = x :=
          fun h => hkey (List.mem_map.mpr h)
        simpa using hk2
    rw [h1]
    unfold fetchFileStatus at hst
    rw [hst]
    rfl

theorem fetch_none_after_synchronize (c : Collaborators) (storage : ScopeStorage)
    (D T : List String) (x : SourceId) (hgone : c.fileStatus x = none) :
    fetchFileStatus (synchronize (collect c storage D T).package storage) x = none := by
  have hinv := passInv_visit c storage D T
  cases hfetch : fetchFileStatus (synchronize (collect c storage D T).package storage) x with
  | none => rfl
  | some fs =>
    exfalso
    have hid := fetchFileStatus_sourceId _ x fs hfetch
    unfold fetchFileStatus at hfetch
    have hmem := List.mem_of_find?_eq_some hfetch
    have hstored : x ∈ storedSourceIds (synchronize (collect c storage D T).package storage) :=
      (mem_storedSourceIds _ x).mpr (Or.inl ⟨fs, hmem, hid⟩)
    exact watched_exists hinv x (stored_after_synchronize_watched c storage D T x hstored) hgone

/-- After the commit, a source id is settled if it was watched in the pass or its path
does not exist. -/
theorem settled_after_synchronize (c : Collaborators) (storage : ScopeStorage)
    (D T : List String) (x : SourceId)
    (hx : x ∈ (visit c storage D T).sourceIdsData.watched ∨ c.fileStatus x = none) :
    Settled c (synchronize (collect c storage D T).package storage) x := by
  rcases hx with hx | hx
  · exact Or.inr (current_after_synchronize c storage D T x hx)
  · exact Or.inl ⟨hx, fetch_none_after_synchronize c storage D T x hx⟩

end QmlDesigner

/-! #### A pass over a settled storage -/

namespace QmlDesigner

theorem Pass.Same.sameRefl (p : Pass) : Pass.Same p p := ⟨rfl, rfl, rfl⟩

theorem Pass.Same.followedBy {p q r : Pass} (h1 : Pass.Same p q) (h2 : Pass.Same q r) :
    Pass.Same p r :=
  ⟨h2.package.trans h1.package, h2.qmlDocumentParserCalls.trans h1.qmlDocumentParserCalls,
    h2.qmlTypesParserCalls.trans h1.qmlTypesParserCalls⟩

theorem foldl_same {α : Type} (f : Pass → α → Pass) (l : List α) (pass : Pass)
    (hf : ∀ p a, a ∈ l → Pass.Same p (f p a)) : Pass.Same pass (l.foldl f pass) :=
  foldl_preserves (fun p => Pass.Same pass p) f l pass
    (fun p a ha hp => hp.followedBy (hf p a ha)) (Pass.Same.sameRefl pass)

theorem same_watch (pass : Pass) (kind : WatchedKind) (x : SourceId) :
    Pass.Same pass (pass.watch kind x) := by
  cases kind <;> exact ⟨rfl, rfl, rfl⟩

theorem settled_fileStateOf (c : Collaborators) (storage : ScopeStorage) (x : SourceId)
    (h : Settled c storage x) :
    (c.fileStatus x = none → fileStateOf c storage x = FileState.NotExists) ∧
    (c.fileStatus x ≠ none → fileStateOf c storage x = FileState.NotChanged) := by
  rw [fileStateOf_eq]
  rcases h with ⟨hn, _⟩ | ⟨cur, hcur, hst⟩
  · rw [(currentFileStatus_eq_none c x).mpr hn]
    exact ⟨fun _ => rfl, fun h => absurd hn h⟩
  · rw [hcur]
    simp only [hst, if_true]
    refine ⟨fun hn => ?_, fun _ => trivial⟩
    rw [(currentFileStatus_eq_none c x).mpr hn] at hcur
    simp at hcur

theorem settled_fileStateOf_ne_changed (c : Collaborators) (storage : ScopeStorage)
    (x : SourceId) (h : Settled c storage x) :
    fileStateOf c storage x ≠ FileState.Changed := by
  by_cases hx : c.fileStatus x = none
  · rw [(settled_fileStateOf c storage x h).1 hx]; decide
  · rw [(settled_fileStateOf c storage x h).2 hx]; decide

theorem same_fileStateAndWatch (c : Collaborators) (storage : ScopeStorage)
    (kind : WatchedKind) (x : SourceId) (pass : Pass) (h : Settled c storage x) :
    Pass.Same pass (fileStateAndWatch c storage kind x pass).2 := by
  rw [fileStateAndWatch_snd]
  rcases h with ⟨hn, hst⟩ | ⟨cur, hcur, hst⟩
  · rw [(currentFileStatus_eq_none c x).mpr hn]
    simp only [hst, Option.isSome_none, Bool.false_eq_true, if_false]
    exact Pass.Same.sameRefl pass
  · rw [hcur]
    simp only [hst, if_true]
    exact (⟨rfl, rfl, rfl⟩ : Pass.Same pass (pass.addNotUpdatedFileStatus x)).followedBy
      (same_watch _ kind x)

theorem same_parseTypeInfo (c : Collaborators) (storage : ScopeStorage) (pd : ProjectData)
    (pass : Pass) (h : Settled c storage pd.sourceId) :
    Pass.Same pass (parseTypeInfo c storage pd pass).2 := by
  have h1 := same_fileStateAndWatch c storage WatchedKind.Qmltypes pd.sourceId pass h
  have hfst := fileStateAndWatch_fst c storage WatchedKind.Qmltypes pd.sourceId pass
  unfold parseTypeInfo
  simp only []
  split
  · rename_i heq
    rw [hfst] at heq
    exact absurd heq (settled_fileStateOf_ne_changed c storage _ h)
  · exact h1.followedBy ⟨rfl, rfl, rfl⟩
  · exact h1

theorem same_updateQmlTypes (c : Collaborators) (storage : ScopeStorage)
    (paths : List String) (pass : Pass)
    (h : ∀ t ∈ paths, Settled c storage (c.sourceId t)) :
    Pass.Same pass (updateQmlTypes c storage paths pass) := by
  unfold updateQmlTypes
  exact foldl_same _ paths pass (fun p t ht => same_parseTypeInfo c storage _ p (h t ht))

theorem same_parseStoredQmlComponent (c : Collaborators) (storage : ScopeStorage)
    (x : SourceId) (pass : Pass) (h : Settled c storage x) :
    Pass.Same pass (parseStoredQmlComponent c storage x pass) := by
  have h1 := same_fileStateAndWatch c storage WatchedKind.Qml x pass h
  have hfst := fileStateAndWatch_fst c storage WatchedKind.Qml x pass
  unfold parseStoredQmlComponent
  simp only []
  split
  · exact h1
  · rename_i heq
    rw [hfst] at heq
    exact absurd heq (settled_fileStateOf_ne_changed c storage _ h)
  · exact h1.followedBy ⟨rfl, rfl, rfl⟩

theorem same_parseProjectDatas (c : Collaborators) (storage : ScopeStorage)
    (records : List ProjectData) (pass : Pass)
    (h : ∀ r ∈ records, Settled c storage r.sourceId) :
    Pass.Same pass (parseProjectDatas c storage records pass) := by
  unfold parseProjectDatas
  refine foldl_same _ records pass ?_
  intro p r hr
  unfold parseProjectData
  split
  · exact same_parseTypeInfo c storage r p (h r hr)
  · exact same_parseStoredQmlComponent c storage r.sourceId p (h r hr)

theorem same_updateDirectory (c : Collaborators) (storage : ScopeStorage) (pass : Pass)
    (d : String) (hdir : Settled c storage (c.sourceId d))
    (hqmldir : c.fileStatus (c.sourceId d) ≠ none →
      Settled c storage (c.sourceId (d ++ "/qmldir")))
    (hrecords : ∀ r ∈ storage.projectDatas, Settled c storage r.sourceId) :
    Pass.Same pass (updateDirectory c storage pass d) := by
  have h1 := same_fileStateAndWatch c storage WatchedKind.Directory (c.sourceId d) pass hdir
  rw [updateDirectory_eq]
  split
  · exact h1
  · rename_i hdirState
    have hq := hqmldir (exists_of_fileStateOf_ne c storage _ hdirState)
    have h2 := same_fileStateAndWatch c storage WatchedKind.Qmldir
      (c.sourceId (d ++ "/qmldir"))
      (fileStateAndWatch c storage WatchedKind.Directory (c.sourceId d) pass).2 hq
    split
    · exact h1.followedBy h2
    · rename_i heq
      exact absurd heq (settled_fileStateOf_ne_changed c storage _ hq)
    · have h3 : Pass.Same
          (fileStateAndWatch c storage WatchedKind.Qmldir (c.sourceId (d ++ "/qmldir"))
            (fileStateAndWatch c storage WatchedKind.Directory (c.sourceId d) pass).2).2
          ((fileStateAndWatch c storage WatchedKind.Qmldir (c.sourceId (d ++ "/qmldir"))
            (fileStateAndWatch c storage WatchedKind.Directory (c.sourceId d)
              pass).2).2.addNotUpdated (c.sourceId (d ++ "/qmldir"))) := ⟨rfl, rfl, rfl⟩
      refine (h1.followedBy h2).followedBy (h3.followedBy (same_parseProjectDatas c storage _ _ ?_))
      intro r hr
      exact hrecords r ((mem_fetchProjectDatas storage _ r).mp hr).1

theorem same_updateDirectories (c : Collaborators) (storage : ScopeStorage)
    (directories : List String) (pass : Pass)
    (hdir : ∀ d ∈ directories, Settled c storage (c.sourceId d))
    (hqmldir : ∀ d ∈ directories, c.fileStatus (c.sourceId d) ≠ none →
      Settled c storage (c.sourceId (d ++ "/qmldir")))
    (hrecords : ∀ r ∈ storage.projectDatas, Settled c storage r.sourceId) :
    Pass.Same pass (updateDirectories c storage directories pass) := by
  unfold updateDirectories
  exact foldl_same _ directories pass
    (fun p d hd => same_updateDirectory c storage p d (hdir d hd) (hqmldir d hd) hrecords)

/-! #### The second of two passes -/

theorem input_watched (c : Collaborators) (storage : ScopeStorage) (D T : List String) :
    (∀ t ∈ T, c.fileStatus (c.sourceId t) ≠ none →
      c.sourceId t ∈ (visit c storage D T).sourceIdsData.watched) ∧
    (∀ d ∈ D, c.fileStatus (c.sourceId d) ≠ none →
      c.sourceId d ∈ (visit c storage D T).sourceIdsData.watched) ∧
    (∀ d ∈ D, c.fileStatus (c.sourceId d) ≠ none →
      c.fileStatus (c.sourceId (d ++ "/qmldir")) ≠ none →
      c.sourceId (d ++ "/qmldir") ∈ (visit c storage D T).sourceIdsData.watched) := by
  unfold visit
  refine ⟨?_, ?_, ?_⟩
  · intro t ht hex
    exact (grows_updateDirectories c storage D _).watched _
      (updateQmlTypes_watched c storage T Pass.start t ht hex)
  · intro d hd hex
    exact (updateDirectories_establishes c storage D _ d hd hex).1
  · intro d hd hex hq
    exact (updateDirectories_establishes c storage D _ d hd hex).2.1 hq

theorem settled_of_exists_imp (c : Collaborators) (storage : ScopeStorage)
    (D T : List String) (x : SourceId)
    (h : c.fileStatus x ≠ none → x ∈ (visit c storage D T).sourceIdsData.watched) :
    Settled c (synchronize (collect c storage D T).package storage) x := by
  by_cases hx : c.fileStatus x = none
  · exact settled_after_synchronize c storage D T x (Or.inr hx)
  · exact settled_after_synchronize c storage D T x (Or.inl (h hx))

/-- The pass over the storage that a first pass left behind changes nothing in the package
and calls no parser. -/
theorem same_visit_after_synchronize (c : Collaborators) (storage : ScopeStorage)
    (D T : List String) :
    Pass.Same Pass.start
      (visit c (synchronize (collect c storage D T).package storage) D T) := by
  obtain ⟨ht, hd, hq⟩ := input_watched c storage D T
  unfold visit
  refine (same_updateQmlTypes c _ T Pass.start ?_).followedBy
    (same_updateDirectories c _ D _ ?_ ?_ ?_)
  · intro t hmem
    exact settled_of_exists_imp c storage D T _ (ht t hmem)
  · intro d hmem
    exact settled_of_exists_imp c storage D T _ (hd d hmem)
  · intro d hmem hex
    exact settled_of_exists_imp c storage D T _ (hq d hmem hex)
  · intro r hr
    refine settled_after_synchronize c storage D T _ (Or.inl ?_)
    exact stored_after_synchronize_watched c storage D T _
      ((mem_storedSourceIds _ _).mpr (Or.inr (Or.inr (Or.inr ⟨r, hr, rfl⟩))))

theorem projectData_after_synchronize (c : Collaborators) (storage : ScopeStorage)
    (D T : List String) (r : ProjectData) :
    (r ∈ (visit c storage D T).package.projectDatas →
      r ∈ (synchronize (collect c storage D T).package storage).projectDatas) ∧
    (r ∈ storage.projectDatas → r.sourceId ∈ (visit c storage D T).sourceIdsData.watched →
      (∀ r2 ∈ (visit c storage D T).package.projectDatas,
        r2.projectSourceId ≠ r.projectSourceId) →
      r ∈ (synchronize (collect c storage D T).package storage).projectDatas) := by
  obtain ⟨_, _, hp, _⟩ := package_collect c storage D T
  simp only [synchronize, hp]
  constructor
  · intro h
    exact (mem_upsert _ _ _ r).mpr (Or.inr h)
  · intro h hw hkey
    refine (mem_upsert _ _ _ r).mpr (Or.inl ⟨?_, ?_⟩)
    · rw [List.mem_filter]
      refine ⟨h, ?_⟩
      have hnr := not_removed_of_watched c storage D T r.sourceId hw
      simp [hnr]
    · intro hmem
      obtain ⟨r2, hr2, heq⟩ := List.mem_map.mp hmem
      exact hkey r2 hr2 heq

/-- Every source id that the storage holds after a first pass is watched again by a second
pass over the same directories and type-info paths, provided the path interner gives
distinct directories distinct ids. -/
theorem stored_watched_again (c : Collaborators) (storage : ScopeStorage) (D T : List String)
    (hinj : ∀ d ∈ D, ∀ d2 ∈ D, c.sourceId d = c.sourceId d2 → d = d2) (x : SourceId)
    (hx : x ∈ storedSourceIds (synchronize (collect c storage D T).package storage)) :
    x ∈ (visit c (synchronize (collect c storage D T).package storage) D
      T).sourceIdsData.watched := by
  have hinv := passInv_visit c storage D T
  have hw := stored_after_synchronize_watched c storage D T x hx
  have hex := watched_exists hinv x hw
  obtain ⟨ht2, hd2, hq2⟩ := input_watched c
    (synchronize (collect c storage D T).package storage) D T
  -- the descriptor of a directory that exists is unchanged for the second pass
  have hunchanged : ∀ d ∈ D, c.fileStatus (c.sourceId d) ≠ none →
      c.fileStatus (c.sourceId (d ++ "/qmldir")) ≠ none →
      fileStateOf c (synchronize (collect c storage D T).package storage)
        (c.sourceId (d ++ "/qmldir")) = FileState.NotChanged := by
    intro d hd hdir hq
    refine (settled_fileStateOf c _ _ ?_).2 hq
    exact settled_of_exists_imp c storage D T _
      (fun h => (input_watched c storage D T).2.2 d hd hdir h)
  have hrecord : ∀ d ∈ D, c.fileStatus (c.sourceId d) ≠ none →
      c.fileStatus (c.sourceId (d ++ "/qmldir")) ≠ none →
      ∀ r ∈ (synchronize (collect c storage D T).package storage).projectDatas,
        r.projectSourceId = c.sourceId d → r.sourceId = x →
        x ∈ (visit c (synchronize (collect c storage D T).package storage) D
          T).sourceIdsData.watched := by
    intro d hd hdir hq r hr hkey hrx
    have h4 := (updateDirectories_establishes c
      (synchronize (collect c storage D T).package storage) D
      (updateQmlTypes c (synchronize (collect c storage D T).package storage) T Pass.start)
      d hd hdir).2.2.2 (hunchanged d hd hdir hq) r hr hkey (by rw [hrx]; exact hex)
    rw [hrx] at h4
    exact h4
  rcases hinv.reason x hw with ⟨t, ht, rfl⟩ | ⟨d, hd, rfl⟩ | ⟨d, hd, hdir, rfl⟩ |
    ⟨d, hd, hdir, hq, hdecl⟩ | ⟨d, hd, hdir, hq, r, hr, hkey, hrx⟩
  · exact ht2 t ht hex
  · exact hd2 d hd hex
  · exact hq2 d hd hdir hex
  · -- declared by a descriptor that the first pass parsed
    have hqex : c.fileStatus (c.sourceId (d ++ "/qmldir")) ≠ none :=
      exists_of_fileStateOf_ne c storage _ (by rw [hq]; decide)
    obtain ⟨_, r, hr, hkey, hrx⟩ := (updateDirectories_establishes c storage D
      (updateQmlTypes c storage T Pass.start) d hd hdir).2.2.1 hq x hdecl hex
    exact hrecord d hd hdir hqex r
      ((projectData_after_synchronize c storage D T r).1 hr) hkey hrx
  · -- a stored record of a directory whose descriptor was unchanged
    have hqex : c.fileStatus (c.sourceId (d ++ "/qmldir")) ≠ none :=
      exists_of_fileStateOf_ne c storage _ (by rw [hq]; decide)
    refine hrecord d hd hdir hqex r
      ((projectData_after_synchronize c storage D T r).2 hr (by rw [hrx]; exact hw) ?_)
      hkey hrx
    intro r2 hr2 heq
    obtain ⟨_, d2, hd2mem, hkey2, hq2st⟩ := hinv.projectDatas r2 hr2
    have hdd : d = d2 := hinj d hd d2 hd2mem (by rw [← hkey, ← heq, hkey2])
    rw [← hdd, hq] at hq2st
    exact absurd hq2st (by decide)

end QmlDesigner

/-! #### Calling update twice -/

namespace QmlDesigner

theorem synchronize_empty (storage : ScopeStorage) :
    synchronize SynchronizationPackage.empty storage = storage := by
  cases storage with
  | mk types exportedTypes projectDatas fileStatuses =>
    simp [synchronize, upsert, SynchronizationPackage.empty]

theorem collect_after_synchronize (c : Collaborators) (storage : ScopeStorage)
    (D T : List String)
    (hinj : ∀ d ∈ D, ∀ d2 ∈ D, c.sourceId d = c.sourceId d2 → d = d2) :
    (collect c (synchronize (collect c storage D T).package storage) D T).package
      = SynchronizationPackage.empty ∧
    (collect c (synchronize (collect c storage D T).package storage) D
      T).qmlDocumentParserCalls = [] ∧
    (collect c (synchronize (collect c storage D T).package storage) D
      T).qmlTypesParserCalls = [] := by
  have hsame := same_visit_after_synchronize c storage D T
  have hstale : (storedSourceIds (synchronize (collect c storage D T).package storage)).filter
      (fun sourceId =>
        !((visit c (synchronize (collect c storage D T).package storage) D
            T).sourceIdsData.watched.contains sourceId
          || (visit c (synchronize (collect c storage D T).package storage) D
            T).sourceIdsData.notUpdated.contains sourceId)) = [] := by
    rw [List.filter_eq_nil_iff]
    intro x hx
    have hw := stored_watched_again c storage D T hinj x hx
    simp [hw]
  refine ⟨?_, ?_, ?_⟩
  · rw [collect_eq c (synchronize (collect c storage D T).package storage) D T]
    unfold appendStaleSourceIds
    simp only []
    rw [hstale, hsame.package]
    rfl
  · rw [collect_eq c (synchronize (collect c storage D T).package storage) D T]
    exact hsame.qmlDocumentParserCalls
  · rw [collect_eq c (synchronize (collect c storage D T).package storage) D T]
    exact hsame.qmlTypesParserCalls

/-- C2: when `update(D, T, P)` is called twice in succession against the same disk, with
a path interner that gives distinct directories of `D` distinct ids, the second call
commits an empty package, so the storage after it is the storage after the first call,
and the second call hands no file to the QML document parser and none to the qmltypes
parser. -/
theorem update_twice_changes_nothing (c : Collaborators) (storage : ProjectStorage)
    (watcher : PathWatcher) (directories qmlTypesPaths : List String)
    (projectPartId : ProjectPartId)
    (hinj : ∀ d ∈ directories, ∀ d2 ∈ directories, c.sourceId d = c.sourceId d2 → d = d2) :
    (update c
        (update c storage watcher directories qmlTypesPaths projectPartId).storage
        (update c storage watcher directories qmlTypesPaths projectPartId).watcher
        directories qmlTypesPaths projectPartId).storage
      = (update c storage watcher directories qmlTypesPaths projectPartId).storage ∧
    (update c
        (update c storage watcher directories qmlTypesPaths projectPartId).storage
        (update c storage watcher directories qmlTypesPaths projectPartId).watcher
        directories qmlTypesPaths projectPartId).qmlDocumentParserCalls = [] ∧
    (update c
        (update c storage watcher directories qmlTypesPaths projectPartId).storage
        (update c storage watcher directories qmlTypesPaths projectPartId).watcher
        directories qmlTypesPaths projectPartId).qmlTypesParserCalls = [] ∧
    (update c
        (update c storage watcher directories qmlTypesPaths projectPartId).storage
        (update c storage watcher directories qmlTypesPaths projectPartId).watcher
        directories qmlTypesPaths projectPartId).package = SynchronizationPackage.empty := by
  obtain ⟨hp, hd, ht⟩ := collect_after_synchronize c (storage projectPartId) directories
    qmlTypesPaths hinj
  simp only [update, Function.update_same]
  refine ⟨?_, hd, ht, hp⟩
  rw [hp, synchronize_empty, Function.update_idem]

/-- Witness for C2: two updates of the sample project from the sample storage. -/
theorem update_twice_changes_nothing_witness :
    (∀ d ∈ ["/D"], ∀ d2 ∈ ["/D"],
      sampleCollaborators.sourceId d = sampleCollaborators.sourceId d2 → d = d2) ∧
    (update sampleCollaborators
        (update sampleCollaborators (fun _ => sampleStorage) (fun _ => ⟨[], [], [], []⟩)
          ["/D"] ["/x.qmltypes"] 0).storage
        (update sampleCollaborators (fun _ => sampleStorage) (fun _ => ⟨[], [], [], []⟩)
          ["/D"] ["/x.qmltypes"] 0).watcher
        ["/D"] ["/x.qmltypes"] 0).qmlDocumentParserCalls = [] :=
  ⟨fun d hd d2 hd2 _ => by
      rw [List.mem_singleton] at hd hd2
      rw [hd, hd2],
   (update_twice_changes_nothing sampleCollaborators (fun _ => sampleStorage)
      (fun _ => ⟨[], [], [], []⟩) ["/D"] ["/x.qmltypes"] 0
      (fun d hd d2 hd2 _ => by
        rw [List.mem_singleton] at hd hd2
        rw [hd, hd2])).2.1⟩

end QmlDesigner

/-! ### DependenciesModel -/

namespace Utils

theorem sort_perm {α : Type} (p : α → α → Bool) (l : List α) : (sort p l).Perm l := by
  unfold sort
  exact List.perm_insertionSort _ l

theorem sort_sorted_of_key {α β : Type} [LinearOrder β] (key : α → β) (p : α → α → Bool)
    (hp : ∀ a b, p a b = true ↔ key a < key b) (l : List α) :
    List.Sorted (fun a b => key a ≤ key b) (sort p l) := by
  unfold sort
  have hle : ∀ a b, p b a = false ↔ key a ≤ key b := by
    intro a b
    rw [← not_lt, ← hp b a]
    simp
  have htotal : IsTotal α (fun a b => p b a = false) :=
    ⟨fun a b => by
      simp only [hle]
      exact le_total (key a) (key b)⟩
  have htrans : IsTrans α (fun a b => p b a = false) :=
    ⟨fun a b c hab hbc => by
      simp only [hle] at hab hbc ⊢
      exact le_trans hab hbc⟩
  have h := List.sorted_insertionSort (fun a b => p b a = false) l
  refine List.Pairwise.imp ?_ h
  intro a b hab
  exact (hle a b).mp hab

end Utils

namespace ProjectExplorer

/-- C7: after `resetModel` (also as run by the constructor and by each of the three
connected notifications) the model's project list is a rearrangement of the session's
project list with every occurrence of the model's own project filtered out, its display
names are non-decreasing along the list, and the model's own project is not in it. -/
theorem resetModel_lists_other_projects_sorted (env : Env) (projects : List Project)
    (m : DependenciesModel) (n : DependenciesModel.Notification) (project : Project) :
    ((DependenciesModel.resetModel env projects m).m_projects.Perm
        (projects.filter (fun q => decide (q ≠ m.m_project))) ∧
      List.Sorted (fun a b => env.displayName a ≤ env.displayName b)
        (DependenciesModel.resetModel env projects m).m_projects ∧
      m.m_project ∉ (DependenciesModel.resetModel env projects m).m_projects ∧
      (DependenciesModel.resetModel env projects m).m_project = m.m_project) ∧
    DependenciesModel.notify env projects n m = DependenciesModel.resetModel env projects m ∧
    DependenciesModel.create env projects project =
      DependenciesModel.resetModel env projects ⟨project, []⟩ ∧
    (DependenciesModel.create env projects project).m_project = project ∧
    project ∉ (DependenciesModel.create env projects project).m_projects := by
  have hperm : ∀ m : DependenciesModel,
      (DependenciesModel.resetModel env projects m).m_projects.Perm
        (projects.filter (fun q => decide (q ≠ m.m_project))) := by
    intro m
    have h := Utils.sort_perm (fun a b => decide (env.displayName a < env.displayName b))
      (removeAll projects m.m_project)
    have h2 : removeAll projects m.m_project
        = projects.filter (fun q => decide (q ≠ m.m_project)) := by
      unfold removeAll
      congr 1
      funext q
      by_cases hq : q = m.m_project <;> simp [hq]
    have h3 : (DependenciesModel.resetModel env projects m).m_projects
        = Utils.sort (fun a b => decide (env.displayName a < env.displayName b))
            (removeAll projects m.m_project) := rfl
    rw [h3, ← h2]
    exact h
  have hnot : ∀ m : DependenciesModel,
      m.m_project ∉ (DependenciesModel.resetModel env projects m).m_projects := by
    intro m hmem
    have h := (hperm m).mem_iff.mp hmem
    simp at h
  refine ⟨⟨hperm m, ?_, hnot m, rfl⟩, ?_, rfl, rfl, ?_⟩
  · have h3 : (DependenciesModel.resetModel env projects m).m_projects
        = Utils.sort (fun a b => decide (env.displayName a < env.displayName b))
            (removeAll projects m.m_project) := rfl
    rw [h3]
    exact Utils.sort_sorted_of_key env.displayName _ (fun a b => by simp) _
  · cases n <;> rfl
  · exact hnot ⟨project, []⟩

/-- C8: with no other project in the session (`m_projects` empty) the model has exactly
one top-level row; that row's `data` is the (translated) text
"<No other projects in this session>" for `DisplayRole` and an invalid `QVariant` for every
other role, and its `flags` are `NoItemFlags`, so neither the checkable nor the editable
bit is set.  In general `rowCount` of an invalid index is 1 for an empty list and the number
of other projects otherwise, and `rowCount` of a valid index is 0. -/
theorem placeholder_row_when_no_other_projects {PM : Type} (env : Env)
    (api : ProjectManagerApi PM) (pm : PM) (m : DependenciesModel) (index : QModelIndex)
    (hempty : m.m_projects = []) :
    DependenciesModel.rowCount m QModelIndex.invalid = 1 ∧
    (∀ m2 : DependenciesModel, ∀ i : QModelIndex,
      (i.isValid = true → DependenciesModel.rowCount m2 i = 0) ∧
      (i.isValid = false → m2.m_projects ≠ [] →
        DependenciesModel.rowCount m2 i = m2.m_projects.length) ∧
      (i.isValid = false → m2.m_projects = [] → DependenciesModel.rowCount m2 i = 1)) ∧
    DependenciesModel.data env api pm m index DisplayRole
      = some (QVariant.string (env.tr "<No other projects in this session>")) ∧
    (∀ role : Int, role ≠ DisplayRole →
      DependenciesModel.data env api pm m index role = some QVariant.invalid) ∧
    DependenciesModel.flags env m index = NoItemFlags ∧
    DependenciesModel.flags env m index &&& ItemIsUserCheckable = 0 ∧
    DependenciesModel.flags env m index &&& ItemIsEditable = 0 := by
  have hfl : DependenciesModel.flags env m index = NoItemFlags := by
    simp [DependenciesModel.flags, hempty]
  refine ⟨?_, ?_, ?_, ?_, hfl, ?_, ?_⟩
  · simp [DependenciesModel.rowCount, hempty, QModelIndex.invalid, QModelIndex.isValid]
  · intro m2 i
    refine ⟨?_, ?_, ?_⟩
    · intro hv
      simp [DependenciesModel.rowCount, hv]
    · intro hv hne
      simp [DependenciesModel.rowCount, hv, hne]
    · intro hv he
      simp [DependenciesModel.rowCount, hv, he]
  · simp [DependenciesModel.data, hempty]
  · intro role hrole
    simp [DependenciesModel.data, hempty, hrole]
  · rw [hfl]; simp [NoItemFlags]
  · rw [hfl]; simp [NoItemFlags]

/-- Witness for C8: the model of project 1 in a session that holds only project 1. -/
theorem placeholder_row_when_no_other_projects_witness :
    (DependenciesModel.create ⟨fun _ => "p", fun _ => "/p", id, id, fun _ => 33⟩ [1] 1).m_projects
      = [] ∧
    DependenciesModel.flags ⟨fun _ => "p", fun _ => "/p", id, id, fun _ => 33⟩
      (DependenciesModel.create ⟨fun _ => "p", fun _ => "/p", id, id, fun _ => 33⟩ [1] 1)
      ⟨0, 0, true⟩ = NoItemFlags :=
  ⟨by decide,
   (@placeholder_row_when_no_other_projects Unit
      ⟨fun _ => "p", fun _ => "/p", id, id, fun _ => 33⟩
      ⟨fun _ _ _ => (true, ()), fun _ _ _ => false, fun _ _ _ => ()⟩ ()
      (DependenciesModel.create ⟨fun _ => "p", fun _ => "/p", id, id, fun _ => 33⟩ [1] 1)
      ⟨0, 0, true⟩ (by decide)).2.2.2.2.1⟩

/-- C9: for an index whose row `m_projects.at` can read, `setData` returns, and it returns
true exactly when the role is `CheckStateRole` and either the value is `Checked` and
`addDependency` accepted the dependency, or the value is `Unchecked` and the dependency
existed.  When it returns true it emits `dataChanged(index, index)` once and no other
`dataChanged`, and in the `Unchecked` case the dependency is removed.  When it returns
false it emits no `dataChanged` and calls no `removeDependency`, and unless it had asked
`addDependency` the project manager's state is the one it started from. -/
theorem setData_true_in_exactly_two_cases {PM : Type} (env : Env)
    (api : ProjectManagerApi PM) (pm : PM) (m : DependenciesModel) (index : QModelIndex)
    (value role : Int)
    (hrow : role = CheckStateRole → ∃ p, QList.at m.m_projects index.row = some p) :
    ∃ r, DependenciesModel.setData env api pm m index value role = some r ∧
      (r.ret = true ↔
        (role = CheckStateRole ∧ ∃ p, QList.at m.m_projects index.row = some p ∧
          ((value = Checked ∧ (api.addDependency pm m.m_project p).1 = true) ∨
           (value = Unchecked ∧ api.hasDependency pm m.m_project p = true)))) ∧
      (r.ret = true →
        r.effects.count (Effect.dataChanged index index) = 1 ∧
        (∀ a b, Effect.dataChanged a b ∈ r.effects → a = index ∧ b = index) ∧
        (value = Unchecked → ∃ p, QList.at m.m_projects index.row = some p ∧
          Effect.removeDependency m.m_project p ∈ r.effects ∧
          r.pm = api.removeDependency pm m.m_project p)) ∧
      (r.ret = false →
        (∀ a b, Effect.dataChanged a b ∉ r.effects) ∧
        (∀ a b, Effect.removeDependency a b ∉ r.effects) ∧
        (¬ (role = CheckStateRole ∧ value = Checked) → r.pm = pm)) := by
  by_cases hr : role = CheckStateRole
  · obtain ⟨p, hp⟩ := hrow hr
    by_cases hc : value = Checked
    · cases hadd : (api.addDependency pm m.m_project p).1
      · refine ⟨⟨false, [Effect.addDependency m.m_project p false,
            Effect.warning (env.tr "Unable to Add Dependency")
              (env.tr "This would create a circular dependency.")],
            (api.addDependency pm m.m_project p).2⟩, ?_, ?_, ?_, ?_⟩
        · simp [DependenciesModel.setData, hr, hp, hc, hadd]
        · simp [hr, hp, hc, hadd, Checked, Unchecked]
        · simp
        · simp [hr, hc]
      · refine ⟨⟨true, [Effect.addDependency m.m_project p true,
            Effect.dataChanged index index], (api.addDependency pm m.m_project p).2⟩,
            ?_, ?_, ?_, ?_⟩
        · simp [DependenciesModel.setData, hr, hp, hc, hadd]
        · simp [hr, hp, hc, hadd]
        · refine fun _ => ⟨by simp [List.count_cons], ?_, ?_⟩
          · intro a b hab
            simp at hab
            exact ⟨hab.1, hab.2⟩
          · intro hu
            rw [hc] at hu
            exact absurd hu (by decide)
        · simp
    · by_cases hu : value = Unchecked
      · cases hhas : api.hasDependency pm m.m_project p
        · refine ⟨⟨false, [], pm⟩, ?_, ?_, ?_, ?_⟩
          · simp [DependenciesModel.setData, hr, hp, hc, hu, hhas, Checked, Unchecked]
          · simp [hr, hp, hc, hu, hhas, Checked, Unchecked]
          · simp
          · simp
        · refine ⟨⟨true, [Effect.removeDependency m.m_project p,
              Effect.dataChanged index index], api.removeDependency pm m.m_project p⟩,
              ?_, ?_, ?_, ?_⟩
          · simp [DependenciesModel.setData, hr, hp, hc, hu, hhas, Checked, Unchecked]
          · simp [hr, hp, hc, hu, hhas, Checked, Unchecked]
          · refine fun _ => ⟨by simp [List.count_cons], ?_, ?_⟩
            · intro a b hab
              simp at hab
              exact ⟨hab.1, hab.2⟩
            · intro _
              exact ⟨p, hp, by simp, rfl⟩
          · simp
      · refine ⟨⟨false, [], pm⟩, ?_, ?_, ?_, ?_⟩
        · simp [DependenciesModel.setData, hr, hp, hc, hu]
        · simp [hr, hp, hc, hu]
        · simp
        · simp
  · refine ⟨⟨false, [], pm⟩, ?_, ?_, ?_, ?_⟩
    · simp [DependenciesModel.setData, hr]
    · simp [hr]
    · simp
    · simp

/-- Witness for C9: unchecking the only other project, which is a dependency; the project
manager's state is the list of dependency pairs. -/
theorem setData_true_in_exactly_two_cases_witness :
    (CheckStateRole = CheckStateRole → ∃ p, QList.at [7] (0 : Int) = some p) ∧
    ∃ r, @DependenciesModel.setData (List (Project × Project))
        ⟨fun _ => "p", fun _ => "/p", id, id, fun _ => 33⟩
        ⟨fun s a b => (true, (a, b) :: s), fun s a b => s.contains (a, b),
         fun s a b => s.filter (fun d => d != (a, b))⟩
        [(1, 7)] ⟨1, [7]⟩ ⟨0, 0, true⟩ Unchecked CheckStateRole = some r ∧
      r.ret = true :=
  ⟨fun _ => ⟨7, by decide⟩,
   (@setData_true_in_exactly_two_cases (List (Project × Project))
        ⟨fun _ => "p", fun _ => "/p", id, id, fun _ => 33⟩
        ⟨fun s a b => (true, (a, b) :: s), fun s a b => s.contains (a, b),
         fun s a b => s.filter (fun d => d != (a, b))⟩
        [(1, 7)] ⟨1, [7]⟩ ⟨0, 0, true⟩ Unchecked CheckStateRole
        (fun _ => ⟨7, by decide⟩)).elim
     (fun r h => ⟨r, h.1, h.2.1.mpr ⟨rfl, 7, by decide, Or.inr ⟨rfl, by decide⟩⟩⟩)⟩

end ProjectExplorer

/-! ### QbsBuildStep -/

namespace QbsProjectManager

theorem QbsBuildStep.parseProject_effects (s : QbsBuildStep) :
    (QbsBuildStep.parseProject s).2
      = [StepEffect.connectParsingFinished, StepEffect.parseCurrentBuildConfiguration] := rfl

theorem QbsBuildStep.finish_effects (s : QbsBuildStep) :
    (QbsBuildStep.finish s).2 = [StepEffect.finished s.m_lastWasSuccess] := rfl

theorem QbsBuildStep.createTaskAndOutput_no_request (items : List ErrorInfoItem) :
    ∀ e ∈ (items.map (fun item => QbsBuildStep.createTaskAndOutput
        item.description item.filePath item.line)).flatten,
      QbsBuildStep.isSendRequest e = false := by
  intro e he
  simp only [List.mem_flatten, List.mem_map] at he
  obtain ⟨l, ⟨item, _, rfl⟩, hel⟩ := he
  simp only [QbsBuildStep.createTaskAndOutput, List.mem_cons, List.mem_singleton,
    List.not_mem_nil, or_false] at hel
  rcases hel with rfl | rfl <;> rfl

theorem QbsBuildStep.buildingDone_no_request (env : BuildEnv) (error : ErrorInfo)
    (s s2 : QbsBuildStep) (effects : List StepEffect)
    (h : QbsBuildStep.buildingDone env error s = some (s2, effects)) :
    ∀ e ∈ effects, QbsBuildStep.isSendRequest e = false := by
  unfold QbsBuildStep.buildingDone at h
  cases hs : s.m_session with
  | none => rw [hs] at h; simp at h
  | some session =>
    rw [hs] at h
    simp only [] at h
    have htasks := QbsBuildStep.createTaskAndOutput_no_request error.items
    intro e he
    split at h
    · simp only [Option.some.injEq, Prod.mk.injEq] at h
      rw [← h.2] at he
      simp only [List.cons_append, List.mem_cons, List.mem_append, List.mem_singleton,
        QbsBuildStep.parseProject_effects, List.not_mem_nil, or_false] at he
      rcases he with rfl | (he | rfl) | rfl | rfl
      · rfl
      · exact htasks e he
      · rfl
      · rfl
      · rfl
    · simp only [Option.some.injEq, Prod.mk.injEq] at h
      rw [← h.2] at he
      simp only [List.cons_append, List.mem_cons, List.mem_append, List.mem_singleton,
        QbsBuildStep.finish_effects, List.not_mem_nil, or_false] at he
      rcases he with rfl | (he | rfl) | rfl
      · rfl
      · exact htasks e he
      · rfl
      · rfl

/-- C10: `doRun` only starts the pre-build parse (`m_parsingAfterBuild` false, parse
requested, nothing sent to the session).  Whatever entry point of the step is called, in
whatever state, if the call sends a request to the session then the call is
`reparsingDone(true)`, `m_parsingAfterBuild` was false, and the request is the one that
`build` assembles, sent to the build system's session.  When `reparsingDone(false)` arrives for the pre-build parse, the step emits
`finished(false)` and sends nothing. -/
theorem build_request_only_after_successful_prebuild_parse (env : BuildEnv) (c : QbsBuildStep.Call)
    (s : QbsBuildStep) :
    ((QbsBuildStep.doRun s).2
        = [StepEffect.connectParsingFinished, StepEffect.parseCurrentBuildConfiguration] ∧
      (QbsBuildStep.doRun s).1.m_parsingAfterBuild = false ∧
      (QbsBuildStep.doRun s).1.m_parsingProject = true) ∧
    (∀ s2 effects session request, QbsBuildStep.step env c s = some (s2, effects) →
      StepEffect.sendRequest session request ∈ effects →
        c = QbsBuildStep.Call.reparsingDone true ∧ s.m_parsingAfterBuild = false ∧
        env.session = some session ∧
        request = QbsBuildStep.buildRequest env
          { s with m_parsingProject := false, m_session := env.session }) ∧
    (s.m_parsingAfterBuild = false →
      (QbsBuildStep.reparsingDone env false s).2
        = [StepEffect.disconnectParsingFinished, StepEffect.finished false]) ∧
    (QbsBuildStep.reparsingDone env false (QbsBuildStep.doRun s).1).2
        = [StepEffect.disconnectParsingFinished, StepEffect.finished false] ∧
    (QbsBuildStep.reparsingDone env true (QbsBuildStep.doRun s).1).2
        = match env.session with
          | none => [StepEffect.disconnectParsingFinished,
                     StepEffect.addOutput (env.tr "No qbs session exists for this target."),
                     StepEffect.finished false]
          | some session => [StepEffect.disconnectParsingFinished,
                     StepEffect.sendRequest session (QbsBuildStep.buildRequest env
                       { (QbsBuildStep.doRun s).1 with
                         m_parsingProject := false, m_session := env.session }),
                     StepEffect.connectSession session] := by
  refine ⟨⟨rfl, rfl, rfl⟩, ?_, ?_, ?_, ?_⟩
  · intro s2 effects session request hstep hmem
    cases c with
    | init =>
      simp only [QbsBuildStep.step, Option.some.injEq, Prod.mk.injEq] at hstep
      rw [← hstep.2] at hmem
      simp at hmem
    | doRun =>
      simp only [QbsBuildStep.step, Option.some.injEq] at hstep
      have heff : effects = (s2, effects).2 := rfl
      rw [heff, ← hstep] at hmem
      simp [QbsBuildStep.doRun, QbsBuildStep.parseProject] at hmem
    | doCancel =>
      simp only [QbsBuildStep.step, Option.some.injEq] at hstep
      have heff : effects = (s2, effects).2 := rfl
      rw [heff, ← hstep] at hmem
      unfold QbsBuildStep.doCancel at hmem
      split at hmem
      · simp at hmem
      · split at hmem <;> simp at hmem
    | dropSession =>
      simp only [QbsBuildStep.step, Option.some.injEq] at hstep
      have heff : effects = (s2, effects).2 := rfl
      rw [heff, ← hstep] at hmem
      unfold QbsBuildStep.dropSession QbsBuildStep.doCancel at hmem
      split at hmem
      · split at hmem
        · simp at hmem
        · split at hmem <;> simp at hmem
      · simp at hmem
    | reparsingDone success =>
      simp only [QbsBuildStep.step, Option.some.injEq] at hstep
      have heff : effects = (s2, effects).2 := rfl
      rw [heff, ← hstep] at hmem
      unfold QbsBuildStep.reparsingDone at hmem
      simp only [List.mem_cons, reduceCtorEq, false_or] at hmem
      cases hpa : s.m_parsingAfterBuild
      · cases success
        · simp [hpa, QbsBuildStep.finish] at hmem
        · simp only [hpa, Bool.false_eq_true, if_false, Bool.not_true] at hmem
          unfold QbsBuildStep.build at hmem
          cases hsess : env.session with
          | none => simp [hsess] at hmem
          | some sess =>
            simp only [hsess, List.mem_cons, StepEffect.sendRequest.injEq, reduceCtorEq,
              List.not_mem_nil, or_false] at hmem
            obtain ⟨h1, h2⟩ := hmem
            exact ⟨rfl, rfl, by rw [h1], by rw [h2]⟩
      · simp [hpa, QbsBuildStep.finish] at hmem
    | buildingDone error =>
      simp only [QbsBuildStep.step] at hstep
      have h := QbsBuildStep.buildingDone_no_request env error s s2 effects hstep _ hmem
      simp [QbsBuildStep.isSendRequest] at h
    | sessionErrorOccurred =>
      simp only [QbsBuildStep.step] at hstep
      have h := QbsBuildStep.buildingDone_no_request env _ s s2 effects hstep _ hmem
      simp [QbsBuildStep.isSendRequest] at h
    | handleTaskStarted d max =>
      simp only [QbsBuildStep.step, Option.some.injEq] at hstep
      have heff : effects = (s2, effects).2 := rfl
      rw [heff, ← hstep] at hmem
      simp [QbsBuildStep.handleTaskStarted] at hmem
    | handleProgress value =>
      simp only [QbsBuildStep.step, Option.some.injEq] at hstep
      have heff : effects = (s2, effects).2 := rfl
      rw [heff, ← hstep] at hmem
      unfold QbsBuildStep.handleProgress at hmem
      split at hmem <;> simp at hmem
  · intro hpa
    simp [QbsBuildStep.reparsingDone, hpa, QbsBuildStep.finish]
  · simp [QbsBuildStep.reparsingDone, QbsBuildStep.doRun, QbsBuildStep.parseProject,
      QbsBuildStep.finish]
  · cases hsess : env.session with
    | none =>
      simp [QbsBuildStep.reparsingDone, QbsBuildStep.doRun, QbsBuildStep.parseProject,
        QbsBuildStep.build, hsess]
    | some sess =>
      simp [QbsBuildStep.reparsingDone, QbsBuildStep.doRun, QbsBuildStep.parseProject,
        QbsBuildStep.build, hsess]

/-- Witness for C10: a failed pre-build parse of the sample step. -/
theorem build_request_only_after_successful_prebuild_parse_witness :
    sampleStep.m_parsingAfterBuild = false ∧
    (QbsBuildStep.reparsingDone sampleBuildEnv false sampleStep).2
      = [StepEffect.disconnectParsingFinished, StepEffect.finished false] :=
  ⟨rfl, (build_request_only_after_successful_prebuild_parse sampleBuildEnv
      QbsBuildStep.Call.doRun sampleStep).2.2.1 rfl⟩

end QbsProjectManager

/-! ### QbsBuildStep: the end of a build -/

namespace QbsProjectManager

theorem QbsBuildStep.createTaskAndOutput_no_finished (items : List ErrorInfoItem) :
    ∀ e ∈ (items.map (fun item => QbsBuildStep.createTaskAndOutput
        item.description item.filePath item.line)).flatten,
      QbsBuildStep.isFinished e = false := by
  intro e he
  simp only [List.mem_flatten, List.mem_map] at he
  obtain ⟨l, ⟨item, _, rfl⟩, hel⟩ := he
  simp only [QbsBuildStep.createTaskAndOutput, List.mem_cons, List.mem_singleton,
    List.not_mem_nil, or_false] at hel
  rcases hel with rfl | rfl <;> rfl

/-- A passive call leaves `m_parsingAfterBuild` and `m_lastWasSuccess` alone and emits no
`finished`. -/
theorem QbsBuildStep.passive_step (env : BuildEnv) (c : QbsBuildStep.Call) (s : QbsBuildStep)
    (hc : QbsBuildStep.isPassive c = true) :
    ∃ s2 effects, QbsBuildStep.step env c s = some (s2, effects) ∧
      s2.m_parsingAfterBuild = s.m_parsingAfterBuild ∧
      s2.m_lastWasSuccess = s.m_lastWasSuccess ∧
      ∀ e ∈ effects, QbsBuildStep.isFinished e = false := by
  cases c with
  | init =>
    refine ⟨(QbsBuildStep.init env s).2, [], rfl, ?_, ?_, by simp⟩
    · unfold QbsBuildStep.init
      split
      · rfl
      · split <;> rfl
    · unfold QbsBuildStep.init
      split
      · rfl
      · split <;> rfl
  | doCancel =>
    refine ⟨(QbsBuildStep.doCancel s).1, (QbsBuildStep.doCancel s).2, rfl, ?_, ?_, ?_⟩
    · unfold QbsBuildStep.doCancel
      split
      · rfl
      · split <;> rfl
    · unfold QbsBuildStep.doCancel
      split
      · rfl
      · split <;> rfl
    · unfold QbsBuildStep.doCancel
      split
      · intro e he
        simp only [List.mem_singleton] at he
        rw [he]; rfl
      · split
        · intro e he
          simp only [List.mem_singleton] at he
          rw [he]; rfl
        · intro e he
          simp at he
  | dropSession =>
    refine ⟨(QbsBuildStep.dropSession s).1, (QbsBuildStep.dropSession s).2, rfl, ?_, ?_, ?_⟩
    · unfold QbsBuildStep.dropSession QbsBuildStep.doCancel
      split
      · split
        · rfl
        · split <;> rfl
      · rfl
    · unfold QbsBuildStep.dropSession QbsBuildStep.doCancel
      split
      · split
        · rfl
        · split <;> rfl
      · rfl
    · unfold QbsBuildStep.dropSession QbsBuildStep.doCancel
      split
      · split
        · intro e he
          simp only [List.mem_append, List.mem_singleton] at he
          rcases he with rfl | rfl <;> rfl
        · split
          · intro e he
            simp only [List.mem_append, List.mem_singleton] at he
            rcases he with rfl | rfl <;> rfl
          · intro e he
            simp only [List.nil_append, List.mem_singleton] at he
            rw [he]; rfl
      · intro e he
        simp at he
  | handleTaskStarted d max =>
    exact ⟨_, [], rfl, rfl, rfl, by simp⟩
  | handleProgress value =>
    refine ⟨(QbsBuildStep.handleProgress value s).1, (QbsBuildStep.handleProgress value s).2,
      rfl, ?_, ?_, ?_⟩
    · unfold QbsBuildStep.handleProgress
      split <;> rfl
    · unfold QbsBuildStep.handleProgress
      split <;> rfl
    · unfold QbsBuildStep.handleProgress
      split
      · intro e he
        simp only [List.mem_singleton] at he
        rw [he]; rfl
      · intro e he
        simp at he
  | doRun => simp [QbsBuildStep.isPassive] at hc
  | reparsingDone success => simp [QbsBuildStep.isPassive] at hc
  | buildingDone error => simp [QbsBuildStep.isPassive] at hc
  | sessionErrorOccurred => simp [QbsBuildStep.isPassive] at hc

theorem QbsBuildStep.passive_run :
    ∀ (calls : List (BuildEnv × QbsBuildStep.Call)) (s : QbsBuildStep),
      (∀ c ∈ calls, QbsBuildStep.isPassive c.2 = true) →
      ∃ s2 effects, QbsBuildStep.run calls s = some (s2, effects) ∧
        s2.m_parsingAfterBuild = s.m_parsingAfterBuild ∧
        s2.m_lastWasSuccess = s.m_lastWasSuccess ∧
        ∀ e ∈ effects, QbsBuildStep.isFinished e = false := by
  intro calls
  induction calls with
  | nil =>
    intro s _
    exact ⟨s, [], rfl, rfl, rfl, by simp⟩
  | cons ec rest ih =>
    intro s hall
    obtain ⟨env, c⟩ := ec
    obtain ⟨s2, eff, hstep, h1, h2, h3⟩ :=
      QbsBuildStep.passive_step env c s (hall (env, c) (List.mem_cons_self _ _))
    obtain ⟨s3, eff2, hrun, h4, h5, h6⟩ :=
      ih s2 (fun x hx => hall x (List.mem_cons_of_mem _ hx))
    refine ⟨s3, eff ++ eff2, ?_, h4.trans h1, h5.trans h2, ?_⟩
    · simp only [QbsBuildStep.run, hstep, hrun]
    · intro e he
      rcases List.mem_append.mp he with he | he
      · exact h3 e he
      · exact h6 e he

/-- C11: when `buildingDone` is handled (the step has its session), `finished` is emitted
by that call if and only if the build system has no parse scheduled, and then once, as the
last effect, with the build's outcome (true iff the error has no error).  If a parse is
scheduled, the call emits no `finished` and requests the parse; whatever passive calls
follow emit no `finished` either; and when `reparsingDone` is then handled it emits
`finished` with the build's outcome, for either value of its success flag. -/
theorem finished_waits_for_scheduled_reparse (env : BuildEnv) (error : ErrorInfo)
    (s : QbsBuildStep) (session : QbsSession) (hs : s.m_session = some session) :
    ∃ s2 effects, QbsBuildStep.buildingDone env error s = some (s2, effects) ∧
      ((∃ e ∈ effects, QbsBuildStep.isFinished e = true) ↔ env.parsingScheduled = false) ∧
      (env.parsingScheduled = false →
        effects.getLast? = some (StepEffect.finished (!error.hasError)) ∧
        effects.countP QbsBuildStep.isFinished = 1) ∧
      (env.parsingScheduled = true →
        StepEffect.parseCurrentBuildConfiguration ∈ effects ∧
        ∀ calls : List (BuildEnv × QbsBuildStep.Call),
          (∀ c ∈ calls, QbsBuildStep.isPassive c.2 = true) →
          ∃ s3 effects3, QbsBuildStep.run calls s2 = some (s3, effects3) ∧
            (∀ e ∈ effects3, QbsBuildStep.isFinished e = false) ∧
            ∀ (env2 : BuildEnv) (success : Bool),
              (QbsBuildStep.reparsingDone env2 success s3).2
                = [StepEffect.disconnectParsingFinished,
                   StepEffect.finished (!error.hasError)]) := by
  have htasks := QbsBuildStep.createTaskAndOutput_no_finished error.items
  have hcount : List.countP QbsBuildStep.isFinished
      ((error.items.map (fun item => QbsBuildStep.createTaskAndOutput
        item.description item.filePath item.line)).flatten) = 0 := by
    rw [List.countP_eq_zero]
    intro e he
    rw [htasks e he]
    decide
  cases hps : env.parsingScheduled
  · -- no parse scheduled: finish()
    refine ⟨_, _, by simp only [QbsBuildStep.buildingDone, hs, hps]; rfl, ?_, ?_, ?_⟩
    · simp only [iff_true]
      exact ⟨StepEffect.finished (!error.hasError), by simp [QbsBuildStep.finish], rfl⟩
    · intro _
      refine ⟨?_, ?_⟩
      · have hshape : ∀ (a u f : StepEffect) (l : List StepEffect),
            (a :: (l ++ [u, f])).getLast? = some f := by
          intro a u f l
          have h : a :: (l ++ [u, f]) = (a :: l ++ [u]) ++ [f] := by simp
          rw [h, List.getLast?_concat]
        simp only [QbsBuildStep.finish, List.cons_append, List.append_assoc,
          List.singleton_append, List.nil_append]
        exact hshape _ _ _ _
      simp only [QbsBuildStep.finish, List.cons_append, List.append_assoc, List.countP_cons,
        List.countP_append, hcount, List.countP_nil]
      rfl
    · intro h; exact absurd h (by decide)
  · -- a parse is scheduled: parseProject()
    refine ⟨_, _, by simp only [QbsBuildStep.buildingDone, hs, hps]; rfl, ?_, ?_, ?_⟩
    · simp only [Bool.true_eq_false, iff_false, not_exists, not_and]
      intro e he
      simp only [QbsBuildStep.parseProject, List.cons_append, List.append_assoc,
        List.mem_cons, List.mem_append, List.mem_singleton, List.not_mem_nil,
        or_false, List.singleton_append] at he
      rcases he with he | he | he | he | he
      all_goals first
        | (rw [htasks e he]; decide)
        | (subst he; simp [QbsBuildStep.isFinished])
        | exact he.elim
        | (rcases he with he | he <;> subst he <;> simp [QbsBuildStep.isFinished])
    · intro h; exact absurd h (by decide)
    · intro _
      refine ⟨by simp [QbsBuildStep.parseProject], ?_⟩
      intro calls hcalls
      obtain ⟨s3, eff3, hrun, h1, h2, h3⟩ := QbsBuildStep.passive_run calls _ hcalls
      refine ⟨s3, eff3, hrun, h3, ?_⟩
      intro env2 success
      simp only [QbsBuildStep.parseProject] at h1 h2
      simp [QbsBuildStep.reparsingDone, h1, h2, QbsBuildStep.finish]

theorem finished_waits_for_scheduled_reparse_witness :
    sampleBuildingStep.m_session = some 1 ∧
    ∃ s2 effects,
      QbsBuildStep.buildingDone sampleReparseEnv ⟨true, []⟩ sampleBuildingStep
        = some (s2, effects) ∧
      ((∃ e ∈ effects, QbsBuildStep.isFinished e = true)
        ↔ sampleReparseEnv.parsingScheduled = false) := by
  refine ⟨rfl, ?_⟩
  obtain ⟨s2, effects, h1, h2, _⟩ :=
    finished_waits_for_scheduled_reparse sampleReparseEnv ⟨true, []⟩ sampleBuildingStep 1 rfl
  exact ⟨s2, effects, h1, h2⟩

end QbsProjectManager

/-! ### QbsBuildStepConfigWidget: the properties line edit -/

namespace QbsProjectManager

theorem QString.indexOf_nonpos_iff (s : String) (c : Char) :
    ¬ (QString.indexOf s c > 0) ↔ (c ∉ s.data ∨ s.data.head? = some c) := by
  unfold QString.indexOf
  cases hs : s.data with
  | nil => simp
  | cons a l =>
    by_cases hac : a = c
    · subst hac
      simp
    · have hne : c ≠ a := fun h => hac h.symm
      rw [List.indexOf_cons_ne _ hne.symm]
      by_cases hmem : c ∈ l
      · have hlt : List.indexOf c l < l.length := List.indexOf_lt_length.mpr hmem
        simp only [List.length_cons, Nat.succ_eq_add_one, add_lt_add_iff_right, hlt, if_true,
          List.mem_cons, hmem, or_true, not_true_eq_false, List.head?_cons, Option.some.injEq,
          hac, or_false, iff_false, not_not]
        omega
      · have hge : ¬ List.indexOf c l < l.length := fun h => hmem (List.indexOf_lt_length.mp h)
        simp [hge, hmem, hne, hac]

theorem QString.indexOf_name_value (name value : String) (h : ':' ∉ name.data) :
    QString.indexOf (name ++ ":" ++ value) ':' = name.data.length := by
  unfold QString.indexOf
  have hdata : (name ++ ":" ++ value).data = name.data ++ (':' :: value.data) := by
    simp [String.data_append]
  have hidx : ∀ l : List Char, ':' ∉ l →
      List.indexOf ':' (l ++ (':' :: value.data)) = l.length := by
    intro l
    induction l with
    | nil => intro _; simp
    | cons a l ih =>
      intro hl
      have ha : a ≠ ':' := fun e => hl (by simp [e])
      have hl2 : ':' ∉ l := fun e => hl (List.mem_cons_of_mem _ e)
      rw [List.cons_append, List.indexOf_cons_ne _ ha, ih hl2]
      rfl
  rw [hdata, hidx _ h]
  simp

theorem QString.left_name_value (name value : String) :
    QString.left (name ++ ":" ++ value) name.data.length = name := by
  unfold QString.left
  have hdata : (name ++ ":" ++ value).data = name.data ++ (':' :: value.data) := by
    simp [String.data_append]
  rw [hdata]
  have h1 : ¬ ((name.data.length : Int) < 0
      ∨ ((name.data ++ ':' :: value.data).length : Int) ≤ name.data.length) := by
    simp only [List.length_append, List.length_cons]
    push_cast
    omega
  rw [if_neg h1]
  simp

namespace QbsBuildStepConfigWidget

/-- An argument is accepted when its first colon is not at the front and the name before
it is not in the list of special properties. -/
theorem collectProperties_noColonFound (env : WidgetEnv) (rawArg : String) :
    ∀ (argList : List String) (properties : List Property),
      collectProperties env argList properties = .error (.noColonFound rawArg) ↔
      ∃ accepted rest, argList = accepted ++ rawArg :: rest ∧
        (∀ a ∈ accepted, QString.indexOf a ':' > 0 ∧
          (specialProperties env).contains (QString.left a (QString.indexOf a ':')) = false) ∧
        ¬ (QString.indexOf rawArg ':' > 0) := by
  intro argList
  induction argList with
  | nil =>
    intro properties
    simp [collectProperties]
  | cons a rest ih =>
    intro properties
    unfold collectProperties
    by_cases hpos : QString.indexOf a ':' > 0
    · simp only [hpos, if_true]
      by_cases hsp : (specialProperties env).contains
          (QString.left a (QString.indexOf a ':')) = true
      · simp only [hsp, if_true]
        constructor
        · intro h
          cases h
        · rintro ⟨accepted, rest2, heq, hacc, hraw⟩
          cases accepted with
          | nil =>
            simp only [List.nil_append, List.cons.injEq] at heq
            rw [heq.1] at hpos
            exact absurd hpos hraw
          | cons b accepted =>
            simp only [List.cons_append, List.cons.injEq] at heq
            have hb := (hacc b (List.mem_cons_self _ _)).2
            rw [← heq.1, hsp] at hb
            cases hb
      · have hsp2 : (specialProperties env).contains
            (QString.left a (QString.indexOf a ':')) = false := by
          simpa using hsp
        simp only [hsp2, Bool.false_eq_true, if_false]
        rw [ih]
        constructor
        · rintro ⟨accepted, rest2, heq, hacc, hraw⟩
          refine ⟨a :: accepted, rest2, by simp [heq], ?_, hraw⟩
          intro b hb
          rcases List.mem_cons.mp hb with rfl | hb
          · exact ⟨hpos, hsp2⟩
          · exact hacc b hb
        · rintro ⟨accepted, rest2, heq, hacc, hraw⟩
          cases accepted with
          | nil =>
            simp only [List.nil_append, List.cons.injEq] at heq
            rw [heq.1] at hpos
            exact absurd hpos hraw
          | cons b accepted =>
            simp only [List.cons_append, List.cons.injEq] at heq
            exact ⟨accepted, rest2, heq.2,
              fun x hx => hacc x (List.mem_cons_of_mem _ hx), hraw⟩
    · simp only [hpos, if_false]
      constructor
      · intro h
        have hrw : a = rawArg := by
          injection h with h
          injection h
        subst hrw
        exact ⟨[], rest, rfl, by simp, hpos⟩
      · rintro ⟨accepted, rest2, heq, hacc, hraw⟩
        cases accepted with
        | nil =>
          simp only [List.nil_append, List.cons.injEq] at heq
          rw [heq.1]
        | cons b accepted =>
          simp only [List.cons_append, List.cons.injEq] at heq
          have hb := (hacc b (List.mem_cons_self _ _)).1
          rw [← heq.1] at hb
          exact absurd hb hpos

theorem validateProperties_rejection (env : WidgetEnv) (m_propertyCache : List Property)
    (text : String) (hasErrorMessage : Bool) (r : Rejection) :
    (validateProperties env m_propertyCache text hasErrorMessage).rejection = some r ↔
      (env.splitArgs text = none ∧ r = .couldNotSplit) ∨
      ∃ argList, env.splitArgs text = some argList ∧
        collectProperties env argList [] = .error r := by
  unfold validateProperties
  cases hsplit : env.splitArgs text with
  | none =>
    simp only [Option.some.injEq, true_and, reduceCtorEq, false_and, exists_false, or_false]
    exact eq_comm
  | some argList =>
    simp only [reduceCtorEq, false_and, Option.some.injEq, exists_eq_left', false_or]
    cases hcol : collectProperties env argList [] with
    | error r2 =>
      simp only [Option.some.injEq, Except.error.injEq]
    | ok properties =>
      simp only [reduceCtorEq, iff_false]
      split <;> simp

theorem validateProperties_rejected (env : WidgetEnv) (m_propertyCache : List Property)
    (text : String) (hasErrorMessage : Bool) (r : Rejection)
    (h : (validateProperties env m_propertyCache text hasErrorMessage).rejection = some r) :
    validateProperties env m_propertyCache text hasErrorMessage =
      { ret := false,
        errorMessage := if hasErrorMessage then some (r.message env) else none,
        rejection := some r, m_propertyCache := m_propertyCache, applied := false } := by
  unfold validateProperties at h ⊢
  cases hsplit : env.splitArgs text with
  | none =>
    simp only [hsplit, Option.some.injEq] at h
    subst h
    rfl
  | some argList =>
    simp only [hsplit] at h ⊢
    cases hcol : collectProperties env argList [] with
    | error r2 =>
      simp only [hcol, Option.some.injEq] at h
      subst h
      rfl
    | ok properties =>
      simp only [hcol] at h
      split at h <;> cases h

/-- A property typed as `name:value` whose name is in the list `specialProperties` is
rejected with the message about the dedicated UI element. -/
theorem validateProperties_rejects_special (env : WidgetEnv) (m_propertyCache : List Property)
    (text : String) (hasErrorMessage : Bool) (name value : String) (rest : List String)
    (hsplit : env.splitArgs text = some ((name ++ ":" ++ value) :: rest))
    (hname : name.data ≠ []) (hcolon : ':' ∉ name.data)
    (hsp : name ∈ specialProperties env) :
    validateProperties env m_propertyCache text hasErrorMessage =
      { ret := false,
        errorMessage :=
          if hasErrorMessage then
            some (QString.arg (env.tr
              "Property \"%1\" cannot be set here. Please use the dedicated UI element.") name)
          else none,
        rejection := some (.cannotBeSetHere (name ++ ":" ++ value) name),
        m_propertyCache := m_propertyCache, applied := false } := by
  refine validateProperties_rejected env m_propertyCache text hasErrorMessage
    (.cannotBeSetHere (name ++ ":" ++ value) name) ?_
  rw [validateProperties_rejection]
  refine Or.inr ⟨_, hsplit, ?_⟩
  have hlen : 0 < name.data.length := List.length_pos.mpr hname
  have hcontains : (specialProperties env).contains name = true := by
    simpa using hsp
  have hpos2 : (name.data.length : Int) > 0 := by exact_mod_cast hlen
  simp only [collectProperties, QString.indexOf_name_value name value hcolon, hpos2, if_true,
    QString.left_name_value, hcontains]

/-- The keys that `validateProperties` lists as special. -/
theorem mem_specialProperties (env : WidgetEnv) (name : String) :
    name ∈ specialProperties env ↔
      name = env.constants.QBS_CONFIG_PROFILE_KEY ∨
      name = env.constants.QBS_CONFIG_VARIANT_KEY ∨
      name = env.constants.QBS_CONFIG_QUICK_DEBUG_KEY ∨
      name = env.constants.QBS_CONFIG_QUICK_COMPILER_KEY ∨
      name = env.constants.QBS_INSTALL_ROOT_KEY ∨
      name = env.constants.QBS_CONFIG_SEPARATE_DEBUG_INFO_KEY ∨
      (env.isManagedByTarget = true ∧ name = env.constants.QBS_ARCHITECTURES) := by
  unfold specialProperties
  cases env.isManagedByTarget <;> simp

/-- C12: the force-probes key is edited with a dedicated UI element:
`updatePropertyEdit` removes it from the editable text.  Typed into the properties line
edit as `qbspm.forceProbes:true` it is not rejected by `validateProperties`: the call
returns true, stores no message and puts the property into the cache. -/
theorem validateProperties_accepts_force_probes_key :
    updatePropertyEdit sampleWidgetEnv [(sampleConstants.QBS_FORCE_PROBES_KEY, "true")] = "" ∧
    validateProperties sampleWidgetEnv [] "qbspm.forceProbes:true" true =
      { ret := true, errorMessage := none, rejection := none,
        m_propertyCache := [⟨"qbspm.forceProbes", "true", "true"⟩], applied := true } := by
  decide

/-- The declarative-debug key, which `updatePropertyEdit` removes as well, is accepted
in the same way. -/
theorem validateProperties_accepts_declarative_debug_key :
    updatePropertyEdit sampleWidgetEnv
      [(sampleConstants.QBS_CONFIG_DECLARATIVE_DEBUG_KEY, "true")] = "" ∧
    (validateProperties sampleWidgetEnv [] "modules.Qt.declarative.qmlDebugging:true" true).ret
      = true := by
  decide

/-- C13, as the code has it: `validateProperties` fails at the argument `rawArg` with
the message "No ":" found in property definition." exactly when the arguments before
`rawArg` are accepted and `rawArg` either contains no colon or begins with one; an
argument whose first colon is not its first character is never rejected with this
message.  The call then returns false, stores the message if a message is asked for,
and leaves the property cache alone. -/
theorem noColonFound_iff_no_colon_or_leading_colon (env : WidgetEnv)
    (m_propertyCache : List Property) (text : String) (hasErrorMessage : Bool)
    (rawArg : String) :
    ((validateProperties env m_propertyCache text hasErrorMessage).rejection
        = some (.noColonFound rawArg) ↔
      ∃ accepted rest, env.splitArgs text = some (accepted ++ rawArg :: rest) ∧
        (∀ a ∈ accepted, QString.indexOf a ':' > 0 ∧
          (specialProperties env).contains (QString.left a (QString.indexOf a ':')) = false) ∧
        (':' ∉ rawArg.data ∨ rawArg.data.head? = some ':')) ∧
    ((validateProperties env m_propertyCache text hasErrorMessage).rejection
        = some (.noColonFound rawArg) →
      validateProperties env m_propertyCache text hasErrorMessage =
        { ret := false,
          errorMessage :=
            if hasErrorMessage then some (env.tr "No \":\" found in property definition.")
            else none,
          rejection := some (.noColonFound rawArg),
          m_propertyCache := m_propertyCache, applied := false }) := by
  refine ⟨?_, fun h => validateProperties_rejected env m_propertyCache text hasErrorMessage _ h⟩
  rw [validateProperties_rejection]
  simp only [reduceCtorEq, and_false, false_or]
  constructor
  · rintro ⟨argList, hsplit, hcol⟩
    obtain ⟨accepted, rest, heq, hacc, hraw⟩ :=
      (collectProperties_noColonFound env rawArg argList []).mp hcol
    exact ⟨accepted, rest, heq ▸ hsplit, hacc, (QString.indexOf_nonpos_iff rawArg ':').mp hraw⟩
  · rintro ⟨accepted, rest, hsplit, hacc, hraw⟩
    exact ⟨_, hsplit, (collectProperties_noColonFound env rawArg _ []).mpr
      ⟨accepted, rest, rfl, hacc, (QString.indexOf_nonpos_iff rawArg ':').mpr hraw⟩⟩

theorem noColonFound_iff_no_colon_or_leading_colon_witness :
    (validateProperties sampleWidgetEnv [] "a:b x" true).rejection
      = some (.noColonFound "x") ∧
    validateProperties sampleWidgetEnv [] "a:b x" true =
      { ret := false, errorMessage := some "No \":\" found in property definition.",
        rejection := some (.noColonFound "x"), m_propertyCache := [], applied := false } :=
  ⟨by decide,
   (noColonFound_iff_no_colon_or_leading_colon sampleWidgetEnv [] "a:b x" true "x").2
     (by decide)⟩

/-- C13 as stated fails: the argument `:x` contains a colon and is rejected with the
message "No ":" found in property definition.". -/
theorem leading_colon_rejected_as_no_colon :
    ':' ∈ ":x".data ∧
    validateProperties sampleWidgetEnv [] ":x" true =
      { ret := false, errorMessage := some "No \":\" found in property definition.",
        rejection := some (.noColonFound ":x"), m_propertyCache := [], applied := false } := by
  decide

end QbsBuildStepConfigWidget

end QbsProjectManager

/-! ### StatesEditorView: removing a state -/

namespace QmlDesigner

namespace StatesEditorView

theorem indexOfNode_of_nodup (l : List ModelNode) (i : Nat) (node : ModelNode)
    (hnodup : l.Nodup) (hi : l[i]? = some node) :
    indexOfNode l node = i := by
  obtain ⟨hlt, hget⟩ := List.getElem?_eq_some_iff.mp hi
  have hidx : List.indexOf node l = i := by
    have h := List.get_indexOf hnodup ⟨i, hlt⟩
    simp only [List.get_eq_getElem, hget] at h
    exact h
  unfold indexOfNode
  rw [hidx, if_pos hlt]

/-- With a model whose current state node reads back what was set, `setCurrentState`
makes the given node the current state node and leaves the members of the view alone. -/
theorem setCurrentState_sets {M : Type} (api : ModelApi M) (state : ModelNode)
    (v : StatesEditorView M) (m : M) (hmodel : v.model = some m)
    (hlaw : ∀ (m : M) (node : ModelNode),
      api.currentStateNode (api.setCurrentStateNode m node) = node) :
    ∃ v2 m2, setCurrentState api state v = some v2 ∧ v2.model = some m2 ∧
      api.currentStateNode m2 = state ∧
      v2.m_activeStatesGroupNode = v.m_activeStatesGroupNode ∧
      v2.m_lastIndex = v.m_lastIndex := by
  unfold setCurrentState
  rw [hmodel]
  by_cases h : api.currentStateNode m = state
  · refine ⟨v, m, ?_, hmodel, h, rfl, rfl⟩
    simp [h]
  · refine ⟨{ v with model := some (api.setCurrentStateNode m state) },
      api.setCurrentStateNode m state, ?_, rfl, hlaw m state, rfl, rfl⟩
    simp [h]

/-- The confirmations run dialogs only. -/
theorem confirmRemoval_no_destroy {M : Type} (api : ModelApi M) (env : DialogEnv) (m : M)
    (stateNode : ModelNode) (node : ModelNode) :
    ViewEffect.destroy node ∉ (confirmRemoval api env m stateNode).2 := by
  unfold confirmRemoval
  simp only []
  split
  · split
    · simp
    · split
      · split <;> split <;> simp
      · split <;> simp
  · simp

/-- The removal goes on exactly when no question that is asked is answered with
Cancel. -/
theorem confirmRemoval_proceeds_iff {M : Type} (api : ModelApi M) (env : DialogEnv) (m : M)
    (stateNode : ModelNode) :
    (confirmRemoval api env m stateNode).1 = true ↔
      (api.isValidState (some m) stateNode = true →
        (api.propertyChangeTargets m stateNode ≠ [] →
          env.exec (notEmptyBox env) ≠ StandardButton.Cancel) ∧
        (lockedTargets api m stateNode ≠ [] →
          env.exec (lockedTargetsBox env (lockedTargets api m stateNode))
            ≠ StandardButton.Cancel)) := by
  unfold confirmRemoval
  by_cases hvalid : api.isValidState (some m) stateNode = true
  · simp only [hvalid, if_true, true_implies]
    by_cases hempty : api.propertyChangeTargets m stateNode = []
    · by_cases hlocked : lockedTargets api m stateNode = []
      · simp [hempty, hlocked]
      · by_cases hans : env.exec (lockedTargetsBox env (lockedTargets api m stateNode))
            = StandardButton.Cancel
        · simp [hempty, hlocked, hans]
        · simp [hempty, hlocked, hans]
    · by_cases hans1 : env.exec (notEmptyBox env) = StandardButton.Cancel
      · simp [hempty, hans1]
      · by_cases hlocked : lockedTargets api m stateNode = []
        · simp [hempty, hans1, hlocked]
        · by_cases hans : env.exec (lockedTargetsBox env (lockedTargets api m stateNode))
              = StandardButton.Cancel
          · simp [hempty, hans1, hlocked, hans]
          · simp [hempty, hans1, hlocked, hans]
  · simp [hvalid]

/-- The choice of the new current state, for a state at position `i` of its list. -/
theorem selectNeighbour_spec {M : Type} (api : ModelApi M) (m : M) (stateNode : ModelNode)
    (v : StatesEditorView M) (l : List ModelNode) (i : Nat)
    (hmodel : v.model = some m)
    (hlaw : ∀ (m : M) (node : ModelNode),
      api.currentStateNode (api.setCurrentStateNode m node) = node)
    (hparent : toNodeListProperty (api.parentProperty m stateNode) = some l)
    (hnodup : l.Nodup) (hi : l[i]? = some stateNode) :
    ∃ v2 m2 next, selectNeighbour api m stateNode v = some v2 ∧ v2.model = some m2 ∧
      api.currentStateNode m2 = next ∧
      v2.m_activeStatesGroupNode = v.m_activeStatesGroupNode ∧
      v2.m_lastIndex = v.m_lastIndex ∧
      (if l.length ≤ 1 then next = api.baseState m
       else if i = 0 then l[1]? = some next
       else i - 1 < l.length ∧ l[i - 1]? = some next) := by
  obtain ⟨hlt, hget⟩ := List.getElem?_eq_some_iff.mp hi
  unfold selectNeighbour
  simp only [hparent, NodeListProperty.count, NodeListProperty.isValid,
    NodeListProperty.indexOf, NodeListProperty.at, Option.isSome_some, if_true,
    indexOfNode_of_nodup l i stateNode hnodup hi]
  by_cases hn : l.length ≤ 1
  · have hn2 : (l.length : Int) ≤ 1 := by exact_mod_cast hn
    obtain ⟨v2, m2, h1, h2, h3, h4, h5⟩ :=
      setCurrentState_sets api (api.baseState m) v m hmodel hlaw
    refine ⟨v2, m2, api.baseState m, ?_, h2, h3, h4, h5, ?_⟩
    · simp only [hn2, if_true, h1]
    · simp only [hn, if_true]
  · have hn2 : ¬ (l.length : Int) ≤ 1 := by
      intro h
      exact hn (by exact_mod_cast h)
    have hlen : 1 < l.length := by omega
    by_cases hi0 : i = 0
    · subst hi0
      obtain ⟨v2, m2, h1, h2, h3, h4, h5⟩ :=
        setCurrentState_sets api l[1] v m hmodel hlaw
      refine ⟨v2, m2, l[1], ?_, h2, h3, h4, h5, ?_⟩
      · have hat : l[(1 : Int).toNat]? = some l[1] := by
          simp [List.getElem?_eq_getElem hlen]
        simp only [hn2, if_false, Nat.cast_zero, if_true, zero_le_one, hat, h1]
      · simp only [hn, if_false, if_true, List.getElem?_eq_getElem hlen]
    · have hpred : i - 1 < l.length := by omega
      obtain ⟨v2, m2, h1, h2, h3, h4, h5⟩ :=
        setCurrentState_sets api (l[i - 1]) v m hmodel hlaw
      refine ⟨v2, m2, l[i - 1], ?_, h2, h3, h4, h5, ?_⟩
      · have hi1 : ((i : Int) = 0) = False := by
          simp only [Nat.cast_eq_zero, hi0]
        have hge : (0 : Int) ≤ (i : Int) - 1 := by omega
        have htonat : ((i : Int) - 1).toNat = i - 1 := by omega
        simp only [hn2, if_false, hi1, hge, if_true, htonat,
          List.getElem?_eq_getElem hpred, h1]
      · simp only [hn, if_false, hi0, List.getElem?_eq_getElem hpred]
        exact ⟨hpred, trivial⟩

/-- C14: when `removeState` removes an existing state (a positive id with a model node,
no question answered with Cancel) that sits at position `i` of a states list `l`, it
returns with the node destroyed as its last effect, and the current state is then the
base state if the list has at most one entry, the entry at position 1 if `i = 0`, and
the entry at position `i - 1` otherwise; the position read is within the list, the
current state is not the removed state, and the notification `nodeAboutToBeRemoved` for
the removed state leaves it as it is.  The model's current state node reads back what
was set, the entries of a list are distinct, and the base state is not in the list. -/
theorem removeState_selects_neighbour {M : Type} (api : ModelApi M) (env : DialogEnv)
    (nodeId : Int) (v : StatesEditorView M) (m : M) (l : List ModelNode) (i : Nat)
    (hmodel : v.model = some m)
    (hlaw : ∀ (m : M) (node : ModelNode),
      api.currentStateNode (api.setCurrentStateNode m node) = node)
    (hid : nodeId > 0) (hhas : api.hasModelNodeForInternalId m nodeId = true)
    (hnotEmpty : api.isValidState (some m) (api.modelNodeForInternalId m nodeId) = true →
      api.propertyChangeTargets m (api.modelNodeForInternalId m nodeId) ≠ [] →
      env.exec (notEmptyBox env) ≠ StandardButton.Cancel)
    (hlocked : api.isValidState (some m) (api.modelNodeForInternalId m nodeId) = true →
      lockedTargets api m (api.modelNodeForInternalId m nodeId) ≠ [] →
      env.exec (lockedTargetsBox env
        (lockedTargets api m (api.modelNodeForInternalId m nodeId))) ≠ StandardButton.Cancel)
    (hparent : toNodeListProperty
      (api.parentProperty m (api.modelNodeForInternalId m nodeId)) = some l)
    (hnodup : l.Nodup) (hi : l[i]? = some (api.modelNodeForInternalId m nodeId))
    (hbase : api.baseState m ∉ l) :
    ∃ v2 effects next,
      removeState api env nodeId v = some (v2, effects) ∧
      effects.getLast? = some (ViewEffect.destroy (api.modelNodeForInternalId m nodeId)) ∧
      currentState api v2 = some next ∧
      (if l.length ≤ 1 then next = api.baseState m
       else if i = 0 then l[1]? = some next
       else i - 1 < l.length ∧ l[i - 1]? = some next) ∧
      next ≠ api.modelNodeForInternalId m nodeId ∧
      (nodeAboutToBeRemoved api (api.modelNodeForInternalId m nodeId) v2).map
        (currentState api) = some (some next) := by
  obtain ⟨hlt, hget⟩ := List.getElem?_eq_some_iff.mp hi
  obtain ⟨v2, m2, next, hsel, hm2, hcur, _, _, hnext⟩ :=
    selectNeighbour_spec api m (api.modelNodeForInternalId m nodeId) v l i hmodel hlaw
      hparent hnodup hi
  have hproceed : (confirmRemoval api env m (api.modelNodeForInternalId m nodeId)).1 = true :=
    (confirmRemoval_proceeds_iff api env m _).mpr (fun hv => ⟨hnotEmpty hv, hlocked hv⟩)
  have hne : next ≠ api.modelNodeForInternalId m nodeId := by
    intro heq
    by_cases hn : l.length ≤ 1
    · simp only [hn, if_true] at hnext
      apply hbase
      rw [← hnext, heq, ← hget]
      exact List.getElem_mem _
    · simp only [hn, if_false] at hnext
      have hlen : 1 < l.length := by omega
      by_cases hi0 : i = 0
      · subst hi0
        simp only [if_true, List.getElem?_eq_getElem hlen, Option.some.injEq] at hnext
        have heq2 : l[1] = l[0] := by rw [hnext, heq, hget]
        have := (List.Nodup.getElem_inj_iff hnodup).mp heq2
        omega
      · simp only [hi0, if_false] at hnext
        obtain ⟨hpred, hnext⟩ := hnext
        simp only [List.getElem?_eq_getElem hpred, Option.some.injEq] at hnext
        have heq2 : l[i - 1] = l[i] := by rw [hnext, heq, hget]
        have := (List.Nodup.getElem_inj_iff hnodup).mp heq2
        omega
  refine ⟨v2, (confirmRemoval api env m (api.modelNodeForInternalId m nodeId)).2
      ++ [ViewEffect.destroy (api.modelNodeForInternalId m nodeId)], next, ?_, ?_, ?_,
      hnext, hne, ?_⟩
  · unfold removeState
    simp only [hid, if_true, hmodel, hhas]
    cases hc : confirmRemoval api env m (api.modelNodeForInternalId m nodeId) with
    | mk proceed effects =>
      rw [hc] at hproceed
      simp only at hproceed
      subst hproceed
      simp only [hsel]
  · exact List.getLast?_concat _
  · simp only [currentState, hm2, Option.map_some', hcur]
  · unfold nodeAboutToBeRemoved
    simp only [hm2, hcur]
    have hneq : (api.modelNodeForInternalId m nodeId == next) = false := by
      simpa using fun h => hne h.symm
    simp only [hneq, Bool.and_false, Bool.false_eq_true, if_false, Option.map_some',
      Option.some.injEq]
    cases api.parentProperty m2 (api.modelNodeForInternalId m nodeId) with
    | none => simp only [currentState, hm2, Option.map_some', hcur]
    | some propertyParent =>
      simp only []
      split <;> simp only [currentState, hm2, Option.map_some', hcur]

theorem removeState_selects_neighbour_witness :
    sampleView.model = some (ModelNode.node 3) ∧
    (2 : Int) > 0 ∧
    sampleModelApi.hasModelNodeForInternalId (ModelNode.node 3) 2 = true ∧
    [ModelNode.node 2, ModelNode.node 3, ModelNode.node 4].Nodup ∧
    ∃ v2 effects next,
      removeState sampleModelApi sampleAcceptDialogs 2 sampleView = some (v2, effects) ∧
      effects.getLast? = some (ViewEffect.destroy (ModelNode.node 2)) ∧
      currentState sampleModelApi v2 = some next ∧
      (if [ModelNode.node 2, ModelNode.node 3, ModelNode.node 4].length ≤ 1 then
         next = ModelNode.node 1
       else if 0 = 0 then
         [ModelNode.node 2, ModelNode.node 3, ModelNode.node 4][1]? = some next
       else 0 - 1 < [ModelNode.node 2, ModelNode.node 3, ModelNode.node 4].length ∧
         [ModelNode.node 2, ModelNode.node 3, ModelNode.node 4][0 - 1]? = some next) ∧
      next ≠ ModelNode.node 2 ∧
      (nodeAboutToBeRemoved sampleModelApi (ModelNode.node 2) v2).map
        (currentState sampleModelApi) = some (some next) :=
  ⟨rfl, by decide, by decide, by decide,
   @removeState_selects_neighbour ModelNode sampleModelApi sampleAcceptDialogs 2 sampleView
     (ModelNode.node 3) [ModelNode.node 2, ModelNode.node 3, ModelNode.node 4] 0
     rfl (fun _ _ => rfl) (by decide) (by decide) (by decide) (by decide) (by decide)
     (by decide) (by decide) (by decide)⟩

/-- The list `lockedTargets` is not empty exactly when some property change of the state
has a valid target that is locked. -/
theorem lockedTargets_ne_nil_iff {M : Type} (api : ModelApi M) (m : M)
    (stateNode : ModelNode) :
    lockedTargets api m stateNode ≠ [] ↔
      ∃ target ∈ api.propertyChangeTargets m stateNode,
        api.isValid m target = true ∧ api.locked m target = true := by
  unfold lockedTargets
  rw [Ne, List.map_eq_nil_iff, List.filter_eq_nil_iff]
  constructor
  · intro h
    by_contra hno
    apply h
    intro target hmem hcond
    apply hno
    simp only [Bool.and_eq_true] at hcond
    exact ⟨target, hmem, hcond⟩
  · rintro ⟨target, hmem, hvalid, hlocked⟩ h
    exact h target hmem (by simp [hvalid, hlocked])

/-- C15: `removeState` ends without destroying a node, with the view and so the current
state unchanged, when the id is not positive, when the id has no model node, when
the state has a property change and the question about a state that is not empty is
answered with Cancel, and when a property change of the state has a valid target that
is locked and the question about locked components, which lists the ids of these
targets, is answered with Cancel.  In the first two cases no dialog is run either; in
the last two the effects are the dialogs run, the cancelled one last. -/
theorem removeState_cancelled_changes_nothing {M : Type} (api : ModelApi M) (env : DialogEnv)
    (nodeId : Int) (v : StatesEditorView M)
    (h : nodeId ≤ 0 ∨ ∃ m, v.model = some m ∧
      (api.hasModelNodeForInternalId m nodeId = false ∨
       (api.isValidState (some m) (api.modelNodeForInternalId m nodeId) = true ∧
        ((api.propertyChangeTargets m (api.modelNodeForInternalId m nodeId) ≠ [] ∧
          env.exec (notEmptyBox env) = StandardButton.Cancel) ∨
         ((∃ target ∈ api.propertyChangeTargets m (api.modelNodeForInternalId m nodeId),
            api.isValid m target = true ∧ api.locked m target = true) ∧
          env.exec (lockedTargetsBox env
            (((api.propertyChangeTargets m (api.modelNodeForInternalId m nodeId)).filter
              (fun target => api.isValid m target && api.locked m target)).map (api.id m)))
              = StandardButton.Cancel))))) :
    ∃ effects, removeState api env nodeId v = some (v, effects) ∧
      (∀ node, ViewEffect.destroy node ∉ effects) ∧
      ((nodeId ≤ 0 ∨ ∃ m, v.model = some m ∧ api.hasModelNodeForInternalId m nodeId = false) →
        effects = []) ∧
      (nodeId > 0 → ∀ m, v.model = some m → api.hasModelNodeForInternalId m nodeId = true →
        ∃ box, effects.getLast? = some (ViewEffect.exec box) ∧
          env.exec box = StandardButton.Cancel ∧
          (box = notEmptyBox env ∨
           box = lockedTargetsBox env
            (((api.propertyChangeTargets m (api.modelNodeForInternalId m nodeId)).filter
              (fun target => api.isValid m target && api.locked m target)).map
                (api.id m)))) := by
  by_cases hid : nodeId > 0
  · have hid2 : ¬ nodeId ≤ 0 := by omega
    rcases h with h | ⟨m, hmodel, h⟩
    · exact absurd h hid2
    · by_cases hhas : api.hasModelNodeForInternalId m nodeId = true
      · have hhas2 : ¬ api.hasModelNodeForInternalId m nodeId = false := by simp [hhas]
        rcases h with h | ⟨hvalid, h⟩
        · exact absurd h hhas2
        · have hconfirm : ∃ shown box,
              confirmRemoval api env m (api.modelNodeForInternalId m nodeId)
                = (false, shown ++ [ViewEffect.exec box]) ∧
              env.exec box = StandardButton.Cancel ∧
              (box = notEmptyBox env ∨
               box = lockedTargetsBox env
                (((api.propertyChangeTargets m (api.modelNodeForInternalId m nodeId)).filter
                  (fun target => api.isValid m target && api.locked m target)).map
                    (api.id m))) := by
            unfold confirmRemoval
            simp only [hvalid, if_true]
            by_cases hfirst :
                api.propertyChangeTargets m (api.modelNodeForInternalId m nodeId) ≠ [] ∧
                env.exec (notEmptyBox env) = StandardButton.Cancel
            · refine ⟨[], notEmptyBox env, ?_, hfirst.2, Or.inl rfl⟩
              simp [hfirst.1, hfirst.2]
            · have hsecond : (∃ target ∈
                    api.propertyChangeTargets m (api.modelNodeForInternalId m nodeId),
                    api.isValid m target = true ∧ api.locked m target = true) ∧
                  env.exec (lockedTargetsBox env
                    (lockedTargets api m (api.modelNodeForInternalId m nodeId)))
                      = StandardButton.Cancel := by
                rcases h with h | h
                · exact absurd h hfirst
                · exact h
              have hne := (lockedTargets_ne_nil_iff api m
                (api.modelNodeForInternalId m nodeId)).mpr hsecond.1
              have hcond : (!(api.propertyChangeTargets m
                    (api.modelNodeForInternalId m nodeId)).isEmpty
                  && env.exec (notEmptyBox env) == StandardButton.Cancel) = false := by
                by_cases he : api.propertyChangeTargets m
                    (api.modelNodeForInternalId m nodeId) = []
                · simp [he]
                · have hans : ¬ env.exec (notEmptyBox env) = StandardButton.Cancel :=
                    fun ha => hfirst ⟨he, ha⟩
                  simp [hans]
              refine ⟨if (!(api.propertyChangeTargets m
                    (api.modelNodeForInternalId m nodeId)).isEmpty) = true
                  then [ViewEffect.exec (notEmptyBox env)] else [],
                lockedTargetsBox env
                  (lockedTargets api m (api.modelNodeForInternalId m nodeId)), ?_,
                hsecond.2, Or.inr rfl⟩
              simp only [hcond, Bool.false_eq_true, if_false]
              have hne2 : (lockedTargets api m
                  (api.modelNodeForInternalId m nodeId)).isEmpty = false := by
                simpa [List.isEmpty_iff] using hne
              simp only [hne2, Bool.not_false, if_true, hsecond.2, beq_self_eq_true]
          obtain ⟨shown, box, hc, hans, hbox⟩ := hconfirm
          refine ⟨shown ++ [ViewEffect.exec box], ?_, ?_, ?_, ?_⟩
          · unfold removeState
            simp only [hid, if_true, hmodel, hhas, hc]
          · intro node
            have hno := confirmRemoval_no_destroy api env m
              (api.modelNodeForInternalId m nodeId) node
            rw [hc] at hno
            exact hno
          · rintro (h | ⟨m2, hmodel2, h⟩)
            · exact absurd h hid2
            · rw [hmodel] at hmodel2
              cases hmodel2
              exact absurd h hhas2
          · intro _ m2 hmodel2 _
            rw [hmodel] at hmodel2
            cases hmodel2
            exact ⟨box, List.getLast?_concat _, hans, hbox⟩
      · refine ⟨[], ?_, by simp, fun _ => rfl, ?_⟩
        · unfold removeState
          simp only [hid, if_true, hmodel, hhas, Bool.false_eq_true, if_false]
        · intro _ m2 hmodel2 hhas3
          rw [hmodel] at hmodel2
          cases hmodel2
          exact absurd hhas3 hhas
  · refine ⟨[], ?_, by simp, fun _ => rfl, fun h => absurd h hid⟩
    unfold removeState
    simp only [hid, if_false]

/-- Witness for C15: state 3 of the sample document changes the locked component with
id 7; the user answers Yes to the first question and Cancel to the second, and the view
stays as it was, with the two dialogs as the only effects. -/
theorem removeState_cancelled_changes_nothing_witness :
    (∃ target ∈ sampleModelApi.propertyChangeTargets (ModelNode.node 3) (ModelNode.node 3),
      sampleModelApi.isValid (ModelNode.node 3) target = true ∧
      sampleModelApi.locked (ModelNode.node 3) target = true) ∧
    sampleCancelLockedDialogs.exec (notEmptyBox sampleCancelLockedDialogs)
      = StandardButton.Yes ∧
    removeState sampleModelApi sampleCancelLockedDialogs 3 sampleView
      = some (sampleView,
          [ViewEffect.exec (notEmptyBox sampleCancelLockedDialogs),
           ViewEffect.exec
            { windowTitle := "Remove State",
              text := "Removing this state will modify locked components."
                ++ "<br><br><b>Locked components:</b><br>- rect",
              informativeText := "Continue by removing the state?",
              standardButtons := [StandardButton.Ok, StandardButton.Cancel],
              defaultButton := StandardButton.Ok }]) ∧
    ∃ effects,
      removeState sampleModelApi sampleCancelLockedDialogs 3 sampleView
        = some (sampleView, effects) ∧
      (∀ node, ViewEffect.destroy node ∉ effects) :=
  ⟨⟨ModelNode.node 7, by decide, by decide, by decide⟩, by decide, by decide,
   (@removeState_cancelled_changes_nothing ModelNode sampleModelApi
      sampleCancelLockedDialogs 3 sampleView
      (Or.inr ⟨ModelNode.node 3, rfl, Or.inr ⟨by decide,
        Or.inr ⟨⟨ModelNode.node 7, by decide, by decide, by decide⟩, by decide⟩⟩⟩)).imp
     (fun _ h => ⟨h.1, h.2.1⟩)⟩

end StatesEditorView

end QmlDesigner

/-! ### SourceIdsData -/

namespace QmlDesigner

theorem vectorReserve_ok_iff (env : VectorEnv) (call n : Nat) :
    vectorReserve env call n = .ok () ↔
      n ≤ env.max_size ∧ (n ≠ 0 → env.allocate call n = true) := by
  unfold vectorReserve
  by_cases h1 : n > env.max_size
  · simp only [h1, if_true, reduceCtorEq, false_iff, not_and]
    intro h2
    omega
  · by_cases h2 : n = 0
    · simp [h1, h2]
    · by_cases h3 : env.allocate call n = true
      · simp only [h1, if_false, h2, h3, if_true, true_iff]
        exact ⟨by omega, fun _ => trivial⟩
      · have h3b : env.allocate call n = false := by simpa using h3
        rw [if_neg h1, if_neg h2, h3b]
        simp only [Bool.false_eq_true, if_false, reduceCtorEq, false_iff, not_and]
        intro _ h4
        exact absurd (h4 h2) (by simp)

theorem reserveAll_ok_iff (env : VectorEnv) :
    ∀ (requests : List Nat) (call : Nat),
      reserveAll env call requests = .ok () ↔
        ∀ i (h : i < requests.length), vectorReserve env (call + i) (requests.get ⟨i, h⟩)
          = .ok () := by
  intro requests
  induction requests with
  | nil =>
    intro call
    simp [reserveAll]
  | cons n rest ih =>
    intro call
    unfold reserveAll
    cases hfirst : vectorReserve env call n with
    | error e =>
      simp only [reduceCtorEq, false_iff, not_forall]
      refine ⟨0, by simp, ?_⟩
      simp [hfirst]
    | ok u =>
      simp only [ih]
      constructor
      · intro h i hi
        cases i with
        | zero => simpa using hfirst
        | succ i =>
          have := h i (by simpa using hi)
          simpa [Nat.add_assoc, Nat.add_comm 1 i] using this
      · intro h i hi
        have := h (i + 1) (by simpa using hi)
        simpa [Nat.add_assoc, Nat.add_comm 1 i] using this

theorem mem_reserveCalls (n request : Nat) :
    request ∈ SourceIdsData.reserveCalls n ↔
      request = (30 * n) % 2 ^ 64 ∨ request = n := by
  simp only [SourceIdsData.reserveCalls, sizeBits, Nat.mul_comm n 30, List.mem_cons,
    List.mem_singleton, List.not_mem_nil, or_false]
  tauto

/-- The constructor returns exactly when each of its six calls of `reserve` returns. -/
theorem create_ok_iff (env : VectorEnv) (n : Nat)
    (result : SourceIdsData × SourceIdsData.Reserved) :
    SourceIdsData.create env n = .ok result ↔
      (∀ i (h : i < (SourceIdsData.reserveCalls n).length),
        vectorReserve env i ((SourceIdsData.reserveCalls n).get ⟨i, h⟩) = .ok ()) ∧
      result = (SourceIdsData.empty,
        { notUpdatedFileStatusSourceIds := (30 * n) % 2 ^ 64,
          notUpdatedSourceIds := (30 * n) % 2 ^ 64,
          watchedDirectorySourceIds := n,
          watchedQmldirSourceIds := n,
          watchedQmlSourceIds := (30 * n) % 2 ^ 64,
          watchedQmltypesSourceIds := (30 * n) % 2 ^ 64 }) := by
  have hall := reserveAll_ok_iff env (SourceIdsData.reserveCalls n) 0
  simp only [Nat.zero_add] at hall
  unfold SourceIdsData.create
  cases hres : reserveAll env 0 (SourceIdsData.reserveCalls n) with
  | error e =>
    simp only [reduceCtorEq, false_iff, not_and]
    intro h
    rw [hres] at hall
    exact absurd (hall.mpr h) (by simp)
  | ok u =>
    cases u
    rw [hres] at hall
    simp only [Except.ok.injEq, hall.mp rfl, implies_true, true_and, sizeBits,
      Nat.mul_comm n 30, SourceIdsData.empty]
    exact eq_comm

/-- C17, as the code has it: the constructor of `SourceIdsData`, given the reserve count
`n`, calls `reserve` with the capacity `30 * n` reduced modulo `2 ^ 64` (which is `30 * n` itself when that
is below `2 ^ 64`) for the four per-file collections (not-updated file-status ids,
not-updated source ids, watched qml ids, watched qmltypes ids) and with the capacity `n`
for the two per-directory collections (watched directory ids, watched qmldir ids).
When these capacities are within `max_size()` and the allocator has the storage for
them, the constructor returns, with these capacities reserved and every collection
empty; whenever it returns, that is the result and both capacities are within
`max_size()`; and when a capacity exceeds `max_size()`, a call throws and there is no
object. -/
theorem sourceIdsData_constructor_reserves (env : VectorEnv) (n : Nat) :
    (n ≤ env.max_size → (30 * n) % 2 ^ 64 ≤ env.max_size →
      (∀ call request, call < 6 → (request = (30 * n) % 2 ^ 64 ∨ request = n) →
        request ≠ 0 → env.allocate call request = true) →
      SourceIdsData.create env n = .ok (SourceIdsData.empty,
        { notUpdatedFileStatusSourceIds := (30 * n) % 2 ^ 64,
          notUpdatedSourceIds := (30 * n) % 2 ^ 64,
          watchedDirectorySourceIds := n,
          watchedQmldirSourceIds := n,
          watchedQmlSourceIds := (30 * n) % 2 ^ 64,
          watchedQmltypesSourceIds := (30 * n) % 2 ^ 64 })) ∧
    (∀ d reserved, SourceIdsData.create env n = .ok (d, reserved) →
      (∀ collection ∈ d.collections, collection = []) ∧
      reserved.notUpdatedFileStatusSourceIds = (30 * n) % 2 ^ 64 ∧
      reserved.notUpdatedSourceIds = (30 * n) % 2 ^ 64 ∧
      reserved.watchedQmlSourceIds = (30 * n) % 2 ^ 64 ∧
      reserved.watchedQmltypesSourceIds = (30 * n) % 2 ^ 64 ∧
      reserved.watchedDirectorySourceIds = n ∧
      reserved.watchedQmldirSourceIds = n ∧
      n ≤ env.max_size ∧ (30 * n) % 2 ^ 64 ≤ env.max_size) ∧
    (30 * n < 2 ^ 64 → (30 * n) % 2 ^ 64 = 30 * n) ∧
    ((30 * n) % 2 ^ 64 > env.max_size →
      SourceIdsData.create env n = .error ReserveError.length_error) ∧
    (n > env.max_size → ∃ e, SourceIdsData.create env n = .error e) := by
  have hshape : ∀ d reserved, SourceIdsData.create env n = .ok (d, reserved) →
      n ≤ env.max_size ∧ (30 * n) % 2 ^ 64 ≤ env.max_size := by
    intro d reserved h
    obtain ⟨hcalls, _⟩ := (create_ok_iff env n (d, reserved)).mp h
    have h0 := (vectorReserve_ok_iff env 0 _).mp (hcalls 0 (by simp [SourceIdsData.reserveCalls]))
    have h2 := (vectorReserve_ok_iff env 2 _).mp (hcalls 2 (by simp [SourceIdsData.reserveCalls]))
    refine ⟨?_, ?_⟩
    · simpa [SourceIdsData.reserveCalls] using h2.1
    · simpa [SourceIdsData.reserveCalls, sizeBits, Nat.mul_comm n 30] using h0.1
  refine ⟨?_, ?_, fun h => Nat.mod_eq_of_lt h, ?_, ?_⟩
  · intro hn ha halloc
    rw [create_ok_iff]
    refine ⟨?_, rfl⟩
    intro i hi
    rw [vectorReserve_ok_iff]
    have hmem := (mem_reserveCalls n _).mp
      (List.get_mem (SourceIdsData.reserveCalls n) i hi)
    have hi6 : i < 6 := by simpa [SourceIdsData.reserveCalls] using hi
    refine ⟨?_, fun hne => halloc i _ hi6 hmem hne⟩
    rcases hmem with h | h <;> rw [h] <;> assumption
  · intro d reserved h
    obtain ⟨hn, ha⟩ := hshape d reserved h
    obtain ⟨_, hres⟩ := (create_ok_iff env n (d, reserved)).mp h
    simp only [Prod.mk.injEq] at hres
    obtain ⟨hd, hr⟩ := hres
    subst hd hr
    refine ⟨?_, rfl, rfl, rfl, rfl, rfl, rfl, hn, ha⟩
    intro collection hmem
    simp only [SourceIdsData.empty, SourceIdsData.collections, List.mem_cons,
      List.mem_singleton, List.not_mem_nil, or_false, or_self] at hmem
    exact hmem
  · intro ha
    have hfirst : vectorReserve env 0 ((n * 30) % 2 ^ sizeBits)
        = .error ReserveError.length_error := by
      unfold vectorReserve
      have : (n * 30) % 2 ^ sizeBits > env.max_size := by
        simpa [sizeBits, Nat.mul_comm n 30] using ha
      simp [this]
    simp only [SourceIdsData.create, SourceIdsData.reserveCalls, reserveAll, hfirst]
  · intro hn
    cases hres : SourceIdsData.create env n with
    | error e => exact ⟨e, rfl⟩
    | ok result =>
      obtain ⟨d, reserved⟩ := result
      have := (hshape d reserved hres).1
      omega

/-- Witness for C17: for the count 3 the constructor returns with the capacity 90
reserved for the per-file collections and 3 for the per-directory ones. -/
theorem sourceIdsData_constructor_reserves_witness :
    3 ≤ sampleVectorEnv.max_size ∧ (30 * 3) % 2 ^ 64 ≤ sampleVectorEnv.max_size ∧
    SourceIdsData.create sampleVectorEnv 3 = .ok (SourceIdsData.empty,
      { notUpdatedFileStatusSourceIds := 90, notUpdatedSourceIds := 90,
        watchedDirectorySourceIds := 3, watchedQmldirSourceIds := 3,
        watchedQmlSourceIds := 90, watchedQmltypesSourceIds := 90 }) :=
  ⟨by decide, by decide,
   (sourceIdsData_constructor_reserves sampleVectorEnv 3).1 (by decide) (by decide)
     (by
       intro call request _ hrequest _
       rcases hrequest with h | h <;> rw [h] <;> simp [sampleVectorEnv])⟩

/-- C17 as stated fails: for the count `2 ^ 63` the products wrap to zero, so the first
two calls have nothing to do, and the third call, for `2 ^ 63` directory ids, throws
`length_error`: the constructor does not return, no capacity is asked for the watched
qml and qmltypes ids, and no collection is left behind. -/
theorem sourceIdsData_constructor_throws :
    (9223372036854775808 * 30) % 2 ^ sizeBits = 0 ∧
    SourceIdsData.create sampleVectorEnv 9223372036854775808
      = .error ReserveError.length_error := by
  refine ⟨by norm_num [sizeBits], ?_⟩
  have h0 : (9223372036854775808 * 30) % 2 ^ sizeBits = 0 := by norm_num [sizeBits]
  simp only [SourceIdsData.create, SourceIdsData.reserveCalls, reserveAll, h0]
  simp [vectorReserve, sampleVectorEnv]

end QmlDesigner
